import Mathlib

/-!
# OptSched: the ACO ready list and the node-superiority graph transformation

A shallow embedding of `lib/Scheduler/simplified_aco_ds.cpp` and
`lib/Scheduler/graph_trans.cpp`, with the properties of their specification.

## Conventions of the embedding

* `InstCount` is a C++ `int`; it is embedded as `Int`. The only arithmetic done on it is
  `RegionSize / 4`, `2 * CurrentCapacity`, `OldCap + OldCap / 2 + 1` and `++`/`--` on the size;
  the quotient `/` of C++ truncates and is `Int.tdiv`. The capacities stay far below `2 ^ 31`
  for every list that fits in memory, so no wrap-around is modelled.
* `HeurType` and `pheromone_t` values are only stored and copied by this code, never computed
  with; a value of either type is embedded as the `Int` that identifies it.
* Storage obtained from `new T[n]` lives in an explicit `Heap`; the objects hold pointers
  (`Ptr`) into it, so that sharing and ownership of storage can be stated.
* An access outside an allocation (or through `nullptr`, or to released storage) is undefined
  behaviour in C++. The embedding makes it observable and keeps every operation total: such a
  read yields `none` (`Heap.read?`), such a store writes nothing, and both raise the sticky flag
  `Heap.fault`. In the compiled program such a store lands in whatever storage lies there, so
  once `fault` is raised the heap of the embedding is no longer the memory of the program: what
  a run leaves in storage is stated for runs that end with `fault` false, and a raised `fault`
  is itself the finding.
* `assert(e)` aborts the program when `e` is false, unless the translation unit is compiled with
  `NDEBUG`, where it expands to nothing. Functions containing an `assert` take the flag `NDEBUG`
  and return `none` for the abort.
-/

namespace OptSched

/-! ## Memory -/

/-- A pointer: the block it points into (`none` for `nullptr`) and an element offset. -/
structure Ptr where
  blk : Option Nat
  off : Int
deriving DecidableEq, Repr

/-- The null pointer. -/
def nullptr : Ptr := ⟨none, 0⟩

/-- Pointer arithmetic `p + k`. -/
def Ptr.add (p : Ptr) (k : Int) : Ptr := ⟨p.blk, p.off + k⟩

/-- The heap: one entry per `new T[n]` executed so far, in order, holding the cells of the
allocation with its allocated length, or `none` once released by `delete[]`. `fault` records that
some access fell outside the storage it addressed. -/
structure Heap where
  blocks : List (Option (List Int))
  fault : Bool
deriving DecidableEq, Repr

/-- The heap before any allocation. -/
def Heap.empty : Heap := ⟨[], false⟩

/-- The live cells of the block that `p` points into. -/
def Heap.block (h : Heap) (p : Ptr) : Option (List Int) :=
  match p.blk with
  | none => none
  | some b => (h.blocks[b]?).join

/-- The value of `p[i]`, or `none` when the access is outside the allocation. -/
def Heap.read? (h : Heap) (p : Ptr) (i : Int) : Option Int :=
  match h.block p with
  | none => none
  | some cells => if 0 ≤ p.off + i then cells[(p.off + i).toNat]? else none

/-- The value an expression `p[i]` evaluates to (0 stands for the indeterminate value of an
invalid read; the read is then flagged by `Heap.touch`). -/
def Heap.load (h : Heap) (p : Ptr) (i : Int) : Int := (h.read? p i).getD 0

/-- The effect of reading `p[i]`: none, except for raising `fault` on an invalid read. -/
def Heap.touch (h : Heap) (p : Ptr) (i : Int) : Heap :=
  if (h.read? p i).isSome then h else { h with fault := true }

/-- The assignment `p[i] = v`. A store outside the allocation is undefined behaviour: it is not
performed here and raises `fault`, after which the contents of the heap stand for nothing. -/
def Heap.store (h : Heap) (p : Ptr) (i : Int) (v : Int) : Heap :=
  match p.blk, h.block p with
  | some b, some cells =>
    if 0 ≤ p.off + i ∧ (p.off + i).toNat < cells.length then
      { h with blocks := h.blocks.set b (some (cells.set (p.off + i).toNat v)) }
    else { h with fault := true }
  | _, _ => { h with fault := true }

/-- The assignment `dst[i] = src[j]`. -/
def Heap.copyCell (h : Heap) (dst : Ptr) (i : Int) (src : Ptr) (j : Int) : Heap :=
  (h.touch src j).store dst i (h.load src j)

/-- The expression `new T[n]`: a fresh block of `n` cells (their indeterminate initial contents
are written as 0) and the pointer to its first cell. -/
def Heap.alloc (h : Heap) (n : Int) : Heap × Ptr :=
  ({ h with blocks := h.blocks ++ [some (List.replicate n.toNat 0)] }, ⟨some h.blocks.length, 0⟩)

/-- The statement `delete[] p`: nothing for `nullptr`, release of the block for the pointer that
`new` returned, a fault otherwise. -/
def Heap.free (h : Heap) (p : Ptr) : Heap :=
  match p.blk with
  | none => h
  | some b =>
    match h.block p with
    | some _ => if p.off = 0 then { h with blocks := h.blocks.set b none } else { h with fault := true }
    | none => { h with fault := true }

/-! ## ACOReadyList -/

/-- The entry of a ready list, `ACOReadyListEntry`: its four fields, in the order of the
aggregate initialisation in `removeInstructionAtIndex`. -/
structure ACOReadyListEntry where
  InstId : Int
  ReadyOn : Int
  Heuristic : Int
  Score : Int
deriving DecidableEq, Repr

/-- The data members of `ACOReadyList` that `simplified_aco_ds.cpp` reads and writes. -/
structure ACOReadyList where
  InstrCount : Int
  PrimaryBufferCapacity : Int
  Overflowed : Bool
  CurrentCapacity : Int
  CurrentSize : Int
  IntAllocation : Ptr
  HeurAllocation : Ptr
  ScoreAllocation : Ptr
  InstrBase : Ptr
  ReadyOnBase : Ptr
  HeurBase : Ptr
  ScoreBase : Ptr
deriving DecidableEq, Repr

namespace ACOReadyList

/-- `ACOReadyList::computePrimaryCapacity`: `std::max(32, RegionSize/4)`. -/
def computePrimaryCapacity (RegionSize : Int) : Int :=
  max 32 (RegionSize.tdiv 4)

/-- `ACOReadyList::ACOReadyList()`. -/
def default : ACOReadyList :=
  { InstrCount := 0, CurrentSize := 0, CurrentCapacity := 0, PrimaryBufferCapacity := 0,
    Overflowed := false,
    IntAllocation := nullptr, HeurAllocation := nullptr, ScoreAllocation := nullptr,
    InstrBase := nullptr, ReadyOnBase := nullptr, HeurBase := nullptr, ScoreBase := nullptr }

/-- `ACOReadyList::ACOReadyList(InstCount RegionSize)`. -/
def create (h : Heap) (RegionSize : Int) : Heap × ACOReadyList :=
  let cap := computePrimaryCapacity RegionSize
  let a1 := h.alloc (2 * cap)
  let a2 := a1.1.alloc cap
  let a3 := a2.1.alloc cap
  (a3.1,
   { InstrCount := RegionSize, CurrentSize := 0, CurrentCapacity := cap,
     PrimaryBufferCapacity := cap, Overflowed := false,
     IntAllocation := a1.2, HeurAllocation := a2.2, ScoreAllocation := a3.2,
     InstrBase := a1.2, ReadyOnBase := a1.2.add cap, HeurBase := a2.2, ScoreBase := a3.2 })

/-- One iteration of the copy loops of the copy constructor and copy assignment: the four
assignments for index `I`, from the arrays of `src` to the arrays at the given bases. -/
def copyEntry (iB rB hB sB : Ptr) (src : ACOReadyList) (h : Heap) (I : Nat) : Heap :=
  let h1 := h.copyCell iB I src.InstrBase I
  let h2 := h1.copyCell rB I src.ReadyOnBase I
  let h3 := h2.copyCell hB I src.HeurBase I
  h3.copyCell sB I src.ScoreBase I

/-- The loop `for (InstCount I = 0; I < CurrentSize; ++I)` over `copyEntry`. -/
def copyEntries (iB rB hB sB : Ptr) (src : ACOReadyList) (h : Heap) (n : Int) : Heap :=
  (List.range n.toNat).foldl (copyEntry iB rB hB sB src) h

/-- `ACOReadyList::ACOReadyList(const ACOReadyList &Other)`. -/
def copy (h : Heap) (Other : ACOReadyList) : Heap × ACOReadyList :=
  let cap := Other.CurrentCapacity
  let a1 := h.alloc (2 * cap)
  let a2 := a1.1.alloc cap
  let a3 := a2.1.alloc cap
  let h4 := copyEntries a1.2 (a1.2.add cap) a2.2 a3.2 Other a3.1 Other.CurrentSize
  (h4,
   { InstrCount := Other.InstrCount, PrimaryBufferCapacity := Other.PrimaryBufferCapacity,
     Overflowed := Other.Overflowed, CurrentCapacity := cap, CurrentSize := Other.CurrentSize,
     IntAllocation := a1.2, HeurAllocation := a2.2, ScoreAllocation := a3.2,
     InstrBase := a1.2, ReadyOnBase := a1.2.add cap, HeurBase := a2.2, ScoreBase := a3.2 })

/-- The argument `const ACOReadyList &Other` of the copy assignment, a reference: it designates
a different object, or the assigned object itself (`this == &Other`, as in `L = L`). -/
inductive OtherRef where
  | distinct (Other : ACOReadyList)
  | self
deriving DecidableEq, Repr

/-- The object that the reference designates when the assigned object `*this` has the value
`this`: a field of `Other` read after `*this` was written is the written one when the two are the
same object. -/
def OtherRef.get : OtherRef → ACOReadyList → ACOReadyList
  | .distinct Other, _ => Other
  | .self, this => this

/-- `ACOReadyList::operator=(const ACOReadyList &Other)` applied to the object `this`, statement
by statement; the operator has no test for `this == &Other`. -/
def copyAssign (h : Heap) (this : ACOReadyList) (Other : OtherRef) : Heap × ACOReadyList :=
  -- `InstrCount = Other.InstrCount;` and the four assignments after it
  let t1 : ACOReadyList :=
    { this with InstrCount := (Other.get this).InstrCount,
                PrimaryBufferCapacity := (Other.get this).PrimaryBufferCapacity,
                Overflowed := (Other.get this).Overflowed,
                CurrentCapacity := (Other.get this).CurrentCapacity,
                CurrentSize := (Other.get this).CurrentSize }
  -- `delete[] IntAllocation;` and the two after it
  let d1 := h.free t1.IntAllocation
  let d2 := d1.free t1.HeurAllocation
  let d3 := d2.free t1.ScoreAllocation
  -- `IntAllocation = new InstCount[2*CurrentCapacity];` and the two after it
  let a1 := d3.alloc (2 * t1.CurrentCapacity)
  let a2 := a1.1.alloc t1.CurrentCapacity
  let a3 := a2.1.alloc t1.CurrentCapacity
  -- the shortcut pointers
  let t2 : ACOReadyList :=
    { t1 with IntAllocation := a1.2, HeurAllocation := a2.2, ScoreAllocation := a3.2,
              InstrBase := a1.2, ReadyOnBase := a1.2.add t1.CurrentCapacity,
              HeurBase := a2.2, ScoreBase := a3.2 }
  -- the copy loop, reading the arrays that `Other` has now
  let h4 := copyEntries t2.InstrBase t2.ReadyOnBase t2.HeurBase t2.ScoreBase (Other.get t2) a3.1
    t2.CurrentSize
  (h4, t2)

/-- `ACOReadyList::ACOReadyList(ACOReadyList &&Other)`: the constructed object and `Other` as the
constructor leaves it. The heap is not touched. -/
def move (Other : ACOReadyList) : ACOReadyList × ACOReadyList :=
  ({ InstrCount := Other.InstrCount, PrimaryBufferCapacity := Other.PrimaryBufferCapacity,
     Overflowed := Other.Overflowed, CurrentCapacity := Other.CurrentCapacity,
     CurrentSize := Other.CurrentSize,
     IntAllocation := Other.IntAllocation, HeurAllocation := Other.HeurAllocation,
     ScoreAllocation := Other.ScoreAllocation,
     InstrBase := Other.InstrBase, ReadyOnBase := Other.ReadyOnBase,
     HeurBase := Other.HeurBase, ScoreBase := Other.ScoreBase },
   { Other with IntAllocation := nullptr, HeurAllocation := nullptr, ScoreAllocation := nullptr })

/-- `ACOReadyList::operator=(ACOReadyList &&Other)` applied to `this`: the assigned object and
`Other` as the operator leaves it. The heap is not touched. -/
def moveAssign (this Other : ACOReadyList) : ACOReadyList × ACOReadyList :=
  ({ InstrCount := Other.InstrCount, PrimaryBufferCapacity := Other.PrimaryBufferCapacity,
     Overflowed := Other.Overflowed, CurrentCapacity := Other.CurrentCapacity,
     CurrentSize := Other.CurrentSize,
     IntAllocation := Other.IntAllocation, HeurAllocation := Other.HeurAllocation,
     ScoreAllocation := Other.ScoreAllocation,
     InstrBase := Other.InstrBase, ReadyOnBase := Other.ReadyOnBase,
     HeurBase := Other.HeurBase, ScoreBase := Other.ScoreBase },
   { Other with IntAllocation := this.IntAllocation, HeurAllocation := this.HeurAllocation,
                ScoreAllocation := this.ScoreAllocation })

/-- `ACOReadyList::~ACOReadyList()`. -/
def destroy (h : Heap) (this : ACOReadyList) : Heap :=
  ((h.free this.IntAllocation).free this.HeurAllocation).free this.ScoreAllocation

/-- One iteration of the copy loop of the reallocation in `addInstructionToReadyList`:
`NewIntFallback[NewInstrOffset + I] = InstrBase[I]` and the three assignments after it. -/
def growEntry (L : ACOReadyList) (nI nH nS : Ptr) (NewInstrOffset NewReadyOnOffset HeurOffset
    ScoreOffset : Int) (h : Heap) (I : Nat) : Heap :=
  let h1 := h.copyCell nI (NewInstrOffset + I) L.InstrBase I
  let h2 := h1.copyCell nI (NewReadyOnOffset + I) L.ReadyOnBase I
  let h3 := h2.copyCell nH (HeurOffset + I) L.HeurBase I
  h3.copyCell nS (ScoreOffset + I) L.ScoreBase I

/-- The branch `if (CurrentSize == CurrentCapacity) { ... }` of `addInstructionToReadyList`
(the log message is not modelled). -/
def grow (h : Heap) (L : ACOReadyList) : Heap × ACOReadyList :=
  let OldCap := L.CurrentCapacity
  let NewCap := OldCap + OldCap.tdiv 2 + 1
  let a1 := h.alloc NewCap
  let a2 := a1.1.alloc NewCap
  let a3 := a2.1.alloc NewCap
  let NewInstrOffset : Int := 0
  let NewReadyOnOffset : Int := NewCap
  let HeurOffset : Int := 0
  let ScoreOffset : Int := 0
  let h4 := (List.range L.CurrentSize.toNat).foldl
    (growEntry L a1.2 a2.2 a3.2 NewInstrOffset NewReadyOnOffset HeurOffset ScoreOffset) a3.1
  let h5 := ((h4.free L.IntAllocation).free L.HeurAllocation).free L.ScoreAllocation
  (h5,
   { L with IntAllocation := a1.2, HeurAllocation := a2.2, ScoreAllocation := a3.2,
            InstrBase := a1.2.add NewInstrOffset, ReadyOnBase := a1.2.add NewReadyOnOffset,
            HeurBase := a2.2.add HeurOffset, ScoreBase := a3.2.add ScoreOffset,
            Overflowed := true, CurrentCapacity := NewCap })

/-- `ACOReadyList::addInstructionToReadyList`. -/
def addInstructionToReadyList (h : Heap) (L : ACOReadyList) (Entry : ACOReadyListEntry) :
    Heap × ACOReadyList :=
  let s := if L.CurrentSize = L.CurrentCapacity then grow h L else (h, L)
  let h1 := s.1.store s.2.InstrBase s.2.CurrentSize Entry.InstId
  let h2 := h1.store s.2.ReadyOnBase s.2.CurrentSize Entry.ReadyOn
  let h3 := h2.store s.2.HeurBase s.2.CurrentSize Entry.Heuristic
  let h4 := h3.store s.2.ScoreBase s.2.CurrentSize Entry.Score
  (h4, { s.2 with CurrentSize := s.2.CurrentSize + 1 })

/-- The expression asserted at the head of `removeInstructionAtIndex`:
`CurrentSize <= 0 || Indx >= CurrentSize || Indx < 0`. -/
def removeAssertion (L : ACOReadyList) (Indx : Int) : Bool :=
  decide (L.CurrentSize ≤ 0) || decide (Indx ≥ L.CurrentSize) || decide (Indx < 0)

/-- The statements of `removeInstructionAtIndex` after its assertion. -/
def removeBody (h : Heap) (L : ACOReadyList) (Indx : Int) :
    ACOReadyListEntry × Heap × ACOReadyList :=
  let E : ACOReadyListEntry :=
    ⟨h.load L.InstrBase Indx, h.load L.ReadyOnBase Indx, h.load L.HeurBase Indx,
     h.load L.ScoreBase Indx⟩
  let h0 := (((h.touch L.InstrBase Indx).touch L.ReadyOnBase Indx).touch L.HeurBase Indx).touch
    L.ScoreBase Indx
  let EndIndx := L.CurrentSize - 1
  let h1 := h0.copyCell L.InstrBase Indx L.InstrBase EndIndx
  let h2 := h1.copyCell L.ReadyOnBase Indx L.ReadyOnBase EndIndx
  let h3 := h2.copyCell L.HeurBase Indx L.HeurBase EndIndx
  let h4 := h3.copyCell L.ScoreBase Indx L.ScoreBase EndIndx
  (E, h4, { L with CurrentSize := EndIndx })

/-- `ACOReadyList::removeInstructionAtIndex`: `none` when the assertion aborts the call. -/
def removeInstructionAtIndex (NDEBUG : Bool) (h : Heap) (L : ACOReadyList) (Indx : Int) :
    Option (ACOReadyListEntry × Heap × ACOReadyList) :=
  if NDEBUG || removeAssertion L Indx then some (removeBody h L Indx) else none

/-- Indexed read access: the entry at logical position `p`, read through the four base pointers;
`none` when one of the four reads is outside its allocation. -/
def entryAt? (h : Heap) (L : ACOReadyList) (p : Int) : Option ACOReadyListEntry :=
  match h.read? L.InstrBase p, h.read? L.ReadyOnBase p, h.read? L.HeurBase p,
    h.read? L.ScoreBase p with
  | some a, some b, some c, some d => some ⟨a, b, c, d⟩
  | _, _, _, _ => none

/-- The class invariant that the constructors establish: the size is within the capacity, the
integer allocation holds `2 * CurrentCapacity` cells with the instruction ids at its start and
the ready-on cycles `CurrentCapacity` cells further, the heuristic and score allocations hold
`CurrentCapacity` cells each, and the three allocations are distinct live blocks. -/
def WellFormed (h : Heap) (L : ACOReadyList) : Prop :=
  0 ≤ L.CurrentSize ∧ L.CurrentSize ≤ L.CurrentCapacity ∧
  L.IntAllocation.off = 0 ∧ L.HeurAllocation.off = 0 ∧ L.ScoreAllocation.off = 0 ∧
  L.InstrBase = L.IntAllocation ∧ L.ReadyOnBase = L.IntAllocation.add L.CurrentCapacity ∧
  L.HeurBase = L.HeurAllocation ∧ L.ScoreBase = L.ScoreAllocation ∧
  (h.block L.IntAllocation).map List.length = some (2 * L.CurrentCapacity).toNat ∧
  (h.block L.HeurAllocation).map List.length = some L.CurrentCapacity.toNat ∧
  (h.block L.ScoreAllocation).map List.length = some L.CurrentCapacity.toNat ∧
  L.IntAllocation.blk ≠ L.HeurAllocation.blk ∧ L.IntAllocation.blk ≠ L.ScoreAllocation.blk ∧
  L.HeurAllocation.blk ≠ L.ScoreAllocation.blk

instance (h : Heap) (L : ACOReadyList) : Decidable (WellFormed h L) := by
  unfold WellFormed
  infer_instance

/-- The list obtained from `start` by one `addInstructionToReadyList` call per entry, in order. -/
def addAll (start : Heap × ACOReadyList) (es : List ACOReadyListEntry) : Heap × ACOReadyList :=
  es.foldl (fun s e => addInstructionToReadyList s.1 s.2 e) start

/-- Three sample entries. -/
def I1 : ACOReadyListEntry := ⟨1, 10, 100, 1000⟩

/-- Second sample entry. -/
def I2 : ACOReadyListEntry := ⟨2, 20, 200, 2000⟩

/-- Third sample entry. -/
def I3 : ACOReadyListEntry := ⟨3, 30, 300, 3000⟩

/-- Scenario B: the list for a region of 8 instructions after adding `I1`, `I2`, `I3`. -/
def scenarioB : Heap × ACOReadyList := addAll (create Heap.empty 8) [I1, I2, I3]

/-- The bookkeeping of one `addInstructionToReadyList` call on (size, capacity, overflow flag,
number of reallocations so far), as the branch on `CurrentSize == CurrentCapacity` performs it. -/
def addCounts (t : Int × Int × Bool × Nat) : Int × Int × Bool × Nat :=
  if t.1 = t.2.1 then (t.1 + 1, t.2.1 + t.2.1.tdiv 2 + 1, true, t.2.2.2 + 1)
  else (t.1 + 1, t.2.1, t.2.2.1, t.2.2.2)

/-- Scenario A before the overflow: the list for a region of 8 instructions (capacity 32) after
32 adds, entry `n` holding instruction `n`, ready on cycle `100 + n`. -/
def scenarioA : Heap × ACOReadyList :=
  addAll (create Heap.empty 8) ((List.range 32).map fun n => ⟨n, 100 + n, 200 + n, 300 + n⟩)

/-- A call made by the driver on its ready list. -/
inductive Call where
  | Add (Entry : ACOReadyListEntry)
  | RemoveAt (Indx : Int)
deriving DecidableEq, Repr

/-- Whether the call is an `Add`. -/
def Call.isAdd : Call → Bool
  | .Add _ => true
  | .RemoveAt _ => false

/-- The effect of one call on the heap and the list; `none` when an assertion aborts it. -/
def Call.apply (NDEBUG : Bool) (s : Heap × ACOReadyList) : Call → Option (Heap × ACOReadyList)
  | .Add Entry => some (addInstructionToReadyList s.1 s.2 Entry)
  | .RemoveAt Indx => (removeInstructionAtIndex NDEBUG s.1 s.2 Indx).map fun r => r.2

/-- The effect of a sequence of calls, in order. -/
def runCalls (NDEBUG : Bool) : Heap × ACOReadyList → List Call → Option (Heap × ACOReadyList)
  | s, [] => some s
  | s, c :: cs =>
    match c.apply NDEBUG s with
    | some s' => runCalls NDEBUG s' cs
    | none => none

/-- Every `RemoveAt` of the sequence satisfies `0 ≤ Indx < CurrentSize` when it is made. -/
def CallsValid : Heap × ACOReadyList → List Call → Prop
  | _, [] => True
  | s, .Add Entry :: cs => CallsValid (addInstructionToReadyList s.1 s.2 Entry) cs
  | s, .RemoveAt Indx :: cs =>
    0 ≤ Indx ∧ Indx < s.2.CurrentSize ∧ CallsValid (removeBody s.1 s.2 Indx).2 cs

instance CallsValid.decidable : (s : Heap × ACOReadyList) → (cs : List Call) →
    Decidable (CallsValid s cs)
  | _, [] => isTrue trivial
  | s, .Add Entry :: cs => CallsValid.decidable (addInstructionToReadyList s.1 s.2 Entry) cs
  | s, .RemoveAt Indx :: cs =>
    have := CallsValid.decidable (removeBody s.1 s.2 Indx).2 cs
    inferInstanceAs (Decidable (0 ≤ Indx ∧ Indx < s.2.CurrentSize ∧
      CallsValid (removeBody s.1 s.2 Indx).2 cs))

/-- The number of `Add` calls of a sequence. -/
def countAdd (cs : List Call) : Nat := (cs.filter Call.isAdd).length

/-- The number of `RemoveAt` calls of a sequence. -/
def countRemoveAt (cs : List Call) : Nat := (cs.filter fun c => !c.isAdd).length

/-- A sample sequence of calls: three adds, a removal at index 0, an add, a removal at
index 2. -/
def sampleCalls : List Call :=
  [.Add I1, .Add I2, .Add I3, .RemoveAt 0, .Add I1, .RemoveAt 2]

/-- Scenario A as a sequence of calls: 33 adds, then the removal of index 0. -/
def overflowCalls : List Call :=
  (List.replicate 33 (Call.Add I1)) ++ [Call.RemoveAt 0]

end ACOReadyList

/-- The two heaps hold the same cells in the blocks `bs`: every read through a pointer into one
of these blocks gives the same result in both. -/
def Heap.AgreeOn (bs : List (Option Nat)) (h h' : Heap) : Prop :=
  ∀ (q : Ptr) (j : Int), q.blk ∈ bs → h'.read? q j = h.read? q j

namespace ACOReadyList

/-- The blocks a list owns: those of its three allocation pointers. -/
def owned (L : ACOReadyList) : List (Option Nat) :=
  [L.IntAllocation.blk, L.HeurAllocation.blk, L.ScoreAllocation.blk]

/-- The blocks a list reads and writes its entries in: those of its four base pointers. -/
def reads (L : ACOReadyList) : List (Option Nat) :=
  [L.InstrBase.blk, L.ReadyOnBase.blk, L.HeurBase.blk, L.ScoreBase.blk]

/-- No pointer of `A` points into a block in which `B` keeps its entries. -/
def Separate (A B : ACOReadyList) : Prop :=
  ∀ x ∈ owned A ++ reads A, x ∉ reads B

/-- The blocks `bs` are blocks of the heap `h` (allocated before now). -/
def Live (h : Heap) (bs : List (Option Nat)) : Prop :=
  ∀ x ∈ bs, ∃ b, x = some b ∧ b < h.blocks.length

end ACOReadyList

/-! ## The dependence graph and the node-superiority transformation

The classes `DataDepGraph`, `SchedInstruction`, `GraphNode`, `Register`, `BitVector` and
`LinkedList` are declared outside `graph_trans.cpp`; the parts of them that the transformation
uses are modelled below from the specification. An instruction (`SchedInstruction *`) is its
index in the graph and a register (`Register *`) is a number identifying it. -/

/-- Modelled from the spec: the kind of a dependence edge; the transformation creates edges of
kind `DEP_OTHER` ("artificial ordering") only. -/
inductive DependenceType where
  | DEP_DATA
  | DEP_ANTI
  | DEP_OUTPUT
  | DEP_OTHER
deriving DecidableEq, Repr

/-- Modelled from the spec: an edge (source, target, latency, kind). -/
structure GraphEdge where
  src : Nat
  dst : Nat
  label : Int
  depType : DependenceType
deriving DecidableEq, Repr

/-- Modelled from the spec: the success/failure result of a transformation. -/
inductive FUNC_RESULT where
  | RES_SUCCESS
  | RES_FAIL
deriving DecidableEq, Repr

/-- Modelled from the spec: the dependence graph with the data the transformation consumes. Per
instruction: issue type, node id, ordered use and def register lists, and the recursive
predecessor and successor sets (one list stands for the enumerable list and the bit vector of the
same set). Per register: its type and the list of instructions using it. -/
structure DataDepGraph where
  instCnt : Nat
  issueType : Nat → Nat
  nodeID : Nat → Nat
  uses : Nat → List Nat
  defs : Nat → List Nat
  regTypeCnt : Nat
  regType : Nat → Nat
  regUseList : Nat → List Nat
  rcrsvPrdcsr : Nat → List Nat
  rcrsvScsr : Nat → List Nat
  edges : List GraphEdge

namespace DataDepGraph

/-- Modelled from the spec: `inst->IsRcrsvPrdcsr(other)`, whether `other` is a recursive
predecessor of `inst`. -/
def IsRcrsvPrdcsr (g : DataDepGraph) (inst other : Nat) : Bool :=
  decide (other ∈ g.rcrsvPrdcsr inst)

/-- Modelled from the spec: `inst->IsRcrsvScsr(other)`, whether `other` is a recursive successor
of `inst`. -/
def IsRcrsvScsr (g : DataDepGraph) (inst other : Nat) : Bool :=
  decide (other ∈ g.rcrsvScsr inst)

/-- Modelled from the spec: `inst->AddRcrsvPrdcsr(other)`, which records `other` as a recursive
predecessor of `inst`. -/
def AddRcrsvPrdcsr (g : DataDepGraph) (inst other : Nat) : DataDepGraph :=
  { g with rcrsvPrdcsr := fun n => if n = inst then g.rcrsvPrdcsr n ++ [other]
                                   else g.rcrsvPrdcsr n }

/-- Modelled from the spec: `inst->AddRcrsvScsr(other)`, which records `other` as a recursive
successor of `inst`. -/
def AddRcrsvScsr (g : DataDepGraph) (inst other : Nat) : DataDepGraph :=
  { g with rcrsvScsr := fun n => if n = inst then g.rcrsvScsr n ++ [other] else g.rcrsvScsr n }

/-- Modelled from the spec: the edge-creation primitive `CreateEdge(src, dst, latency, kind)`; it
adds the edge and leaves the recursive sets to the caller. -/
def CreateEdge (g : DataDepGraph) (src dst : Nat) (ltncy : Int) (depType : DependenceType) :
    DataDepGraph :=
  { g with edges := g.edges ++ [⟨src, dst, ltncy, depType⟩] }

/-- Modelled from the spec: `a->IsSubVector(b)` on the bit vectors of two sets, whether every
member of `a` is a member of `b`. -/
def IsSubVector (a b : List Nat) : Bool :=
  a.all fun x => decide (x ∈ b)

end DataDepGraph

/-- `possiblyLengthenedIfAfterOther`: the registers of `bUses` that `nodeA` does not use and
that have no user other than `nodeB` among the recursive successors of `nodeA`. -/
def possiblyLengthenedIfAfterOther (g : DataDepGraph) (nodeB : Nat) (bUses : List Nat)
    (nodeA : Nat) (aUses : List Nat) : List Nat :=
  bUses.filter fun useB =>
    let usedByA := aUses.any fun useA => useA == useB
    let usedByC := (g.regUseList useB).any fun user =>
      user != nodeB && g.IsRcrsvScsr nodeA user
    !usedByA && !usedByC

/-- The vector of `regTypes` counters after `++v[reg->GetType()]` for every register of `regs`
(a register whose type is not below `regTypes` would be counted outside the vector and is not
counted). -/
def countByType (g : DataDepGraph) (regTypes : Nat) (regs : List Nat) : List Nat :=
  (List.range regTypes).map fun t => (regs.filter fun r => g.regType r == t).length

/-- `GraphTrans::AreNodesIndep_`. -/
def AreNodesIndep_ (g : DataDepGraph) (inst1 inst2 : Nat) : Bool :=
  inst1 != inst2 && !g.IsRcrsvPrdcsr inst1 inst2 && !g.IsRcrsvScsr inst1 inst2

/-- The body of the inner loop of `UpdatePrdcsrAndScsr_` for the pair `X`, `Y`. -/
def updatePair (X : Nat) (g : DataDepGraph) (Y : Nat) : DataDepGraph :=
  if !g.IsRcrsvScsr X Y then (g.AddRcrsvPrdcsr Y X).AddRcrsvScsr X Y else g

/-- `GraphTrans::UpdatePrdcsrAndScsr_`. The two loops run over the recursive predecessors of
`nodeA` and the recursive successors of `nodeB` as the lists are when the loops start. -/
def UpdatePrdcsrAndScsr_ (g : DataDepGraph) (nodeA nodeB : Nat) : DataDepGraph :=
  let g1 := g.AddRcrsvScsr nodeA nodeB
  let g2 := g1.AddRcrsvPrdcsr nodeB nodeA
  let nodeBScsrLst := g2.rcrsvScsr nodeB
  let nodeAPrdcsrLst := g2.rcrsvPrdcsr nodeA
  nodeAPrdcsrLst.foldl (fun gx X => nodeBScsrLst.foldl (updatePair X) gx) g2

/-- `StaticNodeSupTrans::NodeIsSuperior_`. -/
def NodeIsSuperior_ (g : DataDepGraph) (nodeA nodeB : Nat) : Bool :=
  if g.issueType nodeA != g.issueType nodeB then false
  else if !DataDepGraph.IsSubVector (g.rcrsvPrdcsr nodeA) (g.rcrsvPrdcsr nodeB) then false
  else if !DataDepGraph.IsSubVector (g.rcrsvScsr nodeB) (g.rcrsvScsr nodeA) then false
  else
    let regTypes := g.regTypeCnt
    let usesA := g.uses nodeA
    let usesB := g.uses nodeB
    let defsA := g.defs nodeA
    let defsB := g.defs nodeB
    let usesLengthenedByB :=
      countByType g regTypes (possiblyLengthenedIfAfterOther g nodeB usesB nodeA usesA)
    let usesShortenedByA :=
      countByType g regTypes (possiblyLengthenedIfAfterOther g nodeA usesA nodeB usesB)
    let swapShortensUses :=
      (usesShortenedByA.zip usesLengthenedByB).all fun regUses => decide (regUses.1 ≥ regUses.2)
    if !swapShortensUses then false
    else
      let numADefsByType := countByType g regTypes defsA
      let numBDefsByType := countByType g regTypes defsB
      (numADefsByType.zip numBDefsByType).all fun regDefs => decide (regDefs.1 ≤ regDefs.2)

/-- `StaticNodeSupTrans::AddSuperiorEdge_`. -/
def AddSuperiorEdge_ (g : DataDepGraph) (nodeA nodeB : Nat) : DataDepGraph :=
  UpdatePrdcsrAndScsr_ (g.CreateEdge nodeA nodeB 0 DependenceType.DEP_OTHER) nodeA nodeB

/-- `StaticNodeSupTrans::TryAddingSuperiorEdge_`: whether an edge was added, and the graph. -/
def TryAddingSuperiorEdge_ (g : DataDepGraph) (nodeA nodeB : Nat) : Bool × DataDepGraph :=
  let p := if g.nodeID nodeA > g.nodeID nodeB then (nodeB, nodeA) else (nodeA, nodeB)
  if NodeIsSuperior_ g p.1 p.2 then (true, AddSuperiorEdge_ g p.1 p.2)
  else if NodeIsSuperior_ g p.2 p.1 then (true, AddSuperiorEdge_ g p.2 p.1)
  else (false, g)

/-- The state of a pass over pairs: the graph, the list `indepNodes`, the flag `didAddEdge`. -/
structure PassState where
  graph : DataDepGraph
  indepNodes : List (Nat × Nat)
  didAddEdge : Bool

/-- The body of the inner loop of the first pass of `ApplyTrans`, for the pair `i`, `j`. -/
def firstPassBody (i : Nat) (s : PassState) (j : Nat) : PassState :=
  if i == j then s
  else if AreNodesIndep_ s.graph i j then
    let r := TryAddingSuperiorEdge_ s.graph i j
    if !r.1 then ⟨r.2, s.indepNodes ++ [(i, j)], r.1⟩ else ⟨r.2, s.indepNodes, r.1⟩
  else s

/-- The first pass of `ApplyTrans`: `for i in [0, numNodes)`, `for j in [i + 1, numNodes)`. -/
def firstPass (numNodes : Nat) (g : DataDepGraph) : PassState :=
  (List.range numNodes).foldl
    (fun s i => (List.range' (i + 1) (numNodes - (i + 1))).foldl (firstPassBody i) s)
    ⟨g, [], false⟩

/-- One sweep of `nodeMultiPass_` over the list from `pair` to its end: the graph, `didAddEdge`
and the pairs that stay in the list. -/
def multiPassSweep : DataDepGraph → Bool → List (Nat × Nat) → PassState
  | g, didAddEdge, [] => ⟨g, [], didAddEdge⟩
  | g, didAddEdge, pair :: rest =>
    if !AreNodesIndep_ g pair.1 pair.2 then multiPassSweep g didAddEdge rest
    else
      let r := TryAddingSuperiorEdge_ g pair.1 pair.2
      if r.1 then multiPassSweep r.2 true rest
      else
        let s := multiPassSweep r.2 didAddEdge rest
        ⟨s.graph, pair :: s.indepNodes, s.didAddEdge⟩

/-- The loop `while (didAddEdge && indepNodes.size() > 0)` of `nodeMultiPass_`, run for at most
`fuel` sweeps. -/
def multiPassLoop : Nat → DataDepGraph → List (Nat × Nat) → Bool → DataDepGraph
  | 0, g, _, _ => g
  | fuel + 1, g, indepNodes, didAddEdge =>
    if didAddEdge && decide (indepNodes.length > 0) then
      let s := multiPassSweep g false indepNodes
      multiPassLoop fuel s.graph s.indepNodes s.didAddEdge
    else g

/-- `StaticNodeSupTrans::nodeMultiPass_`. A sweep that adds an edge removes a pair from the list,
so the loop makes at most `indepNodes.length + 1` sweeps (`multiPassLoop_fuel`). -/
def nodeMultiPass_ (g : DataDepGraph) (indepNodes : List (Nat × Nat)) : DataDepGraph :=
  multiPassLoop (indepNodes.length + 1) g indepNodes true

/-- `StaticNodeSupTrans::ApplyTrans` for a transformation constructed on the graph `g` with the
flag `IsMultiPass`. -/
def ApplyTrans (IsMultiPass : Bool) (g : DataDepGraph) : FUNC_RESULT × DataDepGraph :=
  let numNodes := g.instCnt
  let s := firstPass numNodes g
  let g' := if IsMultiPass then nodeMultiPass_ s.graph s.indepNodes else s.graph
  (FUNC_RESULT.RES_SUCCESS, g')

/-! ### Reachability -/

/-- There is an edge from `a` to `b` in the edge list. -/
def EdgeRel (es : List GraphEdge) (a b : Nat) : Prop :=
  ∃ e ∈ es, e.src = a ∧ e.dst = b

/-- There is a dependence path (of at least one edge) from `a` to `b`. -/
def Reach (es : List GraphEdge) (a b : Nat) : Prop :=
  Relation.TransGen (EdgeRel es) a b

/-- The graph is acyclic. -/
def Acyclic (g : DataDepGraph) : Prop :=
  ∀ a, ¬ Reach g.edges a a

/-- The recursive successor and predecessor sets are exactly the transitive closure of the edge
set, in both directions. -/
def ExactReach (g : DataDepGraph) : Prop :=
  ∀ a b, (b ∈ g.rcrsvScsr a ↔ Reach g.edges a b) ∧ (a ∈ g.rcrsvPrdcsr b ↔ Reach g.edges a b)

/-- The recursive sets are mutually consistent: `a` is a recursive predecessor of `b` exactly
when `b` is a recursive successor of `a`. -/
def Consistent (g : DataDepGraph) : Prop :=
  ∀ a b, a ∈ g.rcrsvPrdcsr b ↔ b ∈ g.rcrsvScsr a

/-- Every edge of `added`, appended in order to `es`, has latency 0 and kind `DEP_OTHER` and joins
two different instructions with no dependence path between them, in either direction, in the
edge list as it is just before that edge is appended. -/
def AddedIndep : List GraphEdge → List GraphEdge → Prop
  | _, [] => True
  | es, e :: rest =>
    (e.src ≠ e.dst ∧ ¬ Reach es e.src e.dst ∧ ¬ Reach es e.dst e.src ∧ e.label = 0 ∧
      e.depType = DependenceType.DEP_OTHER) ∧ AddedIndep (es ++ [e]) rest

/-- A sample graph: three instructions of the same issue type without registers, and the one
dependence `0 -> 2`. -/
def threeNodes : DataDepGraph :=
  { instCnt := 3, issueType := fun _ => 0, nodeID := fun n => n, uses := fun _ => [],
    defs := fun _ => [], regTypeCnt := 1, regType := fun _ => 0, regUseList := fun _ => [],
    rcrsvPrdcsr := fun n => if n = 2 then [0] else [],
    rcrsvScsr := fun n => if n = 0 then [2] else [],
    edges := [⟨0, 2, 1, DependenceType.DEP_DATA⟩] }

/-- The invariant of a pass started on the graph `g0`: the current graph is acyclic, its
recursive sets are exact, and its edges are those of `g0` followed by edges that each joined an
independent pair when added. -/
def PassInv (g0 g : DataDepGraph) : Prop :=
  Acyclic g ∧ ExactReach g ∧
    ∃ added, g.edges = g0.edges ++ added ∧ AddedIndep g0.edges added

/-! ### The superiority test in the words of the specification -/

/-- The number of type-`t` registers in the use list of `A` that `B` does not use and that have
no user other than `A` among the recursive successors of `B`. -/
def lastUseCount (g : DataDepGraph) (t A B : Nat) : Nat :=
  ((g.uses A).filter fun r =>
    decide (g.regType r = t ∧ r ∉ g.uses B ∧
      ∀ user ∈ g.regUseList r, user ∈ g.rcrsvScsr B → user = A)).length

/-- The number of type-`t` registers that `A` defines. -/
def defCount (g : DataDepGraph) (t A : Nat) : Nat :=
  ((g.defs A).filter fun r => decide (g.regType r = t)).length

/-- The five conditions of the specification for "`A` is superior to `B`". -/
def SuperiorSpec (g : DataDepGraph) (A B : Nat) : Prop :=
  g.issueType A = g.issueType B ∧
  (∀ x ∈ g.rcrsvPrdcsr A, x ∈ g.rcrsvPrdcsr B) ∧
  (∀ y ∈ g.rcrsvScsr B, y ∈ g.rcrsvScsr A) ∧
  (∀ t, t < g.regTypeCnt → lastUseCount g t A B ≥ lastUseCount g t B A) ∧
  (∀ t, t < g.regTypeCnt → defCount g t A ≤ defCount g t B)

/-- The two graphs have the same instructions and registers: everything but the edges and the
recursive sets is equal. -/
def SameInsts (g g' : DataDepGraph) : Prop :=
  g'.instCnt = g.instCnt ∧ g'.issueType = g.issueType ∧ g'.nodeID = g.nodeID ∧
  g'.uses = g.uses ∧ g'.defs = g.defs ∧ g'.regTypeCnt = g.regTypeCnt ∧
  g'.regType = g.regType ∧ g'.regUseList = g.regUseList

/-- The node of the pair that `TryAddingSuperiorEdge_` tests first as the superior one: `nodeA`
after the swap `if (nodeA->GetNodeID() > nodeB->GetNodeID())`. -/
def lowerId (g : DataDepGraph) (a b : Nat) : Nat :=
  if g.nodeID a > g.nodeID b then b else a

/-- The other node of the pair: `nodeB` after the swap. -/
def higherId (g : DataDepGraph) (a b : Nat) : Nat :=
  if g.nodeID a > g.nodeID b then a else b

/-- The edge that `AddSuperiorEdge_(a, b)` creates. -/
def superiorEdge (a b : Nat) : GraphEdge :=
  ⟨a, b, 0, DependenceType.DEP_OTHER⟩

/-- A sample graph: the chains `0 -> 1` and `2 -> 3`, unrelated to each other. -/
def fourNodes : DataDepGraph :=
  { instCnt := 4, issueType := fun _ => 0, nodeID := fun n => n, uses := fun _ => [],
    defs := fun _ => [], regTypeCnt := 1, regType := fun _ => 0, regUseList := fun _ => [],
    rcrsvPrdcsr := fun n => if n = 1 then [0] else if n = 3 then [2] else [],
    rcrsvScsr := fun n => if n = 0 then [1] else if n = 2 then [3] else [],
    edges := [⟨0, 1, 1, DependenceType.DEP_DATA⟩, ⟨2, 3, 1, DependenceType.DEP_DATA⟩] }

/-- A sample graph: two instructions of the same issue type, without registers and without
dependences. -/
def twoNodes : DataDepGraph :=
  { instCnt := 2, issueType := fun _ => 0, nodeID := fun n => n, uses := fun _ => [],
    defs := fun _ => [], regTypeCnt := 1, regType := fun _ => 0, regUseList := fun _ => [],
    rcrsvPrdcsr := fun _ => [], rcrsvScsr := fun _ => [], edges := [] }

/-- The loop of `nodeMultiPass_` run for at most `fuel` sweeps, with the number of sweeps made
and the state (graph, list, `didAddEdge`) in which it stops. -/
def multiPassRun : Nat → DataDepGraph → List (Nat × Nat) → Bool → Nat × PassState
  | 0, g, indepNodes, didAddEdge => (0, ⟨g, indepNodes, didAddEdge⟩)
  | fuel + 1, g, indepNodes, didAddEdge =>
    if didAddEdge && decide (indepNodes.length > 0) then
      let s := multiPassSweep g false indepNodes
      let r := multiPassRun fuel s.graph s.indepNodes s.didAddEdge
      (r.1 + 1, r.2)
    else (0, ⟨g, indepNodes, didAddEdge⟩)

/-- A graph of the kind of Scenario C in which `A` has a predecessor: `X = 0`, `A = 1`, `B = 2`,
with the dependence `X -> A`. `A` and `B` have the same issue type and both use register 0; `A`
defines nothing; `B` defines register 1, of register type 1. -/
def scenarioCPred : DataDepGraph :=
  { instCnt := 3, issueType := fun n => if n = 0 then 1 else 0, nodeID := fun n => n,
    uses := fun n => if n = 1 ∨ n = 2 then [0] else [],
    defs := fun n => if n = 2 then [1] else [], regTypeCnt := 2, regType := fun r => r,
    regUseList := fun r => if r = 0 then [1, 2] else [],
    rcrsvPrdcsr := fun n => if n = 1 then [0] else [],
    rcrsvScsr := fun n => if n = 0 then [1] else [],
    edges := [⟨0, 1, 1, DependenceType.DEP_OTHER⟩] }

/-- Scenario C with two instructions only: `A = 0`, `B = 1`, no dependence. Both use register 0;
`A` defines nothing; `B` defines register 1, of register type 1. -/
def scenarioC : DataDepGraph :=
  { instCnt := 2, issueType := fun _ => 0, nodeID := fun n => n, uses := fun _ => [0],
    defs := fun n => if n = 1 then [1] else [], regTypeCnt := 2, regType := fun r => r,
    regUseList := fun r => if r = 0 then [0, 1] else [],
    rcrsvPrdcsr := fun _ => [], rcrsvScsr := fun _ => [], edges := [] }

/-- The recursive sets of `g'` contain those of `g`. -/
def Grows (g g' : DataDepGraph) : Prop :=
  (∀ x y, y ∈ g.rcrsvScsr x → y ∈ g'.rcrsvScsr x) ∧
  (∀ x y, x ∈ g.rcrsvPrdcsr y → x ∈ g'.rcrsvPrdcsr y)

/-- The pair `a`, `b` is one on which the transformation adds an edge: the two instructions are
independent and one of them is superior to the other. -/
def Active (g : DataDepGraph) (a b : Nat) : Prop :=
  AreNodesIndep_ g a b = true ∧ (NodeIsSuperior_ g a b = true ∨ NodeIsSuperior_ g b a = true)

/-- The pairs that the inner loop of the first pass of `ApplyTrans` visits for the index `i`. -/
def pairsFrom (numNodes i : Nat) : List (Nat × Nat) :=
  (List.range' (i + 1) (numNodes - (i + 1))).map fun j => (i, j)

/-- The pairs that the first pass of `ApplyTrans` visits, in order. -/
def allPairs (numNodes : Nat) : List (Nat × Nat) :=
  ((List.range numNodes).map (pairsFrom numNodes)).flatten

/-- A sample graph: three instructions of the same issue type; instruction 1 defines register 0
and precedes instruction 2; instruction 0 is unrelated to both. -/
def lateSuperior : DataDepGraph :=
  { instCnt := 3, issueType := fun _ => 0, nodeID := fun n => n, uses := fun _ => [],
    defs := fun n => if n = 1 then [0] else [], regTypeCnt := 1, regType := fun _ => 0,
    regUseList := fun _ => [],
    rcrsvPrdcsr := fun n => if n = 2 then [1] else [],
    rcrsvScsr := fun n => if n = 1 then [2] else [],
    edges := [⟨1, 2, 1, DependenceType.DEP_OTHER⟩] }

/-- A sample graph: the diamond `0 -> 1 -> 3`, `0 -> 2 -> 3` of four instructions of the same
issue type without registers; instructions 1 and 2 are independent. -/
def diamond : DataDepGraph :=
  { instCnt := 4, issueType := fun _ => 0, nodeID := fun n => n, uses := fun _ => [],
    defs := fun _ => [], regTypeCnt := 1, regType := fun _ => 0, regUseList := fun _ => [],
    rcrsvPrdcsr := fun n =>
      if n = 1 then [0] else if n = 2 then [0] else if n = 3 then [1, 2, 0] else [],
    rcrsvScsr := fun n =>
      if n = 0 then [1, 2, 3] else if n = 1 then [3] else if n = 2 then [3] else [],
    edges := [⟨0, 1, 1, DependenceType.DEP_DATA⟩, ⟨0, 2, 1, DependenceType.DEP_DATA⟩,
      ⟨1, 3, 1, DependenceType.DEP_DATA⟩, ⟨2, 3, 1, DependenceType.DEP_DATA⟩] }

/-! # Theorems -/

/-! ## Lemmas on the memory model -/

theorem Heap.read?_eq_of_blocks {h h' : Heap} (e : h'.blocks = h.blocks) (q : Ptr) (j : Int) :
    h'.read? q j = h.read? q j := by
  simp [Heap.read?, Heap.block, e]

theorem Heap.read?_touch (h : Heap) (p : Ptr) (i : Int) (q : Ptr) (j : Int) :
    (h.touch p i).read? q j = h.read? q j := by
  apply Heap.read?_eq_of_blocks
  unfold Heap.touch
  split <;> rfl

theorem Heap.block_set (h : Heap) (b : Nat) (x : Option (List Int)) (f : Bool) (q : Ptr)
    (hlen : b < h.blocks.length) :
    Heap.block ⟨h.blocks.set b x, f⟩ q = if q.blk = some b then x else h.block q := by
  rcases q with ⟨qb, qo⟩
  cases qb with
  | none => simp [Heap.block]
  | some b' =>
    by_cases e : b' = b
    · subst e
      simp [Heap.block, List.getElem?_set, hlen]
    · have e2 : ¬ b = b' := fun x => e x.symm
      simp [Heap.block, List.getElem?_set, e, e2]

theorem Heap.block_lt {h : Heap} {p : Ptr} {b : Nat} {cells : List Int} (hp : p.blk = some b)
    (hc : h.block p = some cells) : b < h.blocks.length := by
  by_contra hlt
  have : h.blocks[b]? = none := List.getElem?_eq_none (by omega)
  simp [Heap.block, hp, this] at hc

theorem Heap.block_congr (h : Heap) {p q : Ptr} (e : q.blk = p.blk) : h.block q = h.block p := by
  simp [Heap.block, e]

theorem Heap.read?_of_block {h : Heap} {p : Ptr} {cells : List Int} (hc : h.block p = some cells)
    (i : Int) : h.read? p i = if 0 ≤ p.off + i then cells[(p.off + i).toNat]? else none := by
  simp [Heap.read?, hc]

theorem Heap.read?_isSome_iff (h : Heap) (p : Ptr) (i : Int) :
    (h.read? p i).isSome = true ↔
      ∃ cells, h.block p = some cells ∧ 0 ≤ p.off + i ∧ (p.off + i).toNat < cells.length := by
  cases hc : h.block p with
  | none => simp [Heap.read?, hc]
  | some cells =>
    rw [Heap.read?_of_block hc]
    by_cases h0 : 0 ≤ p.off + i
    · by_cases hlt : (p.off + i).toNat < cells.length
      · rw [if_pos h0, List.getElem?_eq_getElem hlt]
        exact ⟨fun _ => ⟨cells, rfl, h0, hlt⟩, fun _ => rfl⟩
      · rw [if_pos h0, List.getElem?_eq_none (by omega)]
        constructor
        · intro hc2
          cases hc2
        · rintro ⟨c2, e, _, hh⟩
          cases e
          exact absurd hh hlt
    · rw [if_neg h0]
      constructor
      · intro hc2
        cases hc2
      · rintro ⟨c2, _, hh, _⟩
        exact absurd hh h0

theorem Heap.read?_store (h : Heap) (p : Ptr) (i v : Int) (q : Ptr) (j : Int) :
    (h.store p i v).read? q j =
      if q.blk = p.blk ∧ q.off + j = p.off + i ∧ (h.read? p i).isSome then some v
      else h.read? q j := by
  have key := Heap.read?_isSome_iff h p i
  unfold Heap.store
  split
  · next b cells hpb hblk =>
    split
    · next hin =>
      have hs : (h.read? p i).isSome = true := key.mpr ⟨cells, hblk, hin⟩
      have hlen := Heap.block_lt hpb hblk
      by_cases hq : q.blk = some b
      · have hbq : h.block q = some cells := by
          rw [Heap.block_congr h (hq.trans hpb.symm)]
          exact hblk
        have hnew : Heap.block ⟨h.blocks.set b (some (cells.set (p.off + i).toNat v)), h.fault⟩ q
            = some (cells.set (p.off + i).toNat v) := by
          rw [Heap.block_set _ _ _ _ _ hlen, if_pos hq]
        rw [Heap.read?_of_block hnew, Heap.read?_of_block hbq]
        by_cases hk : q.off + j = p.off + i
        · have hc : q.blk = p.blk ∧ q.off + j = p.off + i ∧ (h.read? p i).isSome = true :=
            ⟨hq.trans hpb.symm, hk, hs⟩
          rw [if_pos hc, hk, if_pos hin.1]
          simp [hin.2]
        · have hc : ¬ (q.blk = p.blk ∧ q.off + j = p.off + i ∧ (h.read? p i).isSome = true) :=
            fun hc => hk hc.2.1
          rw [if_neg hc]
          by_cases h0 : 0 ≤ q.off + j
          · have hne : (p.off + i).toNat ≠ (q.off + j).toNat := by
              have := hin.1
              omega
            simp [h0, List.getElem?_set, hne]
          · simp [h0]
      · have hc : ¬ (q.blk = p.blk ∧ q.off + j = p.off + i ∧ (h.read? p i).isSome = true) :=
          fun hc => hq (hc.1.trans hpb)
        rw [if_neg hc]
        simp only [Heap.read?]
        rw [Heap.block_set _ _ _ _ _ hlen, if_neg hq]
    · next hin =>
      have hs : ¬ (h.read? p i).isSome = true := fun hc => by
        obtain ⟨c2, e, hh⟩ := key.mp hc
        rw [hblk] at e
        cases e
        exact hin hh
      have hc : ¬ (q.blk = p.blk ∧ q.off + j = p.off + i ∧ (h.read? p i).isSome = true) :=
        fun hc => hs hc.2.2
      rw [if_neg hc]
      exact Heap.read?_eq_of_blocks rfl q j
  · next hno =>
    have hs : ¬ (h.read? p i).isSome = true := fun hc => by
      obtain ⟨c2, e, _⟩ := key.mp hc
      cases hpb : p.blk with
      | none => simp [Heap.block, hpb] at e
      | some b => exact hno b c2 hpb e
    have hc : ¬ (q.blk = p.blk ∧ q.off + j = p.off + i ∧ (h.read? p i).isSome = true) :=
      fun hc => hs hc.2.2
    rw [if_neg hc]
    exact Heap.read?_eq_of_blocks rfl q j

theorem Heap.read?_copyCell (h : Heap) (dst : Ptr) (i : Int) (src : Ptr) (k : Int) (q : Ptr)
    (j : Int) :
    (h.copyCell dst i src k).read? q j =
      if q.blk = dst.blk ∧ q.off + j = dst.off + i ∧ (h.read? dst i).isSome then
        some (h.load src k)
      else h.read? q j := by
  unfold Heap.copyCell
  rw [Heap.read?_store, Heap.read?_touch, Heap.read?_touch]

theorem Heap.read?_alloc (h : Heap) (n : Int) (q : Ptr) (j : Int)
    (hq : q.blk ≠ some h.blocks.length) : (h.alloc n).1.read? q j = h.read? q j := by
  rcases q with ⟨qb, qo⟩
  cases qb with
  | none => simp [Heap.read?, Heap.block]
  | some b =>
    have hb : b ≠ h.blocks.length := fun e => hq (by simp [e])
    by_cases hlt : b < h.blocks.length
    · simp [Heap.read?, Heap.block, Heap.alloc, List.getElem?_append, hlt]
    · have h1 : h.blocks[b]? = none := List.getElem?_eq_none (by omega)
      have h2 : (h.blocks ++ [some (List.replicate n.toNat (0 : Int))])[b]? = none :=
        List.getElem?_eq_none (by simp; omega)
      simp [Heap.read?, Heap.block, Heap.alloc, h1, h2]

theorem Heap.read?_free (h : Heap) (p q : Ptr) (j : Int) (hq : q.blk ≠ p.blk) :
    (h.free p).read? q j = h.read? q j := by
  unfold Heap.free
  split
  · rfl
  · next b hpb =>
    split
    · next cells hc =>
      split
      · simp only [Heap.read?]
        rw [Heap.block_set _ _ _ _ _ (Heap.block_lt hpb hc), if_neg (fun e => hq (e.trans hpb.symm))]
      · exact Heap.read?_eq_of_blocks rfl q j
    · exact Heap.read?_eq_of_blocks rfl q j

theorem Heap.read?_alloc_new (h : Heap) (n : Int) (j : Int) :
    (h.alloc n).1.read? (h.alloc n).2 j = if 0 ≤ j ∧ j < n then some 0 else none := by
  have hb : (h.alloc n).1.block (h.alloc n).2 = some (List.replicate n.toNat 0) := by
    simp [Heap.block, Heap.alloc]
  rw [Heap.read?_of_block hb]
  by_cases h0 : 0 ≤ j
  · by_cases hn : j < n
    · have : j.toNat < n.toNat := by omega
      simp [Heap.alloc, h0, hn, List.getElem?_replicate, this]
    · have : ¬ j.toNat < n.toNat := by omega
      simp [Heap.alloc, h0, hn, List.getElem?_replicate, this]
  · simp [Heap.alloc, h0]

@[simp] theorem Heap.blocks_touch (h : Heap) (p : Ptr) (i : Int) :
    (h.touch p i).blocks = h.blocks := by
  unfold Heap.touch
  split <;> rfl

@[simp] theorem Heap.length_store (h : Heap) (p : Ptr) (i v : Int) :
    (h.store p i v).blocks.length = h.blocks.length := by
  unfold Heap.store
  split
  · split <;> simp
  · rfl

@[simp] theorem Heap.length_copyCell (h : Heap) (dst : Ptr) (i : Int) (src : Ptr) (k : Int) :
    (h.copyCell dst i src k).blocks.length = h.blocks.length := by
  simp [Heap.copyCell]

@[simp] theorem Heap.length_free (h : Heap) (p : Ptr) :
    (h.free p).blocks.length = h.blocks.length := by
  unfold Heap.free
  split
  · rfl
  · split
    · split <;> simp
    · rfl

@[simp] theorem Heap.length_alloc (h : Heap) (n : Int) :
    (h.alloc n).1.blocks.length = h.blocks.length + 1 := by
  simp [Heap.alloc]

theorem Heap.block_alloc (h : Heap) (n : Int) (q : Ptr) :
    (h.alloc n).1.block q =
      if q.blk = some h.blocks.length then some (List.replicate n.toNat 0) else h.block q := by
  rcases q with ⟨qb, qo⟩
  cases qb with
  | none => simp [Heap.block]
  | some b =>
    rcases Nat.lt_trichotomy b h.blocks.length with hlt | heq | hgt
    · have hne : b ≠ h.blocks.length := by omega
      simp [Heap.block, Heap.alloc, List.getElem?_append, hlt, hne]
    · subst heq
      simp [Heap.block, Heap.alloc, List.getElem?_append]
    · have hne : b ≠ h.blocks.length := by omega
      have h1 : h.blocks[b]? = none := List.getElem?_eq_none (by omega)
      have h2 : (h.blocks ++ [some (List.replicate n.toNat (0 : Int))])[b]? = none :=
        List.getElem?_eq_none (by simp; omega)
      simp [Heap.block, Heap.alloc, h1, h2, hne]

/-! ## Lemmas on the ready list -/

namespace ACOReadyList

theorem Heap_load_of_read {h : Heap} {p : Ptr} {i v : Int} (e : h.read? p i = some v) :
    h.load p i = v := by
  simp [Heap.load, e]

theorem WellFormed.cases {h : Heap} {L : ACOReadyList} (w : WellFormed h L) :
    ∃ bi bh bs ci ch cs,
      L.InstrBase = ⟨some bi, 0⟩ ∧ L.ReadyOnBase = ⟨some bi, L.CurrentCapacity⟩ ∧
      L.HeurBase = ⟨some bh, 0⟩ ∧ L.ScoreBase = ⟨some bs, 0⟩ ∧
      L.IntAllocation = ⟨some bi, 0⟩ ∧ L.HeurAllocation = ⟨some bh, 0⟩ ∧
      L.ScoreAllocation = ⟨some bs, 0⟩ ∧
      (h.blocks[bi]?) = some (some ci) ∧ (h.blocks[bh]?) = some (some ch) ∧
      (h.blocks[bs]?) = some (some cs) ∧
      ci.length = (2 * L.CurrentCapacity).toNat ∧ ch.length = L.CurrentCapacity.toNat ∧
      cs.length = L.CurrentCapacity.toNat ∧ bi ≠ bh ∧ bi ≠ bs ∧ bh ≠ bs := by
  obtain ⟨_, _, o1, o2, o3, e1, e2, e3, e4, l1, l2, l3, d1, d2, d3⟩ := w
  rcases hI : L.IntAllocation with ⟨ib, io⟩
  rcases hH : L.HeurAllocation with ⟨hb, ho⟩
  rcases hS : L.ScoreAllocation with ⟨sb, so⟩
  rw [hI] at o1 e1 e2 l1 d1 d2
  rw [hH] at o2 e3 l2 d1 d3
  rw [hS] at o3 e4 l3 d2 d3
  simp only at o1 o2 o3
  subst o1 o2 o3
  cases ib with
  | none => simp [Heap.block] at l1
  | some bi =>
    cases hb with
    | none => simp [Heap.block] at l2
    | some bh =>
      cases sb with
      | none => simp [Heap.block] at l3
      | some bs =>
        simp only [Heap.block, Option.map_eq_some'] at l1 l2 l3
        obtain ⟨ci, hci, li⟩ := l1
        obtain ⟨ch, hch, lh⟩ := l2
        obtain ⟨cs, hcs, ls⟩ := l3
        refine ⟨bi, bh, bs, ci, ch, cs, e1, ?_, e3, e4, rfl, rfl, rfl, ?_, ?_, ?_, li, lh, ls,
          ?_, ?_, ?_⟩
        · simpa [Ptr.add] using e2
        · cases hx : h.blocks[bi]? with
          | none => simp [hx] at hci
          | some x => simpa [hx] using hci
        · cases hx : h.blocks[bh]? with
          | none => simp [hx] at hch
          | some x => simpa [hx] using hch
        · cases hx : h.blocks[bs]? with
          | none => simp [hx] at hcs
          | some x => simpa [hx] using hcs
        · exact fun e => d1 (by simp [e])
        · exact fun e => d2 (by simp [e])
        · exact fun e => d3 (by simp [e])

theorem read?_cell {h : Heap} {b : Nat} {cells : List Int} (hb : (h.blocks[b]?) = some (some cells))
    (o i : Int) (h0 : 0 ≤ o + i) : h.read? ⟨some b, o⟩ i = cells[(o + i).toNat]? := by
  simp [Heap.read?, Heap.block, hb, h0]

theorem read?_cell_some {h : Heap} {b : Nat} {cells : List Int}
    (hb : (h.blocks[b]?) = some (some cells)) (o i : Int) (h0 : 0 ≤ o + i)
    (hlt : (o + i).toNat < cells.length) : ∃ v, h.read? ⟨some b, o⟩ i = some v := by
  rw [read?_cell hb o i h0, List.getElem?_eq_getElem hlt]
  exact ⟨_, rfl⟩

/-- Under the class invariant every position below the capacity can be read in all four arrays. -/
theorem WellFormed.entryAt {h : Heap} {L : ACOReadyList} (w : WellFormed h L) (p : Int)
    (h0 : 0 ≤ p) (hlt : p < L.CurrentCapacity) :
    ∃ a b c d, h.read? L.InstrBase p = some a ∧ h.read? L.ReadyOnBase p = some b ∧
      h.read? L.HeurBase p = some c ∧ h.read? L.ScoreBase p = some d ∧
      entryAt? h L p = some ⟨a, b, c, d⟩ := by
  obtain ⟨bi, bh, bs, ci, ch, cs, e1, e2, e3, e4, -, -, -, hi, hh, hs, li, lh, ls, -, -, -⟩ :=
    w.cases
  obtain ⟨a, ha⟩ := read?_cell_some hi 0 p (by omega) (by omega)
  obtain ⟨b, hb⟩ := read?_cell_some hi L.CurrentCapacity p (by omega) (by omega)
  obtain ⟨c, hc⟩ := read?_cell_some hh 0 p (by omega) (by omega)
  obtain ⟨d, hd⟩ := read?_cell_some hs 0 p (by omega) (by omega)
  refine ⟨a, b, c, d, ?_, ?_, ?_, ?_, ?_⟩
  · rw [e1]; exact ha
  · rw [e2]; exact hb
  · rw [e3]; exact hc
  · rw [e4]; exact hd
  · simp [entryAt?, e1, e2, e3, e4, ha, hb, hc, hd]

/-- The four arrays after the statements of `removeInstructionAtIndex`: position `Indx` holds
what position `CurrentSize - 1` held, every other position below the capacity is unchanged. -/
theorem removeBody_reads {h : Heap} {L : ACOReadyList} (w : WellFormed h L) (Indx : Int)
    (h0 : 0 ≤ Indx) (hlt : Indx < L.CurrentSize) (p : Int) (hp0 : 0 ≤ p)
    (hp : p < L.CurrentCapacity) :
    entryAt? (removeBody h L Indx).2.1 (removeBody h L Indx).2.2 p =
      if p = Indx then entryAt? h L (L.CurrentSize - 1) else entryAt? h L p := by
  obtain ⟨a, b, c, d, ra, rb, rc, rd, -⟩ := w.entryAt Indx h0 (by have := w.2.1; omega)
  obtain ⟨a', b', c', d', ra', rb', rc', rd', -⟩ :=
    w.entryAt (L.CurrentSize - 1) (by omega) (by have := w.2.1; omega)
  obtain ⟨bi, bh, bs, ci, ch, cs, e1, e2, e3, e4, -, -, -, -, -, -, -, -, -, d1, d2, d3⟩ :=
    w.cases
  rw [e1] at ra ra'
  rw [e2] at rb rb'
  rw [e3] at rc rc'
  rw [e4] at rd rd'
  have d1' : ¬ bh = bi := fun e => d1 e.symm
  have d2' : ¬ bs = bi := fun e => d2 e.symm
  have d3' : ¬ bs = bh := fun e => d3 e.symm
  have hcap : ¬ p = L.CurrentCapacity + Indx := by have := w.2.1; omega
  have hcap2 : ¬ L.CurrentCapacity + p = Indx := by have := w.2.1; omega
  have hcap3 : ¬ L.CurrentCapacity + (L.CurrentSize - 1) = Indx := by have := w.2.1; omega
  by_cases hpi : p = Indx
  · subst hpi
    simp [entryAt?, removeBody, e1, e2, e3, e4, Heap.read?_copyCell, Heap.read?_touch, Heap.load,
      ra, rb, rc, rd, ra', rb', rc', rd', d1, d2, d3, d1', d2', d3', hcap, hcap2, hcap3]
  · simp [entryAt?, removeBody, e1, e2, e3, e4, Heap.read?_copyCell, Heap.read?_touch, Heap.load,
      ra, rb, rc, rd, ra', rb', rc', rd', d1, d2, d3, d1', d2', d3', hcap, hcap2, hcap3, hpi]

end ACOReadyList

theorem Heap.blockLen_store (h : Heap) (p : Ptr) (i v : Int) (q : Ptr) :
    ((h.store p i v).block q).map List.length = (h.block q).map List.length := by
  unfold Heap.store
  split
  · next b cells hpb hblk =>
    split
    · rw [Heap.block_set _ _ _ _ _ (Heap.block_lt hpb hblk)]
      by_cases hq : q.blk = some b
      · rw [if_pos hq, Heap.block_congr h (hq.trans hpb.symm), hblk]
        simp
      · rw [if_neg hq]
    · rfl
  · rfl

theorem Heap.blockLen_touch (h : Heap) (p : Ptr) (i : Int) (q : Ptr) :
    ((h.touch p i).block q).map List.length = (h.block q).map List.length := by
  unfold Heap.touch
  split <;> rfl

theorem Heap.blockLen_copyCell (h : Heap) (dst : Ptr) (i : Int) (src : Ptr) (k : Int) (q : Ptr) :
    ((h.copyCell dst i src k).block q).map List.length = (h.block q).map List.length := by
  unfold Heap.copyCell
  rw [Heap.blockLen_store, Heap.blockLen_touch]

namespace ACOReadyList

/-- An add that does not reallocate keeps the class invariant. -/
theorem WellFormed.add {h : Heap} {L : ACOReadyList} (w : WellFormed h L)
    (hlt : L.CurrentSize < L.CurrentCapacity) (E : ACOReadyListEntry) :
    WellFormed (addInstructionToReadyList h L E).1 (addInstructionToReadyList h L E).2 := by
  obtain ⟨w1, w2, w3, w4, w5, w6, w7, w8, w9, w10, w11, w12, w13⟩ := w
  have hne : ¬ L.CurrentSize = L.CurrentCapacity := by omega
  simp only [WellFormed, addInstructionToReadyList, if_neg hne, Heap.blockLen_store]
  exact ⟨by omega, by omega, w3, w4, w5, w6, w7, w8, w9, w10, w11, w12, w13⟩

/-- A removal at a valid index keeps the class invariant. -/
theorem WellFormed.remove {h : Heap} {L : ACOReadyList} (w : WellFormed h L) (Indx : Int)
    (hpos : 0 < L.CurrentSize) :
    WellFormed (removeBody h L Indx).2.1 (removeBody h L Indx).2.2 := by
  obtain ⟨w1, w2, w3, w4, w5, w6, w7, w8, w9, w10, w11, w12, w13⟩ := w
  simp only [WellFormed, removeBody, Heap.blockLen_copyCell, Heap.blockLen_touch]
  exact ⟨by omega, by omega, w3, w4, w5, w6, w7, w8, w9, w10, w11, w12, w13⟩

/-- The statements of `removeInstructionAtIndex` after its assertion (the function as built with
`NDEBUG`): on a list satisfying the class invariant, with `0 ≤ Indx < CurrentSize` (so the size
is positive), the call returns the entry that was stored at position `Indx`, leaves the size at
`CurrentSize - 1`, stores at position `Indx` the entry that was at position `CurrentSize - 1`,
and leaves every other position below `CurrentSize - 1` unchanged. -/
theorem removeInstructionAtIndex_spec (h : Heap) (L : ACOReadyList) (Indx : Int)
    (w : WellFormed h L) (h0 : 0 ≤ Indx) (hlt : Indx < L.CurrentSize) :
    ∃ E h' L' last, removeInstructionAtIndex true h L Indx = some (E, h', L') ∧
      entryAt? h L Indx = some E ∧
      L'.CurrentSize = L.CurrentSize - 1 ∧
      entryAt? h L (L.CurrentSize - 1) = some last ∧ entryAt? h' L' Indx = some last ∧
      ∀ p, 0 ≤ p → p < L.CurrentSize - 1 → p ≠ Indx →
        entryAt? h' L' p = entryAt? h L p ∧ (entryAt? h L p).isSome = true := by
  have hcap := w.2.1
  obtain ⟨a, b, c, d, ra, rb, rc, rd, re⟩ := w.entryAt Indx h0 (by omega)
  obtain ⟨a', b', c', d', -, -, -, -, re'⟩ := w.entryAt (L.CurrentSize - 1) (by omega) (by omega)
  refine ⟨(removeBody h L Indx).1, (removeBody h L Indx).2.1, (removeBody h L Indx).2.2,
    ⟨a', b', c', d'⟩, ?_, ?_, ?_, re', ?_, ?_⟩
  · simp [removeInstructionAtIndex]
  · rw [re]
    simp [removeBody, Heap_load_of_read ra, Heap_load_of_read rb, Heap_load_of_read rc,
      Heap_load_of_read rd]
  · simp [removeBody]
  · rw [removeBody_reads w Indx h0 hlt Indx h0 (by omega), if_pos rfl, re']
  · intro p hp0 hp hne
    obtain ⟨_, _, _, _, -, -, -, -, rp⟩ := w.entryAt p hp0 (by omega)
    rw [removeBody_reads w Indx h0 hlt p hp0 (by omega), if_neg hne, rp]
    exact ⟨rfl, rfl⟩

set_option maxRecDepth 100000 in
/-- Scenario B with the assertion compiled out: the list holding `[I1, I2, I3]` satisfies the
class invariant, and removing index 0 returns `I1` and leaves `[I3, I2]` with size 2. -/
theorem removeInstructionAtIndex_scenarioB :
    (WellFormed scenarioB.1 scenarioB.2 ∧ (0 : Int) ≤ 0 ∧ (0 : Int) < scenarioB.2.CurrentSize) ∧
    (entryAt? scenarioB.1 scenarioB.2 0 = some I1 ∧ entryAt? scenarioB.1 scenarioB.2 1 = some I2 ∧
      entryAt? scenarioB.1 scenarioB.2 2 = some I3 ∧ scenarioB.2.CurrentSize = 3) ∧
    (∃ E h' L' last, removeInstructionAtIndex true scenarioB.1 scenarioB.2 0 = some (E, h', L') ∧
      entryAt? scenarioB.1 scenarioB.2 0 = some E ∧
      L'.CurrentSize = scenarioB.2.CurrentSize - 1 ∧
      entryAt? scenarioB.1 scenarioB.2 (scenarioB.2.CurrentSize - 1) = some last ∧
      entryAt? h' L' 0 = some last ∧
      ∀ p, 0 ≤ p → p < scenarioB.2.CurrentSize - 1 → p ≠ 0 →
        entryAt? h' L' p = entryAt? scenarioB.1 scenarioB.2 p ∧
        (entryAt? scenarioB.1 scenarioB.2 p).isSome = true) ∧
    (removeInstructionAtIndex true scenarioB.1 scenarioB.2 0).map
      (fun r => (r.1, entryAt? r.2.1 r.2.2 0, entryAt? r.2.1 r.2.2 1, r.2.2.CurrentSize)) =
      some (I1, some I3, some I2, 2) :=
  ⟨by decide, by decide,
   removeInstructionAtIndex_spec scenarioB.1 scenarioB.2 0 (by decide) (by decide) (by decide),
   by decide⟩

/-- With the assertion compiled in, a call with `0 ≤ Indx < CurrentSize` is aborted. -/
theorem removeInstructionAtIndex_assert (h : Heap) (L : ACOReadyList) (Indx : Int)
    (h0 : 0 ≤ Indx) (hlt : Indx < L.CurrentSize) :
    removeInstructionAtIndex false h L Indx = none := by
  have ha : removeAssertion L Indx = false := by
    simp only [removeAssertion, Bool.or_eq_false_iff, decide_eq_false_iff_not]
    omega
  simp [removeInstructionAtIndex, ha]

set_option maxRecDepth 100000 in
/-- C1 (the code at the failing input): `removeInstructionAtIndex` starts with
`assert(CurrentSize <= 0 || Indx >= CurrentSize || Indx < 0)`, which is false on every call the
claim is about. As the function is written (assertions compiled in), for every list and every
index with `0 ≤ Indx < CurrentSize` the call is aborted: it returns no entry and leaves no list.
In Scenario B the list holds `[I1, I2, I3]` with size 3 and `removeInstructionAtIndex(0)` is
aborted; only with the assertion compiled out (`NDEBUG`) does the same call return `I1` and leave
`[I3, I2]` with size 2. -/
theorem removeInstructionAtIndex_aborts_valid_call :
    (∀ (h : Heap) (L : ACOReadyList) (Indx : Int), 0 ≤ Indx → Indx < L.CurrentSize →
      removeAssertion L Indx = false ∧ removeInstructionAtIndex false h L Indx = none) ∧
    [0, 1, 2].map (entryAt? scenarioB.1 scenarioB.2) = [some I1, some I2, some I3] ∧
    scenarioB.2.CurrentSize = 3 ∧ scenarioB.1.fault = false ∧
    removeAssertion scenarioB.2 0 = false ∧
    removeInstructionAtIndex false scenarioB.1 scenarioB.2 0 = none ∧
    (removeInstructionAtIndex true scenarioB.1 scenarioB.2 0).map
      (fun r => (r.1, entryAt? r.2.1 r.2.2 0, entryAt? r.2.1 r.2.2 1, r.2.2.CurrentSize,
        r.2.1.fault)) = some (I1, some I3, some I2, 2, false) := by
  refine ⟨?_, by decide, by decide, by decide, by decide, by decide, by decide⟩
  intro h L Indx h0 hlt
  have hn := removeInstructionAtIndex_assert h L Indx h0 hlt
  refine ⟨?_, hn⟩
  simp only [removeAssertion, Bool.or_eq_false_iff, decide_eq_false_iff_not]
  omega

/-- C2 (the code at the failing inputs): the expression asserted at the head of
`removeInstructionAtIndex` is true exactly on the calls that violate the precondition
`0 ≤ Indx < CurrentSize` and `CurrentSize > 0`. With assertions compiled in, every valid call is
aborted and every call that violates the precondition passes the assertion: the valid call
`removeInstructionAtIndex(0)` on the list `[I1, I2, I3]` is aborted, while the calls with index 0
on an empty list and with index 3 on `[I1, I2, I3]` are executed. -/
theorem removeAssertion_inverted :
    (∀ (L : ACOReadyList) (Indx : Int),
      removeAssertion L Indx = true ↔
        ¬ (0 ≤ Indx ∧ Indx < L.CurrentSize ∧ 0 < L.CurrentSize)) ∧
    (∀ (h : Heap) (L : ACOReadyList) (Indx : Int),
      removeInstructionAtIndex false h L Indx = none ↔
        (0 ≤ Indx ∧ Indx < L.CurrentSize ∧ 0 < L.CurrentSize)) ∧
    removeAssertion scenarioB.2 0 = false ∧
    removeInstructionAtIndex false scenarioB.1 scenarioB.2 0 = none ∧
    (create Heap.empty 8).2.CurrentSize = 0 ∧
    removeAssertion (create Heap.empty 8).2 0 = true ∧
    (removeInstructionAtIndex false (create Heap.empty 8).1 (create Heap.empty 8).2 0).isSome
      = true ∧
    removeAssertion scenarioB.2 3 = true ∧
    (removeInstructionAtIndex false scenarioB.1 scenarioB.2 3).isSome = true := by
  have key : ∀ (L : ACOReadyList) (Indx : Int),
      removeAssertion L Indx = true ↔
        ¬ (0 ≤ Indx ∧ Indx < L.CurrentSize ∧ 0 < L.CurrentSize) := by
    intro L Indx
    simp only [removeAssertion, Bool.or_eq_true, decide_eq_true_eq]
    constructor
    · rintro ((h | h) | h) ⟨h1, h2, h3⟩ <;> omega
    · intro h
      by_contra hc
      simp only [not_or, not_le, not_lt] at hc
      exact h ⟨hc.2, by omega, hc.1.1⟩
  refine ⟨key, ?_, by decide, by decide, by decide, by decide, by decide, by decide, by decide⟩
  intro h L Indx
  by_cases ha : removeAssertion L Indx = true
  · have hv := (key L Indx).mp ha
    simp [removeInstructionAtIndex, ha, hv]
  · have hv : 0 ≤ Indx ∧ Indx < L.CurrentSize ∧ 0 < L.CurrentSize := by
      by_contra hc
      exact ha ((key L Indx).mpr hc)
    simp [removeInstructionAtIndex, ha, hv]

/-- C7: for every region size `r`, `ACOReadyList(r)` yields a list with size 0 and the overflow
flag false whose capacity and primary capacity both equal `max(32, r/4)`, `/` truncating; the
capacity is 32 exactly for `r < 132` (so for `r = 8`) and is never below 32. The three arrays are
allocated with the lengths of the class invariant. -/
theorem create_spec (h : Heap) (r : Int) :
    (create h r).2.CurrentSize = 0 ∧ (create h r).2.Overflowed = false ∧
    (create h r).2.CurrentCapacity = max 32 (r.tdiv 4) ∧
    (create h r).2.PrimaryBufferCapacity = max 32 (r.tdiv 4) ∧
    ((create h r).2.CurrentCapacity = 32 ↔ r < 132) ∧
    32 ≤ (create h r).2.CurrentCapacity ∧
    (create h 8).2.CurrentCapacity = 32 ∧
    WellFormed (create h r).1 (create h r).2 := by
  have hcap : (create h r).2.CurrentCapacity = max 32 (r.tdiv 4) := rfl
  have h32 : (32 : Int) ≤ max 32 (r.tdiv 4) := le_max_left _ _
  refine ⟨rfl, rfl, rfl, rfl, ?_, ?_, ?_, ?_⟩
  · rw [hcap]
    constructor
    · intro e
      by_contra hc
      have : 33 ≤ r.tdiv 4 := by
        rw [Int.tdiv_eq_ediv (by omega) (by decide)]; omega
      have := le_max_right 32 (r.tdiv 4)
      omega
    · intro hr
      have : r.tdiv 4 ≤ 32 := by
        rcases le_or_lt 0 r with h0 | h0
        · rw [Int.tdiv_eq_ediv h0 (by decide)]; omega
        · have h1 : r.tdiv 4 = -((-r).tdiv 4) := by rw [Int.neg_tdiv, neg_neg]
          have h2 := Int.tdiv_nonneg (a := -r) (b := 4) (by omega) (by decide)
          omega
      exact max_eq_left this
  · rw [hcap]; exact h32
  · show computePrimaryCapacity 8 = 32
    decide
  · have hc0 : (0 : Int) ≤ computePrimaryCapacity r := le_trans (by decide) h32
    have hn : ¬ h.blocks.length = h.blocks.length + 1 + 1 := by omega
    simp [WellFormed, create, Heap.block_alloc, Ptr.add, hc0]
    simp [Heap.alloc, hn]

theorem length_foldl_growEntry (L : ACOReadyList) (nI nH nS : Ptr) (o1 o2 o3 o4 : Int)
    (l : List Nat) (h : Heap) :
    (l.foldl (growEntry L nI nH nS o1 o2 o3 o4) h).blocks.length = h.blocks.length := by
  induction l generalizing h with
  | nil => rfl
  | cons x xs ih => rw [List.foldl_cons, ih]; simp [growEntry]

theorem grow_fields (h : Heap) (L : ACOReadyList) :
    (grow h L).2.CurrentSize = L.CurrentSize ∧
    (grow h L).2.CurrentCapacity = L.CurrentCapacity + L.CurrentCapacity.tdiv 2 + 1 ∧
    (grow h L).2.Overflowed = true ∧
    (grow h L).2.PrimaryBufferCapacity = L.PrimaryBufferCapacity ∧
    (grow h L).1.blocks.length = h.blocks.length + 3 := by
  refine ⟨rfl, rfl, rfl, rfl, ?_⟩
  simp [grow, length_foldl_growEntry]

/-- The fields of the list after `addInstructionToReadyList`, and the number of allocations. -/
theorem add_fields (h : Heap) (L : ACOReadyList) (E : ACOReadyListEntry) :
    (addInstructionToReadyList h L E).2.CurrentSize = L.CurrentSize + 1 ∧
    (addInstructionToReadyList h L E).2.CurrentCapacity =
      (if L.CurrentSize = L.CurrentCapacity then L.CurrentCapacity + L.CurrentCapacity.tdiv 2 + 1
       else L.CurrentCapacity) ∧
    (addInstructionToReadyList h L E).2.Overflowed =
      (if L.CurrentSize = L.CurrentCapacity then true else L.Overflowed) ∧
    (addInstructionToReadyList h L E).2.PrimaryBufferCapacity = L.PrimaryBufferCapacity ∧
    (addInstructionToReadyList h L E).1.blocks.length =
      h.blocks.length + (if L.CurrentSize = L.CurrentCapacity then 3 else 0) := by
  obtain ⟨g1, g2, g3, g4, g5⟩ := grow_fields h L
  by_cases e : L.CurrentSize = L.CurrentCapacity
  · simp only [addInstructionToReadyList, if_pos e, Heap.length_store]
    exact ⟨by rw [g1], g2, g3, g4, g5⟩
  · simp [addInstructionToReadyList, if_neg e, Heap.length_store]

theorem addAll_append (s : Heap × ACOReadyList) (es : List ACOReadyListEntry)
    (e : ACOReadyListEntry) :
    addAll s (es ++ [e]) = addInstructionToReadyList (addAll s es).1 (addAll s es).2 e := by
  simp [addAll, List.foldl_append]

/-- The size, the capacity, the overflow flag and the number of allocations after a run of adds
follow `addCounts`. -/
theorem addAll_counts (s : Heap × ACOReadyList) (es : List ACOReadyListEntry) :
    ((addAll s es).2.CurrentSize, (addAll s es).2.CurrentCapacity, (addAll s es).2.Overflowed,
      (addAll s es).1.blocks.length) =
      ((addCounts^[es.length] (s.2.CurrentSize, s.2.CurrentCapacity, s.2.Overflowed, 0)).1,
       (addCounts^[es.length] (s.2.CurrentSize, s.2.CurrentCapacity, s.2.Overflowed, 0)).2.1,
       (addCounts^[es.length] (s.2.CurrentSize, s.2.CurrentCapacity, s.2.Overflowed, 0)).2.2.1,
       s.1.blocks.length +
         3 * (addCounts^[es.length] (s.2.CurrentSize, s.2.CurrentCapacity, s.2.Overflowed,
           0)).2.2.2) := by
  induction es using List.reverseRecOn with
  | nil => simp [addAll]
  | append_singleton es e ih =>
    obtain ⟨a1, a2, a3, -, a5⟩ := add_fields (addAll s es).1 (addAll s es).2 e
    rw [addAll_append, List.length_append, List.length_singleton, Function.iterate_succ_apply']
    simp only [Prod.mk.injEq] at ih
    obtain ⟨i1, i2, i3, i4⟩ := ih
    rw [a1, a2, a3, a5, i1, i2, i3, i4]
    by_cases c : (addCounts^[es.length] (s.2.CurrentSize, s.2.CurrentCapacity, s.2.Overflowed,
        0)).1 =
        (addCounts^[es.length] (s.2.CurrentSize, s.2.CurrentCapacity, s.2.Overflowed, 0)).2.1
    · simp only [addCounts, if_pos c]
      simp
      omega
    · simp only [addCounts, if_neg c]
      simp

theorem addAll_primary (s : Heap × ACOReadyList) (es : List ACOReadyListEntry) :
    (addAll s es).2.PrimaryBufferCapacity = s.2.PrimaryBufferCapacity := by
  induction es using List.reverseRecOn with
  | nil => rfl
  | append_singleton es e ih =>
    rw [addAll_append, (add_fields (addAll s es).1 (addAll s es).2 e).2.2.2.1, ih]

/-- C3: `addInstructionToReadyList` performs its three allocations exactly when
`CurrentSize == CurrentCapacity` at the call; the capacity is then `old + old/2 + 1` (between
`1.5 * old + 1/2` and `1.5 * old + 1` for a capacity that is not negative, and within the range
of a 32-bit `int` for every old capacity up to 1431655764) and is unchanged otherwise. A list
constructed for region size 8 that receives 33 adds, whatever the entries, reallocates exactly
once and ends with capacity 49, size 33 and the overflow flag set. -/
theorem addInstructionToReadyList_capacity :
    (∀ (h : Heap) (L : ACOReadyList) (E : ACOReadyListEntry),
      ((addInstructionToReadyList h L E).1.blocks.length = h.blocks.length + 3 ↔
        L.CurrentSize = L.CurrentCapacity) ∧
      ((addInstructionToReadyList h L E).1.blocks.length = h.blocks.length ↔
        L.CurrentSize ≠ L.CurrentCapacity) ∧
      (addInstructionToReadyList h L E).2.CurrentCapacity =
        (if L.CurrentSize = L.CurrentCapacity then
          L.CurrentCapacity + L.CurrentCapacity.tdiv 2 + 1
         else L.CurrentCapacity) ∧
      (0 ≤ L.CurrentCapacity →
        3 * L.CurrentCapacity + 1 ≤ 2 * (L.CurrentCapacity + L.CurrentCapacity.tdiv 2 + 1) ∧
        2 * (L.CurrentCapacity + L.CurrentCapacity.tdiv 2 + 1) ≤ 3 * L.CurrentCapacity + 2 ∧
        (L.CurrentCapacity ≤ 1431655764 →
          L.CurrentCapacity + L.CurrentCapacity.tdiv 2 + 1 ≤ 2147483647))) ∧
    (∀ (h : Heap) (f : Fin 33 → ACOReadyListEntry),
      (addAll (create h 8) (List.ofFn f)).1.blocks.length = (create h 8).1.blocks.length + 3 ∧
      (addAll (create h 8) (List.ofFn f)).2.CurrentCapacity = 49 ∧
      (addAll (create h 8) (List.ofFn f)).2.CurrentSize = 33 ∧
      (addAll (create h 8) (List.ofFn f)).2.Overflowed = true ∧
      (addAll (create h 8) (List.ofFn f)).2.PrimaryBufferCapacity = 32 ∧
      (create h 8).2.CurrentCapacity = 32) := by
  constructor
  · intro h L E
    obtain ⟨-, a2, -, -, a5⟩ := add_fields h L E
    refine ⟨?_, ?_, a2, ?_⟩
    · rw [a5]
      by_cases c : L.CurrentSize = L.CurrentCapacity <;> simp [c]
    · rw [a5]
      by_cases c : L.CurrentSize = L.CurrentCapacity <;> simp [c]
    · intro h0
      have := Int.tdiv_add_tmod L.CurrentCapacity 2
      have h1 := Int.tmod_nonneg 2 h0
      have h2 := Int.tmod_lt_of_pos L.CurrentCapacity (show (0 : Int) < 2 by decide)
      omega
  · intro h f
    have key := addAll_counts (create h 8) (List.ofFn f)
    have hlen : (List.ofFn f).length = 33 := List.length_ofFn f
    have hit : addCounts^[33] ((0 : Int), (32 : Int), false, 0) = (33, 49, true, 1) := by decide
    have hc : (create h 8).2.CurrentCapacity = 32 :=
      show computePrimaryCapacity 8 = 32 by decide
    have hs : (create h 8).2.CurrentSize = 0 := rfl
    have ho : (create h 8).2.Overflowed = false := rfl
    rw [hlen, hc, hs, ho, hit] at key
    simp only [Prod.mk.injEq] at key
    obtain ⟨k1, k2, k3, k4⟩ := key
    refine ⟨by rw [k4], k2, k1, k3, ?_, hc⟩
    rw [addAll_primary]
    exact hc

end ACOReadyList

theorem Heap.block_free (h : Heap) (p q : Ptr) :
    (h.free p).block q = none ∨ (h.free p).block q = h.block q := by
  unfold Heap.free
  split
  · exact Or.inr rfl
  · next b hpb =>
    split
    · next cells hc =>
      split
      · rw [Heap.block_set _ _ _ _ _ (Heap.block_lt hpb hc)]
        by_cases hq : q.blk = some b
        · exact Or.inl (if_pos hq)
        · exact Or.inr (if_neg hq)
      · exact Or.inr rfl
    · exact Or.inr rfl

namespace ACOReadyList

theorem blockLen_foldl_growEntry (L : ACOReadyList) (nI nH nS : Ptr) (o1 o2 o3 o4 : Int)
    (q : Ptr) (l : List Nat) (h : Heap) :
    ((l.foldl (growEntry L nI nH nS o1 o2 o3 o4) h).block q).map List.length =
      (h.block q).map List.length := by
  induction l generalizing h with
  | nil => rfl
  | cons x xs ih => rw [List.foldl_cons, ih]; simp [growEntry, Heap.blockLen_copyCell]

/-- After the reallocation the new integer allocation, if it is still live, has
`OldCap + OldCap/2 + 1` cells, and `ReadyOnBase` points that many cells past its start. -/
theorem grow_int_block (h : Heap) (L : ACOReadyList) :
    (grow h L).2.ReadyOnBase =
      ⟨some h.blocks.length, 0 + (L.CurrentCapacity + L.CurrentCapacity.tdiv 2 + 1)⟩ ∧
    ((grow h L).1.block ⟨some h.blocks.length, 0⟩ = none ∨
      ((grow h L).1.block ⟨some h.blocks.length, 0⟩).map List.length =
        some (L.CurrentCapacity + L.CurrentCapacity.tdiv 2 + 1).toNat) := by
  constructor
  · simp [grow, Heap.alloc, Ptr.add]
  · have h0 : ((((h.alloc (L.CurrentCapacity + L.CurrentCapacity.tdiv 2 + 1)).1.alloc
        (L.CurrentCapacity + L.CurrentCapacity.tdiv 2 + 1)).1.alloc
        (L.CurrentCapacity + L.CurrentCapacity.tdiv 2 + 1)).1.block
        ⟨some h.blocks.length, 0⟩).map List.length =
        some (L.CurrentCapacity + L.CurrentCapacity.tdiv 2 + 1).toNat := by
      have n1 : ¬ h.blocks.length = h.blocks.length + 1 := by omega
      have n2 : ¬ h.blocks.length = h.blocks.length + 1 + 1 := by omega
      simp [Heap.block_alloc, n1, n2]
    unfold grow
    simp only
    rcases Heap.block_free (((List.range L.CurrentSize.toNat).foldl (growEntry L _ _ _ _ _ _ _)
      _).free L.IntAllocation |>.free L.HeurAllocation) L.ScoreAllocation
      ⟨some h.blocks.length, 0⟩ with e3 | e3
    · exact Or.inl e3
    · rw [e3]
      rcases Heap.block_free ((List.range L.CurrentSize.toNat).foldl
        (growEntry L _ _ _ _ _ _ _) _ |>.free L.IntAllocation) L.HeurAllocation
        ⟨some h.blocks.length, 0⟩ with e2 | e2
      · exact Or.inl e2
      · rw [e2]
        rcases Heap.block_free ((List.range L.CurrentSize.toNat).foldl
          (growEntry L _ _ _ _ _ _ _) _) L.IntAllocation ⟨some h.blocks.length, 0⟩ with e1 | e1
        · exact Or.inl e1
        · rw [e1, blockLen_foldl_growEntry]
          exact Or.inr h0

/-- After every add that reallocates, every read of a ready-on cycle is outside the integer
allocation. -/
theorem add_readyOn_outside (h : Heap) (L : ACOReadyList) (E : ACOReadyListEntry)
    (full : L.CurrentSize = L.CurrentCapacity) (p : Int) (hp : 0 ≤ p) :
    (addInstructionToReadyList h L E).1.read? (addInstructionToReadyList h L E).2.ReadyOnBase p
      = none := by
  obtain ⟨hR, hB⟩ := grow_int_block h L
  have hbase : (addInstructionToReadyList h L E).2.ReadyOnBase = (grow h L).2.ReadyOnBase := by
    simp [addInstructionToReadyList, if_pos full]
  have hlen : (addInstructionToReadyList h L E).1.block ⟨some h.blocks.length, 0⟩ = none ∨
      ((addInstructionToReadyList h L E).1.block ⟨some h.blocks.length, 0⟩).map List.length =
        some (L.CurrentCapacity + L.CurrentCapacity.tdiv 2 + 1).toNat := by
    have e : ((addInstructionToReadyList h L E).1.block ⟨some h.blocks.length, 0⟩).map
        List.length = ((grow h L).1.block ⟨some h.blocks.length, 0⟩).map List.length := by
      simp only [addInstructionToReadyList, if_pos full, Heap.blockLen_store]
    rcases hB with hB | hB
    · left
      rw [hB] at e
      simpa using e
    · right
      rw [e, hB]
  rw [hbase, hR]
  have hcong : (addInstructionToReadyList h L E).1.block
      ⟨some h.blocks.length, 0 + (L.CurrentCapacity + L.CurrentCapacity.tdiv 2 + 1)⟩ =
      (addInstructionToReadyList h L E).1.block ⟨some h.blocks.length, 0⟩ :=
    Heap.block_congr _ rfl
  rcases hlen with hn | hl
  · unfold Heap.read?
    rw [hcong, hn]
  · cases hc : (addInstructionToReadyList h L E).1.block ⟨some h.blocks.length, 0⟩ with
    | none =>
      unfold Heap.read?
      rw [hcong, hc]
    | some cells =>
      rw [hc] at hl
      simp only [Option.map_some', Option.some.injEq] at hl
      rw [Heap.read?_of_block (hcong.trans hc)]
      split
      · apply List.getElem?_eq_none
        simp only at *
        omega
      · rfl

set_option maxRecDepth 1000000 in
/-- C4 (the code at the failing input): after every add that reallocates, no ready-on cycle can
be read back: the new integer allocation has `NewCap` cells and `ReadyOnBase` points `NewCap`
cells past its start, so position `p` of the ready-on array is cell `NewCap + p`, outside the
allocation. In Scenario A the list holds 32 entries in capacity 32, entry 0 being
`(0, 100, 200, 300)`; the add of `I1` reallocates to 49 cells, after which the instruction id,
heuristic and score of position 0 read back, the ready-on cycle of position 0 and of the new
position 32 do not, and the stores were flagged as outside the allocation. The same happens for
the first add to a default-constructed list (size 0, capacity 0). -/
theorem addInstructionToReadyList_loses_readyOn :
    (∀ (h : Heap) (L : ACOReadyList) (E : ACOReadyListEntry), L.CurrentSize = L.CurrentCapacity →
      ∀ p, 0 ≤ p →
        (addInstructionToReadyList h L E).1.read?
          (addInstructionToReadyList h L E).2.ReadyOnBase p = none ∧
        entryAt? (addInstructionToReadyList h L E).1 (addInstructionToReadyList h L E).2 p
          = none) ∧
    scenarioA.2.CurrentSize = 32 ∧ scenarioA.2.CurrentCapacity = 32 ∧ scenarioA.1.fault = false ∧
    entryAt? scenarioA.1 scenarioA.2 0 = some ⟨0, 100, 200, 300⟩ ∧
    (addInstructionToReadyList scenarioA.1 scenarioA.2 I1).2.CurrentCapacity = 49 ∧
    ((addInstructionToReadyList scenarioA.1 scenarioA.2 I1).1.block
      (addInstructionToReadyList scenarioA.1 scenarioA.2 I1).2.IntAllocation).map List.length
      = some 49 ∧
    (addInstructionToReadyList scenarioA.1 scenarioA.2 I1).2.ReadyOnBase.off = 49 ∧
    (addInstructionToReadyList scenarioA.1 scenarioA.2 I1).1.read?
      (addInstructionToReadyList scenarioA.1 scenarioA.2 I1).2.InstrBase 0 = some 0 ∧
    (addInstructionToReadyList scenarioA.1 scenarioA.2 I1).1.read?
      (addInstructionToReadyList scenarioA.1 scenarioA.2 I1).2.HeurBase 0 = some 200 ∧
    (addInstructionToReadyList scenarioA.1 scenarioA.2 I1).1.read?
      (addInstructionToReadyList scenarioA.1 scenarioA.2 I1).2.ScoreBase 0 = some 300 ∧
    (addInstructionToReadyList scenarioA.1 scenarioA.2 I1).1.read?
      (addInstructionToReadyList scenarioA.1 scenarioA.2 I1).2.ReadyOnBase 0 = none ∧
    (addInstructionToReadyList scenarioA.1 scenarioA.2 I1).1.read?
      (addInstructionToReadyList scenarioA.1 scenarioA.2 I1).2.ReadyOnBase 32 = none ∧
    entryAt? (addInstructionToReadyList scenarioA.1 scenarioA.2 I1).1
      (addInstructionToReadyList scenarioA.1 scenarioA.2 I1).2 0 = none ∧
    entryAt? (addInstructionToReadyList scenarioA.1 scenarioA.2 I1).1
      (addInstructionToReadyList scenarioA.1 scenarioA.2 I1).2 32 = none ∧
    (addInstructionToReadyList scenarioA.1 scenarioA.2 I1).1.fault = true ∧
    entryAt? (addInstructionToReadyList Heap.empty ACOReadyList.default I1).1
      (addInstructionToReadyList Heap.empty ACOReadyList.default I1).2 0 = none := by
  refine ⟨?_, by decide!⟩
  intro h L E full p hp
  have r := add_readyOn_outside h L E full p hp
  refine ⟨r, ?_⟩
  simp [entryAt?, r]

/-- With the assertion compiled out no call of a valid sequence is aborted, and every call moves
the size field by one. -/
theorem runCalls_size (s : Heap × ACOReadyList) (cs : List Call) (v : CallsValid s cs)
    (h0 : 0 ≤ s.2.CurrentSize) :
    ∃ t, runCalls true s cs = some t ∧
      t.2.CurrentSize = s.2.CurrentSize + countAdd cs - countRemoveAt cs ∧
      0 ≤ t.2.CurrentSize := by
  induction cs generalizing s with
  | nil => exact ⟨s, rfl, by simp [countAdd, countRemoveAt], h0⟩
  | cons c cs ih =>
    cases c with
    | Add Entry =>
      have hs := (add_fields s.1 s.2 Entry).1
      obtain ⟨t, rt, st, pt⟩ := ih (addInstructionToReadyList s.1 s.2 Entry) v (by omega)
      refine ⟨t, ?_, ?_, pt⟩
      · simpa [runCalls, Call.apply] using rt
      · rw [st, hs]
        simp [countAdd, countRemoveAt, Call.isAdd]
        omega
    | RemoveAt Indx =>
      obtain ⟨v0, v1, v2⟩ := v
      have hs : (removeBody s.1 s.2 Indx).2.2.CurrentSize = s.2.CurrentSize - 1 := rfl
      obtain ⟨t, rt, st, pt⟩ := ih (removeBody s.1 s.2 Indx).2 v2 (by omega)
      refine ⟨t, ?_, ?_, pt⟩
      · simpa [runCalls, Call.apply, removeInstructionAtIndex] using rt
      · rw [st, hs]
        simp [countAdd, countRemoveAt, Call.isAdd]
        omega

/-- With the assertion compiled out, for every sequence of `Add` and `RemoveAt` calls applied to
a freshly constructed list (by `ACOReadyList(RegionSize)` or by `ACOReadyList()`), each
`RemoveAt` satisfying `0 ≤ Indx < CurrentSize`, the size field after the calls is the number of
`Add` calls minus the number of `RemoveAt` calls. -/
theorem size_eq_adds_minus_removes (h : Heap) (r : Int) (s : Heap × ACOReadyList)
    (fresh : s = create h r ∨ s = (h, ACOReadyList.default)) (cs : List Call)
    (v : CallsValid s cs) :
    ∃ t, runCalls true s cs = some t ∧
      t.2.CurrentSize = (countAdd cs : Int) - countRemoveAt cs := by
  have h0 : s.2.CurrentSize = 0 := by
    rcases fresh with e | e <;> rw [e] <;> rfl
  obtain ⟨t, rt, st, -⟩ := runCalls_size s cs v (le_of_eq h0.symm)
  exact ⟨t, rt, by rw [st, h0]; simp⟩

/-- The sample sequence (4 adds, 2 removals) with the assertion compiled out: it is valid on
the list for a region of 8 instructions and leaves size 2. -/
theorem size_eq_adds_minus_removes_sample :
    CallsValid (create Heap.empty 8) sampleCalls ∧
    (∃ t, runCalls true (create Heap.empty 8) sampleCalls = some t ∧
      t.2.CurrentSize = (countAdd sampleCalls : Int) - countRemoveAt sampleCalls) ∧
    (runCalls true (create Heap.empty 8) sampleCalls).map (fun t => t.2.CurrentSize) = some 2 ∧
    countAdd sampleCalls = 4 ∧ countRemoveAt sampleCalls = 2 :=
  ⟨by decide,
   size_eq_adds_minus_removes Heap.empty 8 (create Heap.empty 8) (Or.inl rfl) sampleCalls
     (by decide),
   by decide, by decide, by decide⟩

/-- With the assertion compiled in, a valid sequence of calls is aborted at its first
`RemoveAt`. -/
theorem runCalls_assert (s : Heap × ACOReadyList) (cs : List Call) (v : CallsValid s cs)
    (hr : 0 < countRemoveAt cs) : runCalls false s cs = none := by
  induction cs generalizing s with
  | nil => simp [countRemoveAt] at hr
  | cons c cs ih =>
    cases c with
    | Add Entry =>
      have hr' : 0 < countRemoveAt cs := by
        simpa [countRemoveAt, Call.isAdd] using hr
      have := ih (addInstructionToReadyList s.1 s.2 Entry) v hr'
      simpa [runCalls, Call.apply] using this
    | RemoveAt Indx =>
      obtain ⟨v0, v1, -⟩ := v
      simp [runCalls, Call.apply, removeInstructionAtIndex_assert s.1 s.2 Indx v0 v1]

set_option maxRecDepth 100000 in
/-- C5 (the code at the failing input): as the functions are written (assertions compiled in),
every sequence of calls on any list that contains a `RemoveAt`, each `RemoveAt` satisfying
`0 ≤ Indx < CurrentSize`, is aborted at its first `RemoveAt` by the assertion of
`removeInstructionAtIndex`, so there is no size after the sequence. The sample sequence (three
adds, the removal of index 0, an add, the removal of index 2) on `ACOReadyList(8)` is valid, has
4 adds and 2 removals, and is aborted; with the assertion compiled out (`NDEBUG`) it ends with
size 2 and no access outside an allocation. With the assertion compiled out, every valid
sequence on a freshly constructed list that ends without an access outside an allocation ends
with the size `#Add - #RemoveAt`. -/
theorem size_law_aborted_by_assertion :
    (∀ (s : Heap × ACOReadyList) (cs : List Call), CallsValid s cs → 0 < countRemoveAt cs →
      runCalls false s cs = none) ∧
    CallsValid (create Heap.empty 8) sampleCalls ∧
    countAdd sampleCalls = 4 ∧ countRemoveAt sampleCalls = 2 ∧
    runCalls false (create Heap.empty 8) sampleCalls = none ∧
    (runCalls true (create Heap.empty 8) sampleCalls).map
      (fun t => (t.2.CurrentSize, t.1.fault)) = some (2, false) ∧
    (∀ (h : Heap) (r : Int) (s : Heap × ACOReadyList),
      (s = create h r ∨ s = (h, ACOReadyList.default)) →
      ∀ (cs : List Call) (t : Heap × ACOReadyList), CallsValid s cs →
        runCalls true s cs = some t → t.1.fault = false →
        t.2.CurrentSize = (countAdd cs : Int) - countRemoveAt cs) := by
  refine ⟨runCalls_assert, by decide, by decide, by decide, by decide, by decide, ?_⟩
  intro h r s fresh cs t v rt _
  have h0 : s.2.CurrentSize = 0 := by
    rcases fresh with e | e <;> rw [e] <;> rfl
  obtain ⟨t', rt', st, -⟩ := runCalls_size s cs v (le_of_eq h0.symm)
  rw [rt] at rt'
  cases rt'
  rw [st, h0]
  simp

/-- The relation between the capacities and the overflow flag that every call keeps. -/
theorem apply_overflow (NDEBUG : Bool) (s t : Heap × ACOReadyList) (c : Call)
    (r : c.apply NDEBUG s = some t)
    (inv : 0 ≤ s.2.PrimaryBufferCapacity ∧ s.2.PrimaryBufferCapacity ≤ s.2.CurrentCapacity ∧
      (s.2.Overflowed = true ↔ s.2.PrimaryBufferCapacity < s.2.CurrentCapacity)) :
    (0 ≤ t.2.PrimaryBufferCapacity ∧ t.2.PrimaryBufferCapacity ≤ t.2.CurrentCapacity ∧
      (t.2.Overflowed = true ↔ t.2.PrimaryBufferCapacity < t.2.CurrentCapacity)) ∧
    (s.2.Overflowed = true → t.2.Overflowed = true) := by
  obtain ⟨i0, i1, i2⟩ := inv
  cases c with
  | Add Entry =>
    simp only [Call.apply, Option.some.injEq] at r
    subst r
    obtain ⟨-, a2, a3, a4, -⟩ := add_fields s.1 s.2 Entry
    rw [a2, a3, a4]
    by_cases e : s.2.CurrentSize = s.2.CurrentCapacity
    · have hq := Int.tdiv_nonneg (a := s.2.CurrentCapacity) (b := 2) (by omega) (by decide)
      simp only [if_pos e]
      refine ⟨⟨i0, by omega, ?_⟩, fun _ => trivial⟩
      constructor
      · intro _; omega
      · intro _; trivial
    · simp only [if_neg e]
      exact ⟨⟨i0, i1, i2⟩, id⟩
  | RemoveAt Indx =>
    simp only [Call.apply, removeInstructionAtIndex] at r
    split at r
    · simp only [Option.map_some', Option.some.injEq] at r
      subst r
      exact ⟨⟨i0, i1, i2⟩, id⟩
    · simp at r

theorem runCalls_overflow (NDEBUG : Bool) (cs : List Call) (s t : Heap × ACOReadyList)
    (r : runCalls NDEBUG s cs = some t)
    (inv : 0 ≤ s.2.PrimaryBufferCapacity ∧ s.2.PrimaryBufferCapacity ≤ s.2.CurrentCapacity ∧
      (s.2.Overflowed = true ↔ s.2.PrimaryBufferCapacity < s.2.CurrentCapacity)) :
    (0 ≤ t.2.PrimaryBufferCapacity ∧ t.2.PrimaryBufferCapacity ≤ t.2.CurrentCapacity ∧
      (t.2.Overflowed = true ↔ t.2.PrimaryBufferCapacity < t.2.CurrentCapacity)) ∧
    (s.2.Overflowed = true → t.2.Overflowed = true) := by
  induction cs generalizing s with
  | nil =>
    simp only [runCalls, Option.some.injEq] at r
    subst r
    exact ⟨inv, id⟩
  | cons c cs ih =>
    simp only [runCalls] at r
    cases hc : c.apply NDEBUG s with
    | none => rw [hc] at r; simp at r
    | some u =>
      rw [hc] at r
      obtain ⟨invu, mu⟩ := apply_overflow NDEBUG s u c hc inv
      obtain ⟨invt, mt⟩ := ih u r invu
      exact ⟨invt, fun x => mt (mu x)⟩

/-- C6: in every state reached from `ACOReadyList(RegionSize)` by `Add` and `RemoveAt` calls (in
either build, whatever the indices), the overflow flag is true if and only if the current
capacity exceeds the primary capacity; and once the flag is true, it is true after every further
sequence of calls. -/
theorem overflowed_iff_capacity_exceeds_primary (NDEBUG : Bool) (h : Heap) (r : Int)
    (cs : List Call) (s : Heap × ACOReadyList) (run : runCalls NDEBUG (create h r) cs = some s) :
    (s.2.Overflowed = true ↔ s.2.PrimaryBufferCapacity < s.2.CurrentCapacity) ∧
    ∀ (cs' : List Call) (s' : Heap × ACOReadyList), runCalls NDEBUG s cs' = some s' →
      s.2.Overflowed = true → s'.2.Overflowed = true := by
  have h32 : (32 : Int) ≤ computePrimaryCapacity r := le_max_left _ _
  have inv0 : 0 ≤ (create h r).2.PrimaryBufferCapacity ∧
      (create h r).2.PrimaryBufferCapacity ≤ (create h r).2.CurrentCapacity ∧
      ((create h r).2.Overflowed = true ↔
        (create h r).2.PrimaryBufferCapacity < (create h r).2.CurrentCapacity) := by
    refine ⟨le_trans (by decide) h32, le_refl _, ?_⟩
    simp [create]
  obtain ⟨inv, -⟩ := runCalls_overflow NDEBUG cs _ s run inv0
  exact ⟨inv.2.2, fun cs' s' r' => (runCalls_overflow NDEBUG cs' s s' r' inv).2⟩

set_option maxRecDepth 1000000 in
/-- An instance of C6: after the 33 adds and one removal of Scenario A the flag is set and the
capacity 49 exceeds the primary capacity 32; after 3 adds the flag is clear and both are 32. -/
theorem overflowed_iff_capacity_exceeds_primary_scenarioA :
    (∃ s, runCalls true (create Heap.empty 8) overflowCalls = some s ∧
      ((s.2.Overflowed = true ↔ s.2.PrimaryBufferCapacity < s.2.CurrentCapacity) ∧
       ∀ (cs' : List Call) (s' : Heap × ACOReadyList), runCalls true s cs' = some s' →
         s.2.Overflowed = true → s'.2.Overflowed = true) ∧
      s.2.Overflowed = true ∧ s.2.PrimaryBufferCapacity = 32 ∧ s.2.CurrentCapacity = 49) ∧
    scenarioB.2.Overflowed = false ∧ scenarioB.2.PrimaryBufferCapacity = 32 ∧
    scenarioB.2.CurrentCapacity = 32 := by
  have run : runCalls true (create Heap.empty 8) overflowCalls =
      some ((runCalls true (create Heap.empty 8) overflowCalls).getD (Heap.empty, default)) := by
    decide!
  refine ⟨⟨_, run,
    overflowed_iff_capacity_exceeds_primary true Heap.empty 8 overflowCalls _ run,
    by decide!, by decide!, by decide!⟩, by decide, by decide, by decide⟩

end ACOReadyList

/-! ## Frame lemmas -/

theorem Heap.AgreeOn.same (bs : List (Option Nat)) (h : Heap) : Heap.AgreeOn bs h h :=
  fun _ _ _ => rfl

theorem Heap.AgreeOn.trans {bs : List (Option Nat)} {h1 h2 h3 : Heap}
    (a : Heap.AgreeOn bs h1 h2) (b : Heap.AgreeOn bs h2 h3) : Heap.AgreeOn bs h1 h3 :=
  fun q j hq => (b q j hq).trans (a q j hq)

theorem Heap.agree_store {bs : List (Option Nat)} (h : Heap) (p : Ptr) (i v : Int)
    (hp : p.blk ∉ bs) : Heap.AgreeOn bs h (h.store p i v) := by
  intro q j hq
  have hc : ¬ (q.blk = p.blk ∧ q.off + j = p.off + i ∧ (h.read? p i).isSome = true) :=
    fun hc => hp (hc.1 ▸ hq)
  rw [Heap.read?_store, if_neg hc]

theorem Heap.agree_touch (bs : List (Option Nat)) (h : Heap) (p : Ptr) (i : Int) :
    Heap.AgreeOn bs h (h.touch p i) :=
  fun q j _ => Heap.read?_touch h p i q j

theorem Heap.agree_copyCell {bs : List (Option Nat)} (h : Heap) (dst : Ptr) (i : Int) (src : Ptr)
    (k : Int) (hp : dst.blk ∉ bs) : Heap.AgreeOn bs h (h.copyCell dst i src k) :=
  (Heap.agree_touch bs h src k).trans (Heap.agree_store _ dst i _ hp)

theorem Heap.agree_free {bs : List (Option Nat)} (h : Heap) (p : Ptr) (hp : p.blk ∉ bs) :
    Heap.AgreeOn bs h (h.free p) :=
  fun q j hq => Heap.read?_free h p q j (fun e => hp (e ▸ hq))

theorem Heap.agree_alloc {bs : List (Option Nat)} (h : Heap) (n : Int)
    (hp : some h.blocks.length ∉ bs) : Heap.AgreeOn bs h (h.alloc n).1 :=
  fun q j hq => Heap.read?_alloc h n q j (fun e => hp (e ▸ hq))

namespace ACOReadyList

theorem Live.not_mem {h : Heap} {bs : List (Option Nat)} (l : Live h bs) (n : Nat)
    (hn : h.blocks.length ≤ n) : some n ∉ bs := by
  intro hm
  obtain ⟨b, e, hb⟩ := l _ hm
  cases e
  omega

theorem Live.mono_length {h h' : Heap} {bs : List (Option Nat)} (l : Live h bs)
    (hle : h.blocks.length ≤ h'.blocks.length) : Live h' bs := by
  intro x hx
  obtain ⟨b, e, hb⟩ := l x hx
  exact ⟨b, e, by omega⟩

theorem agree_foldl_growEntry {bs : List (Option Nat)} (L : ACOReadyList) (nI nH nS : Ptr)
    (o1 o2 o3 o4 : Int) (hI : nI.blk ∉ bs) (hH : nH.blk ∉ bs) (hS : nS.blk ∉ bs)
    (l : List Nat) (h : Heap) :
    Heap.AgreeOn bs h (l.foldl (growEntry L nI nH nS o1 o2 o3 o4) h) := by
  induction l generalizing h with
  | nil => exact Heap.AgreeOn.same bs h
  | cons x xs ih =>
    rw [List.foldl_cons]
    refine Heap.AgreeOn.trans ?_ (ih _)
    unfold growEntry
    exact (((Heap.agree_copyCell _ _ _ _ _ hI).trans (Heap.agree_copyCell _ _ _ _ _ hI)).trans
      (Heap.agree_copyCell _ _ _ _ _ hH)).trans (Heap.agree_copyCell _ _ _ _ _ hS)

/-- The reallocation of a list leaves the entries of a separate list in place. -/
theorem grow_frame (h : Heap) (A B : ACOReadyList) (sep : Separate A B)
    (live : Live h (reads B)) :
    Heap.AgreeOn (reads B) h (grow h A).1 ∧ Separate (grow h A).2 B := by
  have n0 := live.not_mem h.blocks.length (le_refl _)
  have n1 := live.not_mem (h.blocks.length + 1) (by omega)
  have n2 := live.not_mem (h.blocks.length + 2) (by omega)
  have sI : A.IntAllocation.blk ∉ reads B := sep _ (by simp [owned])
  have sH : A.HeurAllocation.blk ∉ reads B := sep _ (by simp [owned])
  have sS : A.ScoreAllocation.blk ∉ reads B := sep _ (by simp [owned])
  constructor
  · unfold grow
    simp only
    refine ((((((Heap.agree_alloc h _ n0).trans (Heap.agree_alloc _ _ ?_)).trans
      (Heap.agree_alloc _ _ ?_)).trans
      (agree_foldl_growEntry A _ _ _ _ _ _ _ ?_ ?_ ?_ _ _)).trans
      (Heap.agree_free _ _ sI)).trans (Heap.agree_free _ _ sH)).trans (Heap.agree_free _ _ sS)
    · simpa using n1
    · simpa using n2
    · simpa [Heap.alloc] using n0
    · simpa [Heap.alloc] using n1
    · simpa [Heap.alloc] using n2
  · intro x hx
    have : x = some h.blocks.length ∨ x = some (h.blocks.length + 1) ∨
        x = some (h.blocks.length + 2) := by
      simp [grow, owned, reads, Heap.alloc, Ptr.add] at hx
      tauto
    rcases this with e | e | e <;> rw [e] <;> assumption

/-- A call on a list leaves the entries of a separate list in place, and leaves the two lists
separate. -/
theorem apply_frame (NDEBUG : Bool) (B : ACOReadyList) (s t : Heap × ACOReadyList) (c : Call)
    (r : c.apply NDEBUG s = some t) (sep : Separate s.2 B) (live : Live s.1 (reads B)) :
    Heap.AgreeOn (reads B) s.1 t.1 ∧ Separate t.2 B ∧ Live t.1 (reads B) := by
  cases c with
  | Add Entry =>
    simp only [Call.apply, Option.some.injEq] at r
    subst r
    have hlen := (add_fields s.1 s.2 Entry).2.2.2.2
    have key : Heap.AgreeOn (reads B) s.1
        (if s.2.CurrentSize = s.2.CurrentCapacity then grow s.1 s.2 else (s.1, s.2)).1 ∧
        Separate (if s.2.CurrentSize = s.2.CurrentCapacity then grow s.1 s.2 else (s.1, s.2)).2
          B := by
      by_cases e : s.2.CurrentSize = s.2.CurrentCapacity
      · rw [if_pos e]; exact grow_frame s.1 s.2 B sep live
      · rw [if_neg e]; exact ⟨Heap.AgreeOn.same _ _, sep⟩
    obtain ⟨ag, sp⟩ := key
    refine ⟨?_, ?_, live.mono_length (by omega)⟩
    · unfold addInstructionToReadyList
      simp only
      refine ((((ag.trans (Heap.agree_store _ _ _ _ ?_)).trans
        (Heap.agree_store _ _ _ _ ?_)).trans (Heap.agree_store _ _ _ _ ?_)).trans
        (Heap.agree_store _ _ _ _ ?_))
      · exact sp _ (by simp [reads])
      · exact sp _ (by simp [reads])
      · exact sp _ (by simp [reads])
      · exact sp _ (by simp [reads])
    · intro x hx
      exact sp x (by simpa [addInstructionToReadyList, owned, reads] using hx)
  | RemoveAt Indx =>
    simp only [Call.apply, removeInstructionAtIndex] at r
    split at r
    · simp only [Option.map_some', Option.some.injEq] at r
      subst r
      refine ⟨?_, ?_, live.mono_length (by simp [removeBody])⟩
      · unfold removeBody
        simp only
        refine (((((((Heap.agree_touch _ _ _ _).trans (Heap.agree_touch _ _ _ _)).trans
          (Heap.agree_touch _ _ _ _)).trans (Heap.agree_touch _ _ _ _)).trans
          (Heap.agree_copyCell _ _ _ _ _ ?_)).trans (Heap.agree_copyCell _ _ _ _ _ ?_)).trans
          (Heap.agree_copyCell _ _ _ _ _ ?_)).trans (Heap.agree_copyCell _ _ _ _ _ ?_)
        · exact sep _ (by simp [reads])
        · exact sep _ (by simp [reads])
        · exact sep _ (by simp [reads])
        · exact sep _ (by simp [reads])
      · intro x hx
        exact sep x (by simpa [removeBody, owned, reads] using hx)
    · simp at r

/-- A sequence of calls on a list leaves the entries of a separate list in place. -/
theorem runCalls_frame (NDEBUG : Bool) (B : ACOReadyList) (cs : List Call)
    (s t : Heap × ACOReadyList) (r : runCalls NDEBUG s cs = some t) (sep : Separate s.2 B)
    (live : Live s.1 (reads B)) : Heap.AgreeOn (reads B) s.1 t.1 := by
  induction cs generalizing s with
  | nil =>
    simp only [runCalls, Option.some.injEq] at r
    subst r
    exact Heap.AgreeOn.same _ _
  | cons c cs ih =>
    simp only [runCalls] at r
    cases hc : c.apply NDEBUG s with
    | none => rw [hc] at r; simp at r
    | some u =>
      rw [hc] at r
      obtain ⟨ag, sp, lv⟩ := apply_frame NDEBUG B s u c hc sep live
      exact ag.trans (ih u r sp lv)

theorem entryAt?_agree {h h' : Heap} {B : ACOReadyList} (ag : Heap.AgreeOn (reads B) h h')
    (p : Int) : entryAt? h' B p = entryAt? h B p := by
  unfold entryAt?
  rw [ag _ _ (by simp [reads]), ag _ _ (by simp [reads]), ag _ _ (by simp [reads]),
    ag _ _ (by simp [reads])]

/-- One iteration of the copy loop, when the four source cells and the four destination cells of
index `k` are inside their allocations: the destination cells receive the source values and no
other cell changes. -/
theorem copyEntry_reads (x : Heap) (L : ACOReadyList) (bi bh bs n0 n1 n2 : Nat) (k : Nat)
    (a b c d : Int)
    (e1 : L.InstrBase = ⟨some bi, 0⟩) (e2 : L.ReadyOnBase = ⟨some bi, L.CurrentCapacity⟩)
    (e3 : L.HeurBase = ⟨some bh, 0⟩) (e4 : L.ScoreBase = ⟨some bs, 0⟩)
    (d01 : n0 ≠ n1) (d02 : n0 ≠ n2) (d12 : n1 ≠ n2)
    (di0 : bi ≠ n0) (dh0 : bh ≠ n0) (ds0 : bs ≠ n0) (ds1 : bs ≠ n1)
    (hk : (k : Int) < L.CurrentCapacity)
    (ra : x.read? ⟨some bi, 0⟩ k = some a) (rb : x.read? ⟨some bi, L.CurrentCapacity⟩ k = some b)
    (rc : x.read? ⟨some bh, 0⟩ k = some c) (rd : x.read? ⟨some bs, 0⟩ k = some d)
    (wa : (x.read? ⟨some n0, 0⟩ k).isSome = true)
    (wb : (x.read? ⟨some n0, L.CurrentCapacity⟩ k).isSome = true)
    (wc : (x.read? ⟨some n1, 0⟩ k).isSome = true) (wd : (x.read? ⟨some n2, 0⟩ k).isSome = true)
    (q : Ptr) (j : Int) :
    (copyEntry ⟨some n0, 0⟩ ⟨some n0, L.CurrentCapacity⟩ ⟨some n1, 0⟩ ⟨some n2, 0⟩ L x k).read?
        q j =
      if q.blk = some n2 ∧ q.off + j = k then some d
      else if q.blk = some n1 ∧ q.off + j = k then some c
      else if q.blk = some n0 ∧ q.off + j = L.CurrentCapacity + k then some b
      else if q.blk = some n0 ∧ q.off + j = k then some a
      else x.read? q j := by
  have hcap : ¬ L.CurrentCapacity = 0 := by omega
  have d10 : ¬ n1 = n0 := fun e => d01 e.symm
  have d20 : ¬ n2 = n0 := fun e => d02 e.symm
  have d21 : ¬ n2 = n1 := fun e => d12 e.symm
  simp [copyEntry, Heap.read?_copyCell, Heap.load, e1, e2, e3, e4, ra, rb, rc, rd, wa, wb, wc,
    wd, d01, d02, d12, d10, d20, d21, di0, dh0, ds0, ds1, hcap]

/-- The copy loop after `k` iterations: the first `k` positions of the destination arrays hold
the source entries, nothing outside the destination blocks has changed, and every cell that
could be read still can. -/
theorem copyEntries_reads (g : Heap) (L : ACOReadyList) (bi bh bs n0 n1 n2 : Nat)
    (e1 : L.InstrBase = ⟨some bi, 0⟩) (e2 : L.ReadyOnBase = ⟨some bi, L.CurrentCapacity⟩)
    (e3 : L.HeurBase = ⟨some bh, 0⟩) (e4 : L.ScoreBase = ⟨some bs, 0⟩)
    (d01 : n0 ≠ n1) (d02 : n0 ≠ n2) (d12 : n1 ≠ n2)
    (di : bi ≠ n0 ∧ bi ≠ n1 ∧ bi ≠ n2) (dh : bh ≠ n0 ∧ bh ≠ n1 ∧ bh ≠ n2)
    (ds : bs ≠ n0 ∧ bs ≠ n1 ∧ bs ≠ n2) (hsz : L.CurrentSize ≤ L.CurrentCapacity)
    (src : ∀ p : Nat, (p : Int) < L.CurrentSize →
      ∃ a b c d, g.read? ⟨some bi, 0⟩ p = some a ∧
        g.read? ⟨some bi, L.CurrentCapacity⟩ p = some b ∧
        g.read? ⟨some bh, 0⟩ p = some c ∧ g.read? ⟨some bs, 0⟩ p = some d)
    (dst : ∀ p : Nat, (p : Int) < L.CurrentCapacity →
      (g.read? ⟨some n0, 0⟩ p).isSome = true ∧
      (g.read? ⟨some n0, L.CurrentCapacity⟩ p).isSome = true ∧
      (g.read? ⟨some n1, 0⟩ p).isSome = true ∧ (g.read? ⟨some n2, 0⟩ p).isSome = true)
    (k : Nat) (hk : (k : Int) ≤ L.CurrentSize) :
    (∀ (q : Ptr) (j : Int), q.blk ≠ some n0 → q.blk ≠ some n1 → q.blk ≠ some n2 →
      ((List.range k).foldl (copyEntry ⟨some n0, 0⟩ ⟨some n0, L.CurrentCapacity⟩ ⟨some n1, 0⟩
        ⟨some n2, 0⟩ L) g).read? q j = g.read? q j) ∧
    (∀ (q : Ptr) (j : Int), (g.read? q j).isSome = true →
      (((List.range k).foldl (copyEntry ⟨some n0, 0⟩ ⟨some n0, L.CurrentCapacity⟩ ⟨some n1, 0⟩
        ⟨some n2, 0⟩ L) g).read? q j).isSome = true) ∧
    (∀ p : Nat, p < k →
      ((List.range k).foldl (copyEntry ⟨some n0, 0⟩ ⟨some n0, L.CurrentCapacity⟩ ⟨some n1, 0⟩
        ⟨some n2, 0⟩ L) g).read? ⟨some n0, 0⟩ p = g.read? ⟨some bi, 0⟩ p ∧
      ((List.range k).foldl (copyEntry ⟨some n0, 0⟩ ⟨some n0, L.CurrentCapacity⟩ ⟨some n1, 0⟩
        ⟨some n2, 0⟩ L) g).read? ⟨some n0, L.CurrentCapacity⟩ p =
          g.read? ⟨some bi, L.CurrentCapacity⟩ p ∧
      ((List.range k).foldl (copyEntry ⟨some n0, 0⟩ ⟨some n0, L.CurrentCapacity⟩ ⟨some n1, 0⟩
        ⟨some n2, 0⟩ L) g).read? ⟨some n1, 0⟩ p = g.read? ⟨some bh, 0⟩ p ∧
      ((List.range k).foldl (copyEntry ⟨some n0, 0⟩ ⟨some n0, L.CurrentCapacity⟩ ⟨some n1, 0⟩
        ⟨some n2, 0⟩ L) g).read? ⟨some n2, 0⟩ p = g.read? ⟨some bs, 0⟩ p) := by
  induction k with
  | zero =>
    refine ⟨fun _ _ _ _ _ => rfl, fun _ _ hq => hq, fun p hp => absurd hp (Nat.not_lt_zero p)⟩
  | succ k ih =>
    have hk' : (k : Int) < L.CurrentSize := by omega
    obtain ⟨fr, rd, cp⟩ := ih (by omega)
    obtain ⟨a, b, c, d, ra, rb, rc, rdd⟩ := src k hk'
    obtain ⟨wa, wb, wc, wd⟩ := dst k (by omega)
    have nb : ∀ {m n : Nat}, m ≠ n → (some m : Option Nat) ≠ some n := fun hmn e =>
      hmn (Option.some.inj e)
    have step := copyEntry_reads ((List.range k).foldl (copyEntry ⟨some n0, 0⟩
      ⟨some n0, L.CurrentCapacity⟩ ⟨some n1, 0⟩ ⟨some n2, 0⟩ L) g) L bi bh bs n0 n1 n2 k a b c d
      e1 e2 e3 e4 d01 d02 d12 di.1 dh.1 ds.1 ds.2.1 (by omega)
      (by rw [fr _ _ (nb di.1) (nb di.2.1) (nb di.2.2)]; exact ra)
      (by rw [fr _ _ (nb di.1) (nb di.2.1) (nb di.2.2)]; exact rb)
      (by rw [fr _ _ (nb dh.1) (nb dh.2.1) (nb dh.2.2)]; exact rc)
      (by rw [fr _ _ (nb ds.1) (nb ds.2.1) (nb ds.2.2)]; exact rdd)
      (rd _ _ wa) (rd _ _ wb) (rd _ _ wc) (rd _ _ wd)
    rw [List.range_succ, List.foldl_append, List.foldl_cons, List.foldl_nil]
    refine ⟨?_, ?_, ?_⟩
    · intro q j q0 q1 q2
      rw [step q j]
      simp only [q0, q1, q2, false_and, if_false]
      exact fr q j q0 q1 q2
    · intro q j hq
      rw [step q j]
      have := rd q j hq
      split_ifs <;> first | rfl | assumption
    · intro p hp
      have hcap : ¬ L.CurrentCapacity = 0 := by omega
      have d10 : ¬ n1 = n0 := fun e => d01 e.symm
      have d20 : ¬ n2 = n0 := fun e => d02 e.symm
      have d21 : ¬ n2 = n1 := fun e => d12 e.symm
      rw [step, step, step, step]
      by_cases e : p = k
      · subst e
        simp [d01, d02, d12, d10, d20, d21, hcap, ra, rb, rc, rdd]
      · obtain ⟨c1, c2, c3, c4⟩ := cp p (by omega)
        have e' : ¬ (p : Int) = k := by omega
        have f1 : ¬ (p : Int) = L.CurrentCapacity + k := by omega
        have f2 : ¬ L.CurrentCapacity + (p : Int) = k := by omega
        simp [d01, d02, d12, d10, d20, d21, hcap, e, e', f1, f2, c1, c2, c3, c4]

theorem Heap_read?_off (h : Heap) (b : Option Nat) (o i : Int) :
    h.read? ⟨b, o⟩ i = h.read? ⟨b, 0⟩ (o + i) := by
  simp [Heap.read?, Heap.block]

theorem WellFormed.live {h : Heap} {L : ACOReadyList} (w : WellFormed h L) :
    Live h (reads L) ∧ Live h (owned L) := by
  obtain ⟨bi, bh, bs, ci, ch, cs, e1, e2, e3, e4, e5, e6, e7, hi, hh, hs, -, -, -, -, -, -⟩ :=
    w.cases
  have li : bi < h.blocks.length := by
    by_contra hc
    rw [List.getElem?_eq_none (by omega)] at hi
    cases hi
  have lh : bh < h.blocks.length := by
    by_contra hc
    rw [List.getElem?_eq_none (by omega)] at hh
    cases hh
  have ls : bs < h.blocks.length := by
    by_contra hc
    rw [List.getElem?_eq_none (by omega)] at hs
    cases hs
  constructor
  · intro x hx
    simp only [reads, e1, e2, e3, e4, List.mem_cons, List.mem_singleton, List.not_mem_nil,
      or_false] at hx
    rcases hx with e | e | e | e
    · exact ⟨bi, e, li⟩
    · exact ⟨bi, e, li⟩
    · exact ⟨bh, e, lh⟩
    · exact ⟨bs, e, ls⟩
  · intro x hx
    simp only [owned, e5, e6, e7, List.mem_cons, List.mem_singleton, List.not_mem_nil,
      or_false] at hx
    rcases hx with e | e | e
    · exact ⟨bi, e, li⟩
    · exact ⟨bh, e, lh⟩
    · exact ⟨bs, e, ls⟩

/-- The copy made on a heap `g` that still holds the entries of `L` as `h` did: the copy reads
back the entries of `L`, the storage of `L` is not written, and the two lists are separate. -/
theorem copy_reads (h g : Heap) (L : ACOReadyList) (w : WellFormed h L)
    (ag : Heap.AgreeOn (reads L) h g) (hl : h.blocks.length ≤ g.blocks.length) :
    (∀ p, 0 ≤ p → p < L.CurrentSize →
      entryAt? (copy g L).1 (copy g L).2 p = entryAt? h L p ∧
      (entryAt? h L p).isSome = true) ∧
    Heap.AgreeOn (reads L) h (copy g L).1 ∧
    Separate (copy g L).2 L ∧ Separate L (copy g L).2 ∧
    Live (copy g L).1 (reads L) ∧ Live (copy g L).1 (reads (copy g L).2) := by
  obtain ⟨lr, lo⟩ := w.live
  obtain ⟨bi, bh, bs, ci, ch, cs, e1, e2, e3, e4, e5, e6, e7, -, -, -, -, -, -, -, -, -⟩ :=
    w.cases
  have hsz := w.2.1
  have hi : bi < h.blocks.length := by
    obtain ⟨b, e, hb⟩ := lr (some bi) (by simp [reads, e1])
    cases e; exact hb
  have hh : bh < h.blocks.length := by
    obtain ⟨b, e, hb⟩ := lr (some bh) (by simp [reads, e3])
    cases e; exact hb
  have hs : bs < h.blocks.length := by
    obtain ⟨b, e, hb⟩ := lr (some bs) (by simp [reads, e4])
    cases e; exact hb
  -- the heap after the three allocations
  have a1 : Heap.AgreeOn (reads L) g (g.alloc (2 * L.CurrentCapacity)).1 :=
    Heap.agree_alloc g _ ((lr.mono_length hl).not_mem _ (le_refl _))
  have a2 : Heap.AgreeOn (reads L) (g.alloc (2 * L.CurrentCapacity)).1
      ((g.alloc (2 * L.CurrentCapacity)).1.alloc L.CurrentCapacity).1 :=
    Heap.agree_alloc _ _ ((lr.mono_length hl).not_mem _ (by simp))
  have a3 : Heap.AgreeOn (reads L) ((g.alloc (2 * L.CurrentCapacity)).1.alloc L.CurrentCapacity).1
      (((g.alloc (2 * L.CurrentCapacity)).1.alloc L.CurrentCapacity).1.alloc
        L.CurrentCapacity).1 :=
    Heap.agree_alloc _ _ ((lr.mono_length hl).not_mem _ (by simp; omega))
  have ag3 := ((ag.trans a1).trans a2).trans a3
  generalize hg3 : (((g.alloc (2 * L.CurrentCapacity)).1.alloc L.CurrentCapacity).1.alloc
    L.CurrentCapacity).1 = g3 at ag3
  have src : ∀ p : Nat, (p : Int) < L.CurrentSize →
      ∃ a b c d, g3.read? ⟨some bi, 0⟩ p = some a ∧
        g3.read? ⟨some bi, L.CurrentCapacity⟩ p = some b ∧
        g3.read? ⟨some bh, 0⟩ p = some c ∧ g3.read? ⟨some bs, 0⟩ p = some d := by
    intro p hp
    obtain ⟨a, b, c, d, ra, rb, rc, rd, -⟩ := w.entryAt p (by omega) (by omega)
    rw [e1] at ra; rw [e2] at rb; rw [e3] at rc; rw [e4] at rd
    refine ⟨a, b, c, d, ?_, ?_, ?_, ?_⟩
    · rw [ag3 _ _ (by simp [reads, e1])]; exact ra
    · rw [ag3 _ _ (by simp [reads, e1])]; exact rb
    · rw [ag3 _ _ (by simp [reads, e3])]; exact rc
    · rw [ag3 _ _ (by simp [reads, e4])]; exact rd
  have dst : ∀ p : Nat, (p : Int) < L.CurrentCapacity →
      (g3.read? ⟨some g.blocks.length, 0⟩ p).isSome = true ∧
      (g3.read? ⟨some g.blocks.length, L.CurrentCapacity⟩ p).isSome = true ∧
      (g3.read? ⟨some (g.blocks.length + 1), 0⟩ p).isSome = true ∧
      (g3.read? ⟨some (g.blocks.length + 2), 0⟩ p).isSome = true := by
    intro p hp
    have n1 := Heap.read?_alloc_new g (2 * L.CurrentCapacity)
    have n2 := Heap.read?_alloc_new (g.alloc (2 * L.CurrentCapacity)).1 L.CurrentCapacity
    have n3 := Heap.read?_alloc_new
      ((g.alloc (2 * L.CurrentCapacity)).1.alloc L.CurrentCapacity).1 L.CurrentCapacity
    have k1 : ∀ j, 0 ≤ j → j < 2 * L.CurrentCapacity →
        (g3.read? ⟨some g.blocks.length, 0⟩ j).isSome = true := by
      intro j j0 j1
      rw [← hg3, Heap.read?_alloc _ _ _ _ (by simp; omega),
        Heap.read?_alloc _ _ _ _ (by simp)]
      have := n1 j
      simp only [Heap.alloc] at this ⊢
      rw [this, if_pos ⟨j0, j1⟩]
      rfl
    refine ⟨k1 p (by omega) (by omega), ?_, ?_, ?_⟩
    · rw [Heap_read?_off]
      exact k1 _ (by omega) (by omega)
    · rw [← hg3, Heap.read?_alloc _ _ _ _ (by simp)]
      have := n2 p
      simp only [Heap.alloc, List.length_append, List.length_singleton] at this ⊢
      rw [this, if_pos ⟨by omega, hp⟩]
      rfl
    · rw [← hg3]
      have := n3 p
      simp only [Heap.alloc, List.length_append, List.length_singleton] at this ⊢
      rw [this, if_pos ⟨by omega, hp⟩]
      rfl
  have hsz0 := w.1
  have loop := copyEntries_reads g3 L bi bh bs g.blocks.length (g.blocks.length + 1)
    (g.blocks.length + 2) e1 e2 e3 e4 (by omega) (by omega) (by omega)
    ⟨by omega, by omega, by omega⟩ ⟨by omega, by omega, by omega⟩ ⟨by omega, by omega, by omega⟩
    hsz src dst L.CurrentSize.toNat (by omega)
  obtain ⟨fr, -, cp⟩ := loop
  have hcopy1 : (copy g L).1 = (List.range L.CurrentSize.toNat).foldl
      (copyEntry ⟨some g.blocks.length, 0⟩ ⟨some g.blocks.length, L.CurrentCapacity⟩
        ⟨some (g.blocks.length + 1), 0⟩ ⟨some (g.blocks.length + 2), 0⟩ L) g3 := by
    rw [← hg3]
    simp [copy, copyEntries, Heap.alloc, Ptr.add]
  have hcI : (copy g L).2.InstrBase = ⟨some g.blocks.length, 0⟩ := by simp [copy, Heap.alloc]
  have hcR : (copy g L).2.ReadyOnBase = ⟨some g.blocks.length, L.CurrentCapacity⟩ := by
    simp [copy, Heap.alloc, Ptr.add]
  have hcH : (copy g L).2.HeurBase = ⟨some (g.blocks.length + 1), 0⟩ := by
    simp [copy, Heap.alloc]
  have hcS : (copy g L).2.ScoreBase = ⟨some (g.blocks.length + 2), 0⟩ := by
    simp [copy, Heap.alloc]
  have hcAI : (copy g L).2.IntAllocation = ⟨some g.blocks.length, 0⟩ := by simp [copy, Heap.alloc]
  have hcAH : (copy g L).2.HeurAllocation = ⟨some (g.blocks.length + 1), 0⟩ := by
    simp [copy, Heap.alloc]
  have hcAS : (copy g L).2.ScoreAllocation = ⟨some (g.blocks.length + 2), 0⟩ := by
    simp [copy, Heap.alloc]
  have agL : Heap.AgreeOn (reads L) h (copy g L).1 := by
    refine ag3.trans ?_
    intro q j hq
    obtain ⟨b, e, hb⟩ := lr _ hq
    rw [hcopy1]
    exact fr q j (by rw [e]; simp; omega) (by rw [e]; simp; omega) (by rw [e]; simp; omega)
  have hlen : g.blocks.length + 3 ≤ (copy g L).1.blocks.length := by
    have : ∀ (l : List Nat) (x : Heap), (l.foldl (copyEntry ⟨some g.blocks.length, 0⟩
        ⟨some g.blocks.length, L.CurrentCapacity⟩ ⟨some (g.blocks.length + 1), 0⟩
        ⟨some (g.blocks.length + 2), 0⟩ L) x).blocks.length = x.blocks.length := by
      intro l
      induction l with
      | nil => intro x; rfl
      | cons y ys ih => intro x; rw [List.foldl_cons, ih]; simp [copyEntry]
    rw [hcopy1, this, ← hg3]
    simp
  refine ⟨?_, agL, ?_, ?_, lr.mono_length (by omega), ?_⟩
  · intro p p0 p1
    obtain ⟨a, b, c, d, ra, rb, rc, rd, re⟩ := w.entryAt p p0 (by omega)
    rw [e1] at ra; rw [e2] at rb; rw [e3] at rc; rw [e4] at rd
    obtain ⟨c1, c2, c3, c4⟩ := cp p.toNat (by omega)
    have hp : ((p.toNat : Nat) : Int) = p := Int.toNat_of_nonneg p0
    rw [hp] at c1 c2 c3 c4
    rw [ag3 _ _ (by simp [reads, e1]), ra] at c1
    rw [ag3 _ _ (by simp [reads, e1]), rb] at c2
    rw [ag3 _ _ (by simp [reads, e3]), rc] at c3
    rw [ag3 _ _ (by simp [reads, e4]), rd] at c4
    rw [re]
    refine ⟨?_, rfl⟩
    unfold entryAt?
    rw [hcI, hcR, hcH, hcS, hcopy1, c1, c2, c3, c4]
  · intro x hx
    simp only [owned, reads, hcI, hcR, hcH, hcS, hcAI, hcAH, hcAS, List.cons_append,
      List.nil_append, List.mem_cons, List.mem_singleton, List.not_mem_nil, or_false] at hx
    intro hm
    obtain ⟨b, e, hb⟩ := lr x hm
    rcases hx with e' | e' | e' | e' | e' | e' | e' <;> rw [e'] at e <;> cases e <;> omega
  · intro x hx hm
    have hx' : x ∈ owned L ∨ x ∈ reads L := List.mem_append.mp hx
    have : ∃ b, x = some b ∧ b < h.blocks.length := by
      rcases hx' with hx' | hx'
      · exact lo x hx'
      · exact lr x hx'
    obtain ⟨b, e, hb⟩ := this
    simp only [reads, hcI, hcR, hcH, hcS, List.mem_cons, List.mem_singleton, List.not_mem_nil,
      or_false] at hm
    rcases hm with e' | e' | e' | e' <;> rw [e'] at e <;> cases e <;> omega
  · intro x hx
    simp only [reads, hcI, hcR, hcH, hcS, List.mem_cons, List.mem_singleton, List.not_mem_nil,
      or_false] at hx
    rcases hx with e' | e' | e' | e'
    · exact ⟨_, e', by omega⟩
    · exact ⟨_, e', by omega⟩
    · exact ⟨_, e', by omega⟩
    · exact ⟨_, e', by omega⟩

/-- The copy constructor, and copy assignment from a different object to an object `this` that
owns none of the blocks of `L`: for every list `L` satisfying the class invariant they produce a
list `c` with the size, capacity, primary capacity and overflow flag of `L` and, at every
position below the size, the four entry fields of `L`; the storage of `L` is not written; and
every later sequence of `Add` and `RemoveAt` calls on the copy that ends without an access
outside an allocation leaves every entry of `L` as it was, and every such sequence on `L` leaves
every entry of the copy as it was. -/
theorem copy_from_distinct_object (h : Heap) (L this : ACOReadyList) (w : WellFormed h L)
    (hthis : ∀ x ∈ owned this, x ∉ reads L) (c : Heap × ACOReadyList)
    (hc : c = copy h L ∨ c = copyAssign h this (OtherRef.distinct L)) :
    (c.2.CurrentSize = L.CurrentSize ∧ c.2.CurrentCapacity = L.CurrentCapacity ∧
      c.2.PrimaryBufferCapacity = L.PrimaryBufferCapacity ∧ c.2.Overflowed = L.Overflowed ∧
      c.2.InstrCount = L.InstrCount) ∧
    (∀ p, 0 ≤ p → p < L.CurrentSize →
      entryAt? c.1 c.2 p = entryAt? h L p ∧ (entryAt? h L p).isSome = true) ∧
    (∀ p, entryAt? c.1 L p = entryAt? h L p) ∧
    (∀ (NDEBUG : Bool) (cs : List Call) (t : Heap × ACOReadyList),
      runCalls NDEBUG c cs = some t → t.1.fault = false →
      ∀ p, entryAt? t.1 L p = entryAt? h L p) ∧
    (∀ (NDEBUG : Bool) (cs : List Call) (t : Heap × ACOReadyList),
      runCalls NDEBUG (c.1, L) cs = some t → t.1.fault = false →
      ∀ p, entryAt? t.1 c.2 p = entryAt? c.1 c.2 p) := by
  have key : ∃ g, c = copy g L ∧ Heap.AgreeOn (reads L) h g ∧
      h.blocks.length ≤ g.blocks.length := by
    rcases hc with e | e
    · exact ⟨h, e, Heap.AgreeOn.same _ _, le_refl _⟩
    · refine ⟨((h.free this.IntAllocation).free this.HeurAllocation).free this.ScoreAllocation,
        e, ?_, by simp⟩
      exact ((Heap.agree_free _ _ (hthis _ (by simp [owned]))).trans
        (Heap.agree_free _ _ (hthis _ (by simp [owned])))).trans
        (Heap.agree_free _ _ (hthis _ (by simp [owned])))
  obtain ⟨g, e, ag, hl⟩ := key
  subst e
  obtain ⟨rd, agL, s1, s2, l1, l2⟩ := copy_reads h g L w ag hl
  refine ⟨⟨rfl, rfl, rfl, rfl, rfl⟩, rd, fun p => entryAt?_agree agL p, ?_, ?_⟩
  · intro NDEBUG cs t r _ p
    rw [entryAt?_agree (runCalls_frame NDEBUG L cs _ t r s1 l1) p]
    exact entryAt?_agree agL p
  · intro NDEBUG cs t r _ p
    exact entryAt?_agree (runCalls_frame NDEBUG (copy g L).2 cs _ t r s2 l2) p

set_option maxRecDepth 1000000 in
/-- The copy of the list `[I1, I2, I3]` of Scenario B, made by copy assignment to a
default-constructed list, holds `I1`, `I2`, `I3`; after removing index 0 from the copy (assertion
compiled out), the copy holds `[I3, I2]` and the original still `[I1, I2, I3]`. -/
theorem copy_from_distinct_object_scenarioB :
    WellFormed scenarioB.1 scenarioB.2 ∧
    (∀ x ∈ owned ACOReadyList.default, x ∉ reads scenarioB.2) ∧
    ((copyAssign scenarioB.1 ACOReadyList.default (OtherRef.distinct scenarioB.2)).2.CurrentSize
        = scenarioB.2.CurrentSize ∧
      (∀ p, 0 ≤ p → p < scenarioB.2.CurrentSize →
        entryAt? (copyAssign scenarioB.1 ACOReadyList.default (OtherRef.distinct scenarioB.2)).1
          (copyAssign scenarioB.1 ACOReadyList.default (OtherRef.distinct scenarioB.2)).2 p
          = entryAt? scenarioB.1 scenarioB.2 p) ∧
      (∀ (NDEBUG : Bool) (cs : List Call) (t : Heap × ACOReadyList),
        runCalls NDEBUG
          (copyAssign scenarioB.1 ACOReadyList.default (OtherRef.distinct scenarioB.2)) cs
          = some t → t.1.fault = false →
        ∀ p, entryAt? t.1 scenarioB.2 p = entryAt? scenarioB.1 scenarioB.2 p)) ∧
    (List.map (entryAt? (copy scenarioB.1 scenarioB.2).1 (copy scenarioB.1 scenarioB.2).2)
      [0, 1, 2] = [some I1, some I2, some I3]) ∧
    ((runCalls true (copy scenarioB.1 scenarioB.2) [Call.RemoveAt 0]).map fun t =>
      ([0, 1].map (entryAt? t.1 t.2), [0, 1, 2].map (entryAt? t.1 scenarioB.2))) =
      some ([some I3, some I2], [some I1, some I2, some I3]) := by
  have k := copy_from_distinct_object scenarioB.1 scenarioB.2 ACOReadyList.default (by decide!) (by decide!)
    (copyAssign scenarioB.1 ACOReadyList.default (OtherRef.distinct scenarioB.2)) (Or.inr rfl)
  exact ⟨by decide!, by decide!, ⟨k.1.1, fun p p0 p1 => (k.2.1 p p0 p1).1, k.2.2.2.1⟩,
    by decide!, by decide!⟩

end ACOReadyList
theorem set_getElem_same {α : Type} (l : List α) (k : Nat) (hk : k < l.length) :
    l.set k (l.get ⟨k, hk⟩) = l := by
  induction l generalizing k with
  | nil => rfl
  | cons x xs ih =>
    cases k with
    | zero => rfl
    | succ k =>
      simp only [List.set_cons_succ, List.get_cons_succ]
      rw [ih k (Nat.lt_of_succ_lt_succ hk)]

theorem Heap.copyCell_self (h : Heap) (p : Ptr) (i : Int) (hr : (h.read? p i).isSome = true) :
    h.copyCell p i p i = h := by
  obtain ⟨cells, hb, h0, hlt⟩ := (Heap.read?_isSome_iff h p i).mp hr
  have hv : h.load p i = cells[(p.off + i).toNat] := by
    unfold Heap.load
    rw [Heap.read?_of_block hb, if_pos h0, List.getElem?_eq_getElem hlt]
    rfl
  have ht : h.touch p i = h := by
    unfold Heap.touch
    rw [if_pos hr]
  unfold Heap.copyCell
  rw [ht, hv]
  rcases p with ⟨pb, po⟩
  cases pb with
  | none => simp [Heap.block] at hb
  | some b =>
    have hbl : b < h.blocks.length := Heap.block_lt rfl hb
    have hget : h.blocks[b] = some cells := by
      have : h.blocks[b]? = some (some cells) := by
        simp only [Heap.block] at hb
        cases hx : h.blocks[b]? with
        | none => simp [hx] at hb
        | some y =>
          rw [hx] at hb
          cases y with
          | none => simp at hb
          | some z =>
            simp at hb
            rw [hb]
      rw [List.getElem?_eq_getElem hbl] at this
      exact Option.some.inj this
    unfold Heap.store
    simp only [hb]
    rw [if_pos ⟨h0, hlt⟩]
    have e1 : cells.set (po + i).toNat cells[(po + i).toNat] = cells :=
      set_getElem_same cells _ hlt
    have e2 : h.blocks.set b (some cells) = h.blocks := by
      have := set_getElem_same h.blocks b hbl
      rw [List.get_eq_getElem, hget] at this
      exact this
    rw [e1, e2]
namespace ACOReadyList

/-- The cells of three arrays just allocated with `2 * cap`, `cap` and `cap` cells, read at an
index below `cap` through the four base pointers of the constructor layout. -/
theorem fresh_reads (d : Heap) (cap I : Int) (h0 : 0 ≤ I) (hlt : I < cap) :
    (((d.alloc (2 * cap)).1.alloc cap).1.alloc cap).1.read? (d.alloc (2 * cap)).2 I = some 0 ∧
    (((d.alloc (2 * cap)).1.alloc cap).1.alloc cap).1.read? ((d.alloc (2 * cap)).2.add cap) I
      = some 0 ∧
    (((d.alloc (2 * cap)).1.alloc cap).1.alloc cap).1.read? ((d.alloc (2 * cap)).1.alloc cap).2 I
      = some 0 ∧
    (((d.alloc (2 * cap)).1.alloc cap).1.alloc cap).1.read?
      (((d.alloc (2 * cap)).1.alloc cap).1.alloc cap).2 I = some 0 := by
  have n1 : ∀ j, (d.alloc (2 * cap)).1.read? (d.alloc (2 * cap)).2 j =
      if 0 ≤ j ∧ j < 2 * cap then some 0 else none := Heap.read?_alloc_new d (2 * cap)
  have n2 := Heap.read?_alloc_new (d.alloc (2 * cap)).1 cap
  have n3 := Heap.read?_alloc_new ((d.alloc (2 * cap)).1.alloc cap).1 cap
  have k1 : ∀ j, 0 ≤ j → j < 2 * cap →
      (((d.alloc (2 * cap)).1.alloc cap).1.alloc cap).1.read? ⟨some d.blocks.length, 0⟩ j
        = some 0 := by
    intro j j0 j1
    rw [Heap.read?_alloc _ _ _ _ (by simp; omega), Heap.read?_alloc _ _ _ _ (by simp)]
    have := n1 j
    simp only [Heap.alloc] at this ⊢
    rw [this, if_pos ⟨j0, j1⟩]
  refine ⟨k1 I h0 (by omega), ?_, ?_, ?_⟩
  · have e : (d.alloc (2 * cap)).2.add cap = ⟨some d.blocks.length, cap⟩ := by
      simp [Heap.alloc, Ptr.add]
    rw [e, Heap_read?_off]
    exact k1 _ (by omega) (by omega)
  · rw [Heap.read?_alloc _ _ _ _ (by simp [Heap.alloc])]
    rw [n2 I, if_pos ⟨h0, hlt⟩]
  · rw [n3 I, if_pos ⟨h0, hlt⟩]

/-- A copy loop from arrays onto themselves, within them, changes nothing. -/
theorem copyEntries_self (H : Heap) (L : ACOReadyList) (n : Int)
    (hr : ∀ I : Int, 0 ≤ I → I < n →
      (H.read? L.InstrBase I).isSome = true ∧ (H.read? L.ReadyOnBase I).isSome = true ∧
      (H.read? L.HeurBase I).isSome = true ∧ (H.read? L.ScoreBase I).isSome = true) :
    copyEntries L.InstrBase L.ReadyOnBase L.HeurBase L.ScoreBase L H n = H := by
  unfold copyEntries
  have key : ∀ (l : List Nat), (∀ I ∈ l, I < n.toNat) →
      l.foldl (copyEntry L.InstrBase L.ReadyOnBase L.HeurBase L.ScoreBase L) H = H := by
    intro l
    induction l with
    | nil => intro _; rfl
    | cons I rest ih =>
      intro hl
      have hI : I < n.toNat := hl I (List.mem_cons_self _ _)
      obtain ⟨r1, r2, r3, r4⟩ := hr I (by omega) (by omega)
      have e : copyEntry L.InstrBase L.ReadyOnBase L.HeurBase L.ScoreBase L H I = H := by
        unfold copyEntry
        simp only
        rw [Heap.copyCell_self H _ _ r1, Heap.copyCell_self H _ _ r2,
          Heap.copyCell_self H _ _ r3, Heap.copyCell_self H _ _ r4]
      rw [List.foldl_cons, e]
      exact ih fun J hJ => hl J (List.mem_cons_of_mem _ hJ)
  exact key _ fun I hI => List.mem_range.mp hI

/-- Copy assignment of a list to itself: the three arrays of the list are released, three arrays
are allocated, and the copy loop copies the cells of the new arrays onto themselves. -/
theorem copyAssign_self_fresh (h : Heap) (L : ACOReadyList)
    (hcap : L.CurrentSize ≤ L.CurrentCapacity) :
    copyAssign h L OtherRef.self =
      (((((((h.free L.IntAllocation).free L.HeurAllocation).free L.ScoreAllocation).alloc
          (2 * L.CurrentCapacity)).1.alloc L.CurrentCapacity).1.alloc L.CurrentCapacity).1,
       { L with IntAllocation := ⟨some h.blocks.length, 0⟩,
                HeurAllocation := ⟨some (h.blocks.length + 1), 0⟩,
                ScoreAllocation := ⟨some (h.blocks.length + 2), 0⟩,
                InstrBase := ⟨some h.blocks.length, 0⟩,
                ReadyOnBase := ⟨some h.blocks.length, 0 + L.CurrentCapacity⟩,
                HeurBase := ⟨some (h.blocks.length + 1), 0⟩,
                ScoreBase := ⟨some (h.blocks.length + 2), 0⟩ }) := by
  have hfr := fun I h0 hlt => fresh_reads
    (((h.free L.IntAllocation).free L.HeurAllocation).free L.ScoreAllocation)
    L.CurrentCapacity I h0 hlt
  unfold copyAssign
  simp only [OtherRef.get]
  refine Prod.ext ?_ ?_
  · refine copyEntries_self _ _ _ ?_
    intro I h0 hlt
    obtain ⟨r1, r2, r3, r4⟩ := hfr I h0 (lt_of_lt_of_le hlt hcap)
    simp only
    rw [r1, r2, r3, r4]
    simp
  · simp [Heap.alloc, Ptr.add]

/-- After `delete[]` of a live array, nothing can be read through a pointer into it. -/
theorem Heap_read?_freed (h : Heap) (b : Nat) (cells : List Int) (o j : Int)
    (hb : h.blocks[b]? = some (some cells)) :
    (h.free ⟨some b, 0⟩).read? ⟨some b, o⟩ j = none := by
  have hblk : h.block ⟨some b, 0⟩ = some cells := by simp [Heap.block, hb]
  have hlt : b < h.blocks.length := Heap.block_lt rfl hblk
  have : (h.free ⟨some b, 0⟩).block ⟨some b, o⟩ = none := by
    unfold Heap.free
    simp only [hblk, if_true]
    rw [Heap.block_set _ _ _ _ _ hlt]
    simp
  simp [Heap.read?, this]

set_option maxRecDepth 1000000 in
/-- C8 (the code at the failing input): `operator=(const ACOReadyList &)` does not test for
`this == &Other`. Assigning a list to itself (`L = L`) releases the three arrays of the list,
allocates three new ones and copies the cells of the new arrays onto themselves: for every list
`L` satisfying the class invariant the result keeps the size and capacity of `L`, nothing can be
read any more from the storage that held the entries of `L`, and at every position below the
size the list reads back the initial contents of newly allocated storage (written 0 here), not
the entry that `L` held. In Scenario B the list holds `[I1, I2, I3]`; after `L = L` it has size
3 and none of `I1`, `I2`, `I3` is left at any position, with no access outside an allocation.
The copy constructor and the assignment to a different (default-constructed) object do yield
`[I1, I2, I3]`. -/
theorem copyAssign_self_loses_entries :
    (∀ (h : Heap) (L : ACOReadyList), WellFormed h L →
      (copyAssign h L OtherRef.self).2.CurrentSize = L.CurrentSize ∧
      (copyAssign h L OtherRef.self).2.CurrentCapacity = L.CurrentCapacity ∧
      (∀ p, (copyAssign h L OtherRef.self).1.read? L.InstrBase p = none ∧
        entryAt? (copyAssign h L OtherRef.self).1 L p = none) ∧
      (∀ p, 0 ≤ p → p < L.CurrentSize →
        entryAt? (copyAssign h L OtherRef.self).1 (copyAssign h L OtherRef.self).2 p
          = some ⟨0, 0, 0, 0⟩)) ∧
    WellFormed scenarioB.1 scenarioB.2 ∧ scenarioB.1.fault = false ∧
    [0, 1, 2].map (entryAt? scenarioB.1 scenarioB.2) = [some I1, some I2, some I3] ∧
    (copyAssign scenarioB.1 scenarioB.2 OtherRef.self).2.CurrentSize = 3 ∧
    [0, 1, 2].map (entryAt? (copyAssign scenarioB.1 scenarioB.2 OtherRef.self).1
        (copyAssign scenarioB.1 scenarioB.2 OtherRef.self).2)
      = [some ⟨0, 0, 0, 0⟩, some ⟨0, 0, 0, 0⟩, some ⟨0, 0, 0, 0⟩] ∧
    (∀ p ∈ [(0 : Int), 1, 2], ∀ E ∈ [I1, I2, I3],
      entryAt? (copyAssign scenarioB.1 scenarioB.2 OtherRef.self).1
        (copyAssign scenarioB.1 scenarioB.2 OtherRef.self).2 p ≠ some E) ∧
    (copyAssign scenarioB.1 scenarioB.2 OtherRef.self).1.fault = false ∧
    [0, 1, 2].map (entryAt? (copy scenarioB.1 scenarioB.2).1 (copy scenarioB.1 scenarioB.2).2)
      = [some I1, some I2, some I3] ∧
    [0, 1, 2].map
      (entryAt? (copyAssign scenarioB.1 ACOReadyList.default (OtherRef.distinct scenarioB.2)).1
        (copyAssign scenarioB.1 ACOReadyList.default (OtherRef.distinct scenarioB.2)).2)
      = [some I1, some I2, some I3] := by
  refine ⟨?_, by decide!⟩
  intro h L w
  obtain ⟨bi, bh, bs, ci, ch, cs, e1, e2, e3, e4, e5, e6, e7, hi, hh, hs, -, -, -, n1, n2, n3⟩ :=
    w.cases
  have hsz0 := w.1
  have hcap := w.2.1
  have hli : bi < h.blocks.length := by
    by_contra hc
    have : h.blocks[bi]? = none := List.getElem?_eq_none (by omega)
    rw [this] at hi
    cases hi
  have hfresh := copyAssign_self_fresh h L hcap
  have hold : ∀ p, (copyAssign h L OtherRef.self).1.read? L.InstrBase p = none := by
    intro p
    rw [hfresh, e1, e5, e6, e7]
    simp only
    rw [Heap.read?_alloc _ _ _ _ (by simp; omega), Heap.read?_alloc _ _ _ _ (by simp; omega),
      Heap.read?_alloc _ _ _ _ (by simp; omega),
      Heap.read?_free _ _ _ _ (by simp; exact n2), Heap.read?_free _ _ _ _ (by simp; exact n1)]
    exact Heap_read?_freed h bi ci 0 p hi
  refine ⟨by rw [hfresh], by rw [hfresh], fun p => ⟨hold p, ?_⟩, ?_⟩
  · unfold entryAt?
    rw [hold p]
  · intro p p0 p1
    obtain ⟨r1, r2, r3, r4⟩ := fresh_reads
      (((h.free L.IntAllocation).free L.HeurAllocation).free L.ScoreAllocation)
      L.CurrentCapacity p p0 (by omega)
    have q1 : (copyAssign h L OtherRef.self).1.read?
        (copyAssign h L OtherRef.self).2.InstrBase p = some 0 := by
      rw [hfresh]
      simpa [Heap.alloc] using r1
    have q2 : (copyAssign h L OtherRef.self).1.read?
        (copyAssign h L OtherRef.self).2.ReadyOnBase p = some 0 := by
      rw [hfresh]
      simpa [Heap.alloc, Ptr.add] using r2
    have q3 : (copyAssign h L OtherRef.self).1.read?
        (copyAssign h L OtherRef.self).2.HeurBase p = some 0 := by
      rw [hfresh]
      simpa [Heap.alloc] using r3
    have q4 : (copyAssign h L OtherRef.self).1.read?
        (copyAssign h L OtherRef.self).2.ScoreBase p = some 0 := by
      rw [hfresh]
      simpa [Heap.alloc] using r4
    unfold entryAt?
    rw [q1, q2, q3, q4]

set_option maxRecDepth 1000000 in
/-- C9 as stated fails on the list `[I1, I2, I3]` of Scenario B: after move construction, and
after move assignment to a default-constructed list, the source still has size 3, its base
pointers still point into the blocks that the destination now owns, and position 0 of the source
still reads `I1` from that storage. -/
theorem move_source_keeps_size_and_bases :
    ((move scenarioB.2).2.CurrentSize ≠ 0 ∧ (move scenarioB.2).2.CurrentSize = 3 ∧
      (move scenarioB.2).2.InstrBase = (move scenarioB.2).1.InstrBase ∧
      reads (move scenarioB.2).2 = [some 0, some 0, some 1, some 2] ∧
      owned (move scenarioB.2).1 = [some 0, some 1, some 2] ∧
      entryAt? scenarioB.1 (move scenarioB.2).2 0 = some I1) ∧
    ((moveAssign ACOReadyList.default scenarioB.2).2.CurrentSize ≠ 0 ∧
      (moveAssign ACOReadyList.default scenarioB.2).2.CurrentSize = 3 ∧
      (moveAssign ACOReadyList.default scenarioB.2).2.InstrBase =
        (moveAssign ACOReadyList.default scenarioB.2).1.InstrBase ∧
      reads (moveAssign ACOReadyList.default scenarioB.2).2 = [some 0, some 0, some 1, some 2] ∧
      owned (moveAssign ACOReadyList.default scenarioB.2).1 = [some 0, some 1, some 2] ∧
      entryAt? scenarioB.1 (moveAssign ACOReadyList.default scenarioB.2).2 0 = some I1) := by
  decide!

/-- C9, amended: after move construction or move assignment from `S` the destination has the
size of `S`, reads at every position what `S` read, and owns the allocations `S` owned. The
source keeps its size and its base pointers; only its allocation pointers change: they are null
after move construction and the former allocations of the destination after move assignment, so
that destroying the source releases nothing (move construction), respectively exactly what
destroying the destination would have released before the assignment. -/
theorem move_transfers_allocations (h : Heap) (S this : ACOReadyList) :
    ((move S).1.CurrentSize = S.CurrentSize ∧
      (∀ p, entryAt? h (move S).1 p = entryAt? h S p) ∧
      owned (move S).1 = owned S ∧
      owned (move S).2 = [none, none, none] ∧
      (move S).2.CurrentSize = S.CurrentSize ∧ reads (move S).2 = reads S ∧
      (∀ p, entryAt? h (move S).2 p = entryAt? h S p) ∧
      destroy h (move S).2 = h) ∧
    ((moveAssign this S).1.CurrentSize = S.CurrentSize ∧
      (∀ p, entryAt? h (moveAssign this S).1 p = entryAt? h S p) ∧
      owned (moveAssign this S).1 = owned S ∧
      owned (moveAssign this S).2 = owned this ∧
      (moveAssign this S).2.CurrentSize = S.CurrentSize ∧
      reads (moveAssign this S).2 = reads S ∧
      (∀ p, entryAt? h (moveAssign this S).2 p = entryAt? h S p) ∧
      destroy h (moveAssign this S).2 = destroy h this) :=
  ⟨⟨rfl, fun _ => rfl, rfl, rfl, rfl, rfl, fun _ => rfl, rfl⟩,
   ⟨rfl, fun _ => rfl, rfl, rfl, rfl, rfl, fun _ => rfl, rfl⟩⟩

end ACOReadyList

/-! ## The layout of the integer allocation -/

theorem Heap.store_fault_of_outside (h : Heap) (p : Ptr) (i v : Int)
    (hr : h.read? p i = none) : (h.store p i v).fault = true := by
  unfold Heap.store
  split
  · next b cells hpb hblk =>
    split
    · next hin =>
      rw [Heap.read?_of_block hblk, if_pos hin.1] at hr
      have := List.getElem?_eq_none_iff.mp hr
      omega
    · rfl
  · rfl

theorem Heap.store_fault_sticky (h : Heap) (p : Ptr) (i v : Int) (hf : h.fault = true) :
    (h.store p i v).fault = true := by
  unfold Heap.store
  split
  · split
    · exact hf
    · rfl
  · rfl

/-- A cell at or past the end of a block of `n` cells cannot be read. -/
theorem Heap.read?_past_end (h : Heap) (b : Nat) (n p : Int) (hp : 0 ≤ p)
    (hlen : h.block ⟨some b, 0⟩ = none ∨
      (h.block ⟨some b, 0⟩).map List.length = some n.toNat) :
    h.read? ⟨some b, 0 + n⟩ p = none := by
  have hcong : h.block ⟨some b, 0 + n⟩ = h.block ⟨some b, 0⟩ := Heap.block_congr _ rfl
  cases hc : h.block ⟨some b, 0⟩ with
  | none =>
    unfold Heap.read?
    rw [hcong, hc]
  | some cells =>
    rw [hc] at hlen
    rcases hlen with hn | hl
    · cases hn
    · simp only [Option.map_some', Option.some.injEq] at hl
      rw [Heap.read?_of_block (hcong.trans hc)]
      split
      · apply List.getElem?_eq_none
        simp only at *
        omega
      · rfl

namespace ACOReadyList

set_option maxRecDepth 1000000 in
/-- C20 (the code at the failing input): the constructor establishes the layout (an integer
allocation of `2 * CurrentCapacity` cells, ready-on cycles `CurrentCapacity` cells past its
start), and an add that does not reallocate and a removal keep it. An add that reallocates
breaks it: the new integer allocation has `NewCap` cells, not `2 * NewCap`, while `ReadyOnBase`
is placed `NewCap` cells past its start, so the final store of the ready-on cycle (like every
ready-on store of the copy loop) indexes a cell outside the allocation and is flagged. In
Scenario A the state after 32 adds to `ACOReadyList(8)` satisfies the layout with no access
flagged; after the next add the integer allocation has 49 cells for capacity 49, the ready-on
store goes to cell `49 + 32 = 81`, and the access is flagged. -/
theorem layout_broken_by_reallocation :
    (∀ (h : Heap) (L : ACOReadyList) (E : ACOReadyListEntry), WellFormed h L →
      L.CurrentSize < L.CurrentCapacity →
      WellFormed (addInstructionToReadyList h L E).1 (addInstructionToReadyList h L E).2) ∧
    (∀ (h : Heap) (L : ACOReadyList) (Indx : Int), WellFormed h L → 0 < L.CurrentSize →
      WellFormed (removeBody h L Indx).2.1 (removeBody h L Indx).2.2) ∧
    (∀ (h : Heap) (L : ACOReadyList) (E : ACOReadyListEntry), 0 ≤ L.CurrentCapacity →
      L.CurrentSize = L.CurrentCapacity →
      (((addInstructionToReadyList h L E).1.block
          (addInstructionToReadyList h L E).2.IntAllocation).map List.length
        ≠ some (2 * (addInstructionToReadyList h L E).2.CurrentCapacity).toNat) ∧
      ¬ WellFormed (addInstructionToReadyList h L E).1 (addInstructionToReadyList h L E).2 ∧
      ((grow h L).1.store (grow h L).2.InstrBase (grow h L).2.CurrentSize E.InstId).read?
        (grow h L).2.ReadyOnBase (grow h L).2.CurrentSize = none ∧
      (addInstructionToReadyList h L E).1.fault = true) ∧
    WellFormed (create Heap.empty 8).1 (create Heap.empty 8).2 ∧
    WellFormed scenarioA.1 scenarioA.2 ∧ scenarioA.1.fault = false ∧
    scenarioA.2.CurrentSize = 32 ∧ scenarioA.2.CurrentCapacity = 32 ∧
    (addInstructionToReadyList scenarioA.1 scenarioA.2 I1).2.CurrentCapacity = 49 ∧
    ((addInstructionToReadyList scenarioA.1 scenarioA.2 I1).1.block
      (addInstructionToReadyList scenarioA.1 scenarioA.2 I1).2.IntAllocation).map List.length
      = some 49 ∧
    (addInstructionToReadyList scenarioA.1 scenarioA.2 I1).2.ReadyOnBase.off + 32 = 81 ∧
    ¬ WellFormed (addInstructionToReadyList scenarioA.1 scenarioA.2 I1).1
      (addInstructionToReadyList scenarioA.1 scenarioA.2 I1).2 ∧
    (addInstructionToReadyList scenarioA.1 scenarioA.2 I1).1.fault = true := by
  refine ⟨fun h L E w hlt => w.add hlt E, fun h L Indx w hpos => w.remove Indx hpos, ?_,
    by decide!⟩
  intro h L E hcap full
  obtain ⟨hR, hB⟩ := grow_int_block h L
  have hnn : 0 ≤ L.CurrentCapacity.tdiv 2 := Int.tdiv_nonneg hcap (by decide)
  have hI : (addInstructionToReadyList h L E).2.IntAllocation = ⟨some h.blocks.length, 0⟩ := by
    simp [addInstructionToReadyList, if_pos full, grow, Heap.alloc]
  have hC : (addInstructionToReadyList h L E).2.CurrentCapacity =
      L.CurrentCapacity + L.CurrentCapacity.tdiv 2 + 1 := by
    simp [addInstructionToReadyList, if_pos full, grow]
  have e : ((addInstructionToReadyList h L E).1.block ⟨some h.blocks.length, 0⟩).map
      List.length = ((grow h L).1.block ⟨some h.blocks.length, 0⟩).map List.length := by
    simp only [addInstructionToReadyList, if_pos full, Heap.blockLen_store]
  have hlen : ((addInstructionToReadyList h L E).1.block
      (addInstructionToReadyList h L E).2.IntAllocation).map List.length
      ≠ some (2 * (addInstructionToReadyList h L E).2.CurrentCapacity).toNat := by
    rw [hI, hC, e]
    rcases hB with hB | hB
    · rw [hB]
      simp
    · rw [hB]
      intro hcontra
      have := Option.some.inj hcontra
      omega
  have hS : (grow h L).2.CurrentSize = L.CurrentSize := by simp [grow]
  have hsize : 0 ≤ (grow h L).2.CurrentSize := by rw [hS, full]; exact hcap
  have hread : ((grow h L).1.store (grow h L).2.InstrBase (grow h L).2.CurrentSize
      E.InstId).read? (grow h L).2.ReadyOnBase (grow h L).2.CurrentSize = none := by
    rw [hR]
    apply Heap.read?_past_end _ _ _ _ hsize
    rcases hB with hB | hB
    · have e1 := Heap.blockLen_store (grow h L).1 (grow h L).2.InstrBase
        (grow h L).2.CurrentSize E.InstId ⟨some h.blocks.length, 0⟩
      rw [hB] at e1
      left
      simpa using e1
    · right
      rw [Heap.blockLen_store, hB]
  refine ⟨hlen, fun w => hlen w.2.2.2.2.2.2.2.2.2.1, hread, ?_⟩
  have hf := Heap.store_fault_of_outside _ _ _ E.ReadyOn hread
  simp only [addInstructionToReadyList, if_pos full]
  exact Heap.store_fault_sticky _ _ _ _ (Heap.store_fault_sticky _ _ _ _ hf)

end ACOReadyList

/-! ## Lemmas on reachability -/

theorem EdgeRel.weaken {es : List GraphEdge} {a b : Nat} (h : EdgeRel es a b)
    (l : List GraphEdge) : EdgeRel (es ++ l) a b := by
  obtain ⟨e, he, h1, h2⟩ := h
  exact ⟨e, List.mem_append_left l he, h1, h2⟩

theorem Reach.mono_append {es : List GraphEdge} {a b : Nat} (h : Reach es a b) (l : List GraphEdge) :
    Reach (es ++ l) a b :=
  Relation.TransGen.mono (fun _ _ hxy => EdgeRel.weaken hxy l) h

theorem Reach.nil {a b : Nat} : ¬ Reach [] a b := by
  intro h
  induction h with
  | single h => obtain ⟨e, he, -⟩ := h; cases he
  | tail _ h _ => obtain ⟨e, he, -⟩ := h; cases he

theorem Reach.new_edge (es : List GraphEdge) (e : GraphEdge) : Reach (es ++ [e]) e.src e.dst :=
  Relation.TransGen.single ⟨e, by simp, rfl, rfl⟩

/-- A path in the edge list extended by one edge is a path of the old list or passes through
the new edge. -/
theorem Reach.of_snoc {es : List GraphEdge} {e : GraphEdge} {x y : Nat}
    (h : Reach (es ++ [e]) x y) :
    Reach es x y ∨ ((x = e.src ∨ Reach es x e.src) ∧ (y = e.dst ∨ Reach es e.dst y)) := by
  have step : ∀ {u v : Nat}, EdgeRel (es ++ [e]) u v → EdgeRel es u v ∨ (u = e.src ∧ v = e.dst) := by
    intro u v huv
    obtain ⟨f, hf, h1, h2⟩ := huv
    rcases List.mem_append.mp hf with hf | hf
    · exact Or.inl ⟨f, hf, h1, h2⟩
    · rw [List.mem_singleton] at hf
      subst hf
      exact Or.inr ⟨h1.symm, h2.symm⟩
  induction h with
  | single hxy =>
    rcases step hxy with h1 | ⟨h1, h2⟩
    · exact Or.inl (Relation.TransGen.single h1)
    · exact Or.inr ⟨Or.inl h1, Or.inl h2⟩
  | tail _ hbc ih =>
    rcases step hbc with h1 | ⟨h1, h2⟩
    · rcases ih with ih | ⟨ih1, ih2⟩
      · exact Or.inl (Relation.TransGen.tail ih h1)
      · refine Or.inr ⟨ih1, Or.inr ?_⟩
        rcases ih2 with ih2 | ih2
        · rw [← ih2]; exact Relation.TransGen.single h1
        · exact Relation.TransGen.tail ih2 h1
    · rcases ih with ih | ⟨ih1, -⟩
      · exact Or.inr ⟨Or.inr (h1 ▸ ih), Or.inl h2⟩
      · exact Or.inr ⟨ih1, Or.inl h2⟩

theorem ExactReach.consistent {g : DataDepGraph} (ex : ExactReach g) : Consistent g :=
  fun a b => ((ex a b).2).trans ((ex a b).1).symm

theorem AddedIndep.append {es l1 l2 : List GraphEdge} (h1 : AddedIndep es l1)
    (h2 : AddedIndep (es ++ l1) l2) : AddedIndep es (l1 ++ l2) := by
  induction l1 generalizing es with
  | nil => simpa using h2
  | cons e rest ih =>
    obtain ⟨he, hr⟩ := h1
    refine ⟨he, ih hr ?_⟩
    simpa using h2

/-! ## Lemmas on the transformation -/

theorem IsSubVector_iff (a b : List Nat) :
    DataDepGraph.IsSubVector a b = true ↔ ∀ x ∈ a, x ∈ b := by
  simp [DataDepGraph.IsSubVector]

/-- The two reachability conditions of the superiority test. -/
theorem NodeIsSuperior_.subsets {g : DataDepGraph} {nodeA nodeB : Nat}
    (h : NodeIsSuperior_ g nodeA nodeB = true) :
    (∀ x ∈ g.rcrsvPrdcsr nodeA, x ∈ g.rcrsvPrdcsr nodeB) ∧
    (∀ y ∈ g.rcrsvScsr nodeB, y ∈ g.rcrsvScsr nodeA) := by
  unfold NodeIsSuperior_ at h
  split at h
  · cases h
  · split at h
    · cases h
    · next hp =>
      split at h
      · cases h
      · next hs =>
        simp only [Bool.not_eq_true, Bool.not_eq_false'] at hp hs
        exact ⟨(IsSubVector_iff _ _).mp hp, (IsSubVector_iff _ _).mp hs⟩

theorem AreNodesIndep_.spec {g : DataDepGraph} {a b : Nat} (h : AreNodesIndep_ g a b = true) :
    a ≠ b ∧ b ∉ g.rcrsvPrdcsr a ∧ b ∉ g.rcrsvScsr a := by
  simpa [AreNodesIndep_, DataDepGraph.IsRcrsvPrdcsr, DataDepGraph.IsRcrsvScsr, and_assoc] using h

theorem foldl_updatePair_noop (X : Nat) (g : DataDepGraph) (l : List Nat)
    (h : ∀ Y ∈ l, Y ∈ g.rcrsvScsr X) : l.foldl (updatePair X) g = g := by
  induction l with
  | nil => rfl
  | cons Y rest ih =>
    have hY : updatePair X g Y = g := by
      simp [updatePair, DataDepGraph.IsRcrsvScsr, h Y (List.mem_cons_self _ _)]
    rw [List.foldl_cons, hY]
    exact ih fun Z hZ => h Z (List.mem_cons_of_mem _ hZ)

theorem foldl_foldl_updatePair_noop (g : DataDepGraph) (xs ys : List Nat)
    (h : ∀ X ∈ xs, ∀ Y ∈ ys, Y ∈ g.rcrsvScsr X) :
    xs.foldl (fun gx X => ys.foldl (updatePair X) gx) g = g := by
  induction xs with
  | nil => rfl
  | cons X rest ih =>
    rw [List.foldl_cons, foldl_updatePair_noop X g ys (h X (List.mem_cons_self _ _))]
    exact ih fun Z hZ => h Z (List.mem_cons_of_mem _ hZ)

/-- Adding the superior edge `A -> B` between independent instructions, when the recursive
predecessors of `A` are among those of `B` and the recursive successors of `B` among those of
`A`: the nested loop of `UpdatePrdcsrAndScsr_` changes nothing, and the graph stays acyclic with
exact reachability sets. -/
theorem AddSuperiorEdge_.inv (g : DataDepGraph) (A B : Nat) (ac : Acyclic g)
    (ex : ExactReach g) (hne : A ≠ B)
    (hp : ∀ x ∈ g.rcrsvPrdcsr A, x ∈ g.rcrsvPrdcsr B)
    (hs : ∀ y ∈ g.rcrsvScsr B, y ∈ g.rcrsvScsr A) :
    (AddSuperiorEdge_ g A B).edges = g.edges ++ [⟨A, B, 0, DependenceType.DEP_OTHER⟩] ∧
    Acyclic (AddSuperiorEdge_ g A B) ∧ ExactReach (AddSuperiorEdge_ g A B) := by
  have hBne : ¬ B = A := fun e => hne e.symm
  -- the graph after the two insertions for the nodes themselves
  have hnoop : AddSuperiorEdge_ g A B =
      ((g.CreateEdge A B 0 DependenceType.DEP_OTHER).AddRcrsvScsr A B).AddRcrsvPrdcsr B A := by
    unfold AddSuperiorEdge_ UpdatePrdcsrAndScsr_
    apply foldl_foldl_updatePair_noop
    intro X hX Y hY
    have hX' : X ∈ g.rcrsvPrdcsr A := by
      simpa [DataDepGraph.AddRcrsvPrdcsr, DataDepGraph.AddRcrsvScsr, DataDepGraph.CreateEdge,
        hne] using hX
    have hY' : Y ∈ g.rcrsvScsr B := by
      simpa [DataDepGraph.AddRcrsvPrdcsr, DataDepGraph.AddRcrsvScsr, DataDepGraph.CreateEdge,
        hBne] using hY
    have r1 : Reach g.edges X B := (ex X B).2.mp (hp X hX')
    have r2 : Reach g.edges B Y := (ex B Y).1.mp hY'
    have r3 : Y ∈ g.rcrsvScsr X := (ex X Y).1.mpr (Relation.TransGen.trans r1 r2)
    simp only [DataDepGraph.AddRcrsvPrdcsr, DataDepGraph.AddRcrsvScsr, DataDepGraph.CreateEdge]
    split
    · exact List.mem_append_left _ r3
    · exact r3
  have hedges : (AddSuperiorEdge_ g A B).edges =
      g.edges ++ [⟨A, B, 0, DependenceType.DEP_OTHER⟩] := by
    rw [hnoop]; rfl
  have hsc : ∀ a, (AddSuperiorEdge_ g A B).rcrsvScsr a =
      if a = A then g.rcrsvScsr a ++ [B] else g.rcrsvScsr a := by
    intro a; rw [hnoop]; rfl
  have hpr : ∀ b, (AddSuperiorEdge_ g A B).rcrsvPrdcsr b =
      if b = B then g.rcrsvPrdcsr b ++ [A] else g.rcrsvPrdcsr b := by
    intro b; rw [hnoop]; rfl
  -- the closure of the new edge set
  have hreach : ∀ x y, Reach (g.edges ++ [⟨A, B, 0, DependenceType.DEP_OTHER⟩]) x y ↔
      (Reach g.edges x y ∨ (x = A ∧ y = B)) := by
    intro x y
    constructor
    · intro h
      rcases Reach.of_snoc h with h | ⟨hx, hy⟩
      · exact Or.inl h
      · simp only at hx hy
        rcases hx with hx | hx
        · rcases hy with hy | hy
          · exact Or.inr ⟨hx, hy⟩
          · left
            rw [hx]
            exact (ex A y).1.mp (hs y ((ex B y).1.mpr hy))
        · have hxB : Reach g.edges x B := (ex x B).2.mp (hp x ((ex x A).2.mpr hx))
          rcases hy with hy | hy
          · left; rw [hy]; exact hxB
          · left; exact Relation.TransGen.trans hxB hy
    · rintro (h | ⟨hx, hy⟩)
      · exact h.mono_append _
      · rw [hx, hy]
        exact Reach.new_edge g.edges ⟨A, B, 0, DependenceType.DEP_OTHER⟩
  refine ⟨hedges, ?_, ?_⟩
  · intro a h
    rw [hedges, hreach] at h
    rcases h with h | ⟨h1, h2⟩
    · exact ac a h
    · exact hne (h1.symm.trans h2)
  · intro a b
    rw [hedges, hreach, hsc, hpr]
    constructor
    · by_cases ha : a = A
      · rw [if_pos ha, List.mem_append, List.mem_singleton, (ex a b).1]
        constructor
        · rintro (h | h)
          · exact Or.inl h
          · exact Or.inr ⟨ha, h⟩
        · rintro (h | ⟨-, h⟩)
          · exact Or.inl h
          · exact Or.inr h
      · rw [if_neg ha, (ex a b).1]
        constructor
        · exact Or.inl
        · rintro (h | ⟨h, -⟩)
          · exact h
          · exact absurd h ha
    · by_cases hb : b = B
      · rw [if_pos hb, List.mem_append, List.mem_singleton, (ex a b).2]
        constructor
        · rintro (h | h)
          · exact Or.inl h
          · exact Or.inr ⟨h, hb⟩
        · rintro (h | ⟨h, -⟩)
          · exact Or.inl h
          · exact Or.inr h
      · rw [if_neg hb, (ex a b).2]
        constructor
        · exact Or.inl
        · rintro (h | ⟨-, h⟩)
          · exact h
          · exact absurd h hb

theorem PassInv.start (g : DataDepGraph) (ac : Acyclic g) (ex : ExactReach g) : PassInv g g :=
  ⟨ac, ex, [], by simp, trivial⟩

/-- Adding a superior edge between two independent instructions keeps the invariant. -/
theorem PassInv.addEdge {g0 g : DataDepGraph} (inv : PassInv g0 g) (A B : Nat) (hne : A ≠ B)
    (hAB : ¬ Reach g.edges A B) (hBA : ¬ Reach g.edges B A)
    (sup : NodeIsSuperior_ g A B = true) : PassInv g0 (AddSuperiorEdge_ g A B) := by
  obtain ⟨ac, ex, added, he, hadd⟩ := inv
  obtain ⟨hp, hs⟩ := NodeIsSuperior_.subsets sup
  obtain ⟨e1, ac1, ex1⟩ := AddSuperiorEdge_.inv g A B ac ex hne hp hs
  refine ⟨ac1, ex1, added ++ [⟨A, B, 0, DependenceType.DEP_OTHER⟩], ?_, ?_⟩
  · rw [e1, he, List.append_assoc]
  · refine AddedIndep.append hadd ?_
    rw [← he]
    exact ⟨⟨hne, hAB, hBA, rfl, rfl⟩, trivial⟩

/-- `TryAddingSuperiorEdge_` on an independent pair keeps the invariant. -/
theorem PassInv.tryAdding {g0 g : DataDepGraph} (inv : PassInv g0 g) (a b : Nat)
    (hi : AreNodesIndep_ g a b = true) : PassInv g0 (TryAddingSuperiorEdge_ g a b).2 := by
  obtain ⟨hne, h1, h2⟩ := AreNodesIndep_.spec hi
  have ex := inv.2.1
  have hab : ¬ Reach g.edges a b := fun h => h2 ((ex a b).1.mpr h)
  have hba : ¬ Reach g.edges b a := fun h => h1 ((ex b a).2.mpr h)
  unfold TryAddingSuperiorEdge_
  by_cases hid : g.nodeID a > g.nodeID b
  · simp only [hid, if_true]
    by_cases s1 : NodeIsSuperior_ g b a = true
    · simp only [s1, if_true]
      exact inv.addEdge b a (fun e => hne e.symm) hba hab s1
    · by_cases s2 : NodeIsSuperior_ g a b = true
      · simp only [s1, s2, if_true, if_false]
        exact inv.addEdge a b hne hab hba s2
      · simp only [s1, s2, if_false]
        exact inv
  · simp only [hid, if_false]
    by_cases s1 : NodeIsSuperior_ g a b = true
    · simp only [s1, if_true]
      exact inv.addEdge a b hne hab hba s1
    · by_cases s2 : NodeIsSuperior_ g b a = true
      · simp only [s1, s2, if_true, if_false]
        exact inv.addEdge b a (fun e => hne e.symm) hba hab s2
      · simp only [s1, s2, if_false]
        exact inv

theorem PassInv.firstPassBody {g0 : DataDepGraph} (i j : Nat) (s : PassState)
    (inv : PassInv g0 s.graph) : PassInv g0 (firstPassBody i s j).graph := by
  unfold OptSched.firstPassBody
  split
  · exact inv
  · split
    · next hi =>
      have := inv.tryAdding i j hi
      dsimp only
      split <;> exact this
    · exact inv

theorem PassInv.firstPass {g0 : DataDepGraph} (n : Nat) (ac : Acyclic g0) (ex : ExactReach g0) :
    PassInv g0 (firstPass n g0).graph := by
  unfold OptSched.firstPass
  have inner : ∀ (i : Nat) (l : List Nat) (s : PassState), PassInv g0 s.graph →
      PassInv g0 (l.foldl (OptSched.firstPassBody i) s).graph := by
    intro i l
    induction l with
    | nil => intro s h; exact h
    | cons j rest ih => intro s h; exact ih _ (PassInv.firstPassBody i j s h)
  have outer : ∀ (l : List Nat) (s : PassState), PassInv g0 s.graph →
      PassInv g0 (l.foldl (fun s i =>
        (List.range' (i + 1) (n - (i + 1))).foldl (OptSched.firstPassBody i) s) s).graph := by
    intro l
    induction l with
    | nil => intro s h; exact h
    | cons i rest ih => intro s h; exact ih _ (inner i _ s h)
  exact outer _ _ (PassInv.start g0 ac ex)

theorem PassInv.multiPassSweep {g0 : DataDepGraph} (l : List (Nat × Nat)) (g : DataDepGraph)
    (d : Bool) (inv : PassInv g0 g) : PassInv g0 (multiPassSweep g d l).graph := by
  induction l generalizing g d with
  | nil => exact inv
  | cons pair rest ih =>
    unfold OptSched.multiPassSweep
    split
    · exact ih g d inv
    · next hi =>
      have hi' : AreNodesIndep_ g pair.1 pair.2 = true := by simpa using hi
      have := inv.tryAdding pair.1 pair.2 hi'
      dsimp only
      split
      · exact ih _ _ this
      · exact ih _ _ this

theorem PassInv.multiPassLoop {g0 : DataDepGraph} (fuel : Nat) (g : DataDepGraph)
    (l : List (Nat × Nat)) (d : Bool) (inv : PassInv g0 g) :
    PassInv g0 (multiPassLoop fuel g l d) := by
  induction fuel generalizing g l d with
  | zero => exact inv
  | succ fuel ih =>
    unfold OptSched.multiPassLoop
    split
    · exact ih _ _ _ (PassInv.multiPassSweep l g false inv)
    · exact inv

/-- A sweep does not lengthen the list, and shortens it when it adds an edge. -/
theorem multiPassSweep_length (l : List (Nat × Nat)) (g : DataDepGraph) (d : Bool) :
    (multiPassSweep g d l).indepNodes.length ≤ l.length ∧
    ((multiPassSweep g d l).didAddEdge = true → d = false →
      (multiPassSweep g d l).indepNodes.length < l.length) := by
  induction l generalizing g d with
  | nil => exact ⟨le_refl _, fun h1 h2 => by simp [multiPassSweep, h2] at h1⟩
  | cons pair rest ih =>
    unfold multiPassSweep
    split
    · obtain ⟨h1, -⟩ := ih g d
      exact ⟨by simp only [List.length_cons]; omega, fun _ _ => by
        simp only [List.length_cons]; omega⟩
    · dsimp only
      split
      · obtain ⟨h1, -⟩ := ih (TryAddingSuperiorEdge_ g pair.1 pair.2).2 true
        exact ⟨by simp only [List.length_cons]; omega, fun _ _ => by
          simp only [List.length_cons]; omega⟩
      · obtain ⟨h1, h2⟩ := ih (TryAddingSuperiorEdge_ g pair.1 pair.2).2 d
        exact ⟨by simp only [List.length_cons]; omega, fun a b => by
          have := h2 a b
          simp only [List.length_cons]; omega⟩

theorem multiPassLoop_false (fuel : Nat) (g : DataDepGraph) (l : List (Nat × Nat)) :
    multiPassLoop fuel g l false = g := by
  cases fuel <;> simp [multiPassLoop]

/-- The loop of `nodeMultiPass_` never needs more than `indepNodes.length + 1` sweeps: with any
larger bound on the number of sweeps the result is the same. -/
theorem multiPassLoop_fuel (fuel1 fuel2 : Nat) (g : DataDepGraph) (l : List (Nat × Nat))
    (d : Bool) (h1 : l.length < fuel1) (h2 : l.length < fuel2) :
    multiPassLoop fuel1 g l d = multiPassLoop fuel2 g l d := by
  induction fuel1 generalizing fuel2 g l d with
  | zero => omega
  | succ f1 ih =>
    cases fuel2 with
    | zero => omega
    | succ f2 =>
      unfold multiPassLoop
      split
      · next hc =>
        obtain ⟨hl, hs⟩ := multiPassSweep_length l g false
        by_cases hd : (multiPassSweep g false l).didAddEdge = true
        · have := hs hd rfl
          dsimp only
          exact ih f2 _ _ _ (by omega) (by omega)
        · have hd' : (multiPassSweep g false l).didAddEdge = false := by simpa using hd
          dsimp only
          rw [hd', multiPassLoop_false, multiPassLoop_false]
      · rfl

/-- The paths of the sample graph: the edge `0 -> 2` only. -/
theorem threeNodes_reach (a b : Nat) : Reach threeNodes.edges a b ↔ a = 0 ∧ b = 2 := by
  constructor
  · intro h
    have h' : Reach ([] ++ [⟨0, 2, 1, DependenceType.DEP_DATA⟩]) a b := h
    rcases Reach.of_snoc h' with h0 | ⟨h1, h2⟩
    · exact absurd h0 Reach.nil
    · rcases h1 with h1 | h1
      · rcases h2 with h2 | h2
        · exact ⟨h1, h2⟩
        · exact absurd h2 Reach.nil
      · exact absurd h1 Reach.nil
  · rintro ⟨rfl, rfl⟩
    exact Reach.new_edge [] ⟨0, 2, 1, DependenceType.DEP_DATA⟩

theorem threeNodes_acyclic : Acyclic threeNodes := by
  intro a h
  obtain ⟨h1, h2⟩ := (threeNodes_reach a a).mp h
  omega

theorem threeNodes_exact : ExactReach threeNodes := by
  intro a b
  rw [threeNodes_reach]
  constructor
  · by_cases ha : a = 0
    · simp [threeNodes, ha, eq_comm]
    · simp [threeNodes, ha]
  · by_cases hb : b = 2
    · simp [threeNodes, hb, eq_comm]
    · simp [threeNodes, hb]

/-- C10: for every dependence graph that is acyclic and whose recursive predecessor and
successor sets are exactly the transitive closure of its edges (which makes them mutually
consistent), `ApplyTrans`, single-pass or multi-pass, reports success and leaves a graph that is
again acyclic, whose recursive sets are again exactly the transitive closure of its edge set in
both directions (and mutually consistent), and whose edges are the old ones followed by the added
ones, each of latency 0 and joining a pair that was independent just before it was added. -/
theorem ApplyTrans_keeps_acyclic_and_exact (IsMultiPass : Bool) (g : DataDepGraph)
    (ac : Acyclic g) (ex : ExactReach g) :
    (ApplyTrans IsMultiPass g).1 = FUNC_RESULT.RES_SUCCESS ∧
    Acyclic (ApplyTrans IsMultiPass g).2 ∧ ExactReach (ApplyTrans IsMultiPass g).2 ∧
    Consistent (ApplyTrans IsMultiPass g).2 ∧
    ∃ added, (ApplyTrans IsMultiPass g).2.edges = g.edges ++ added ∧
      AddedIndep g.edges added := by
  have h1 := PassInv.firstPass g.instCnt ac ex
  have h2 : PassInv g (ApplyTrans IsMultiPass g).2 := by
    unfold ApplyTrans
    cases IsMultiPass
    · exact h1
    · exact PassInv.multiPassLoop _ _ _ _ h1
  exact ⟨rfl, h2.1, h2.2.1, h2.2.1.consistent, h2.2.2⟩

/-- An instance of C10: on the sample graph with the dependence `0 -> 2`, both modes add the
edges `0 -> 1` and `1 -> 2`. -/
theorem ApplyTrans_keeps_acyclic_and_exact_threeNodes :
    (Acyclic threeNodes ∧ ExactReach threeNodes) ∧
    ((ApplyTrans true threeNodes).1 = FUNC_RESULT.RES_SUCCESS ∧
      Acyclic (ApplyTrans true threeNodes).2 ∧ ExactReach (ApplyTrans true threeNodes).2 ∧
      Consistent (ApplyTrans true threeNodes).2 ∧
      ∃ added, (ApplyTrans true threeNodes).2.edges = threeNodes.edges ++ added ∧
        AddedIndep threeNodes.edges added) ∧
    (ApplyTrans true threeNodes).2.edges =
      [⟨0, 2, 1, DependenceType.DEP_DATA⟩, ⟨0, 1, 0, DependenceType.DEP_OTHER⟩,
       ⟨1, 2, 0, DependenceType.DEP_OTHER⟩] ∧
    (ApplyTrans false threeNodes).2.edges = (ApplyTrans true threeNodes).2.edges ∧
    [0, 1, 2].map (ApplyTrans true threeNodes).2.rcrsvScsr = [[2, 1], [2], []] ∧
    [0, 1, 2].map (ApplyTrans true threeNodes).2.rcrsvPrdcsr = [[], [0], [0, 1]] :=
  ⟨⟨threeNodes_acyclic, threeNodes_exact⟩,
   ApplyTrans_keeps_acyclic_and_exact true threeNodes threeNodes_acyclic threeNodes_exact,
   by decide, by decide, by decide, by decide⟩

/-! ## The superiority test -/

theorem all_zip_map {α : Type} (l : List α) (f k : α → Nat) (p : Nat × Nat → Bool) :
    ((l.map f).zip (l.map k)).all p = l.all fun t => p (f t, k t) := by
  induction l with
  | nil => rfl
  | cons x xs ih => simp [ih]

theorem countByType_lengthened (g : DataDepGraph) (A B t : Nat) :
    ((possiblyLengthenedIfAfterOther g A (g.uses A) B (g.uses B)).filter
      fun r => g.regType r == t).length = lastUseCount g t A B := by
  unfold possiblyLengthenedIfAfterOther lastUseCount
  rw [List.filter_filter]
  congr 1
  apply List.filter_congr
  intro r _
  simp only [DataDepGraph.IsRcrsvScsr, List.any_eq_true, Bool.and_eq_true, bne_iff_ne, ne_eq,
    decide_eq_true_eq, beq_iff_eq, Bool.not_eq_true', Bool.decide_and, Bool.decide_eq_true]
  rw [Bool.eq_iff_iff]
  simp only [Bool.and_eq_true, beq_iff_eq, Bool.not_eq_true', List.any_eq_false,
    decide_eq_true_eq, Bool.not_eq_true, bne_iff_ne, ne_eq, not_and, Bool.decide_eq_false,
    Bool.not_eq_false', decide_not, List.all_eq_true]
  constructor
  · rintro ⟨ht, hA, hC⟩
    refine ⟨ht, ?_, ?_⟩
    · rw [decide_eq_false_iff_not]
      intro hm
      exact hA r hm rfl
    · intro user hu hs
      by_contra hne
      exact hC user hu hne hs
  · rintro ⟨ht, hA, hC⟩
    rw [decide_eq_false_iff_not] at hA
    refine ⟨ht, ?_, ?_⟩
    · intro x hx e
      exact hA (e ▸ hx)
    · intro user hu hne hs
      exact hne (hC user hu hs)

/-- The superiority test computes the five conditions of `SuperiorSpec`. -/
theorem NodeIsSuperior_superiorSpec (g : DataDepGraph) (A B : Nat) :
    NodeIsSuperior_ g A B = true ↔ SuperiorSpec g A B := by
  have hdef : ∀ (X t : Nat), ((g.defs X).filter fun r => g.regType r == t).length
      = defCount g t X := by
    intro X t
    unfold defCount
    congr 1
  unfold NodeIsSuperior_ SuperiorSpec
  simp only [countByType, all_zip_map, countByType_lengthened, hdef]
  split_ifs with c1 c2 c3 c4
  · have h1 : g.issueType A ≠ g.issueType B := by simpa using c1
    exact ⟨fun h => (by cases h), fun h => absurd h.1 h1⟩
  · have h2 : ¬ DataDepGraph.IsSubVector (g.rcrsvPrdcsr A) (g.rcrsvPrdcsr B) = true := by
      simpa using c2
    exact ⟨fun h => (by cases h), fun h => absurd ((IsSubVector_iff _ _).mpr h.2.1) h2⟩
  · have h3 : ¬ DataDepGraph.IsSubVector (g.rcrsvScsr B) (g.rcrsvScsr A) = true := by
      simpa using c3
    exact ⟨fun h => (by cases h), fun h => absurd ((IsSubVector_iff _ _).mpr h.2.2.1) h3⟩
  · refine ⟨fun h => (by cases h), fun h => ?_⟩
    have h4 : ((List.range g.regTypeCnt).all fun t =>
        decide (lastUseCount g t A B ≥ lastUseCount g t B A)) = true := by
      simpa using h.2.2.2.1
    rw [h4] at c4
    exact absurd c4 (by decide)
  · have h1 : g.issueType A = g.issueType B := by simpa using c1
    have h2 : DataDepGraph.IsSubVector (g.rcrsvPrdcsr A) (g.rcrsvPrdcsr B) = true := by
      simpa using c2
    have h3 : DataDepGraph.IsSubVector (g.rcrsvScsr B) (g.rcrsvScsr A) = true := by
      simpa using c3
    have h4 : ∀ t, t < g.regTypeCnt → lastUseCount g t A B ≥ lastUseCount g t B A := by
      simpa using c4
    constructor
    · intro h
      have h5 : ∀ t, t < g.regTypeCnt → defCount g t A ≤ defCount g t B := by simpa using h
      exact ⟨h1, (IsSubVector_iff _ _).mp h2, (IsSubVector_iff _ _).mp h3, h4, h5⟩
    · intro h
      simpa using h.2.2.2.2

/-- C11: `NodeIsSuperior_(A, B)` returns true if and only if the five conditions hold: same
issue type; the recursive predecessors of `A` are among those of `B`; the recursive successors
of `B` are among those of `A`; for every register type, the registers of that type in the use
list of `A` that `B` does not use and that have no user other than `A` among the recursive
successors of `B` are at least as many as the registers of that type in the use list of `B` that
`A` does not use and that have no user other than `B` among the recursive successors of `A`; for
every register type, `A` defines at most as many registers of that type as `B`. -/
theorem NodeIsSuperior_iff_spec (g : DataDepGraph) (A B : Nat) :
    NodeIsSuperior_ g A B = true ↔ SuperiorSpec g A B :=
  NodeIsSuperior_superiorSpec g A B

/-! ## The independence test and the soundness of the superiority test -/

/-- C13: `AreNodesIndep_(a, b)` returns true if and only if `a` and `b` are different
instructions and `b` is neither a recursive predecessor nor a recursive successor of `a`. The
function only queries the graph: it returns a Boolean and no graph, so the graph is the same
afterwards. When the recursive sets are mutually consistent, this is the same as: `a` and `b`
differ and neither is a recursive predecessor or a recursive successor of the other. -/
theorem AreNodesIndep_iff (g : DataDepGraph) (a b : Nat) :
    (AreNodesIndep_ g a b = true ↔ (a ≠ b ∧ b ∉ g.rcrsvPrdcsr a ∧ b ∉ g.rcrsvScsr a)) ∧
    (Consistent g →
      (AreNodesIndep_ g a b = true ↔
        (a ≠ b ∧ b ∉ g.rcrsvPrdcsr a ∧ b ∉ g.rcrsvScsr a ∧
          a ∉ g.rcrsvPrdcsr b ∧ a ∉ g.rcrsvScsr b))) := by
  have h1 : AreNodesIndep_ g a b = true ↔
      (a ≠ b ∧ b ∉ g.rcrsvPrdcsr a ∧ b ∉ g.rcrsvScsr a) := by
    simp [AreNodesIndep_, DataDepGraph.IsRcrsvPrdcsr, DataDepGraph.IsRcrsvScsr, and_assoc]
  refine ⟨h1, fun c => ?_⟩
  rw [h1]
  constructor
  · rintro ⟨hne, hp, hs⟩
    exact ⟨hne, hp, hs, fun h => hs ((c a b).mp h), fun h => hp ((c b a).mpr h)⟩
  · rintro ⟨hne, hp, hs, -, -⟩
    exact ⟨hne, hp, hs⟩

/-- C14: in an acyclic dependence graph whose recursive sets are exactly the transitive closure
of its edges, if `NodeIsSuperior_(A, B)` returns true then `B` is not a recursive predecessor of
`A`. -/
theorem NodeIsSuperior_sound (g : DataDepGraph) (A B : Nat) (ac : Acyclic g)
    (ex : ExactReach g) (h : NodeIsSuperior_ g A B = true) : B ∉ g.rcrsvPrdcsr A := by
  intro hB
  have hBB : B ∈ g.rcrsvPrdcsr B := (NodeIsSuperior_.subsets h).1 B hB
  exact ac B ((ex B B).2.mp hBB)

/-- C14 on the sample graph with the dependence `0 -> 2`: instruction 0 is superior to
instruction 1. -/
theorem NodeIsSuperior_sound_threeNodes :
    Acyclic threeNodes ∧ ExactReach threeNodes ∧ NodeIsSuperior_ threeNodes 0 1 = true ∧
    1 ∉ threeNodes.rcrsvPrdcsr 0 :=
  ⟨threeNodes_acyclic, threeNodes_exact, by decide,
    NodeIsSuperior_sound threeNodes 0 1 threeNodes_acyclic threeNodes_exact (by decide)⟩

/-! ## The update of the recursive sets -/

theorem SameInsts.unchanged (g : DataDepGraph) : SameInsts g g :=
  ⟨rfl, rfl, rfl, rfl, rfl, rfl, rfl, rfl⟩

theorem SameInsts.chain {g1 g2 g3 : DataDepGraph} (a : SameInsts g1 g2) (b : SameInsts g2 g3) :
    SameInsts g1 g3 :=
  ⟨b.1.trans a.1, b.2.1.trans a.2.1, b.2.2.1.trans a.2.2.1, b.2.2.2.1.trans a.2.2.2.1,
    b.2.2.2.2.1.trans a.2.2.2.2.1, b.2.2.2.2.2.1.trans a.2.2.2.2.2.1,
    b.2.2.2.2.2.2.1.trans a.2.2.2.2.2.2.1, b.2.2.2.2.2.2.2.trans a.2.2.2.2.2.2.2⟩

/-- One step of the inner loop records the pair `(X, Y)` in both sets and nothing else. -/
theorem updatePair_spec (X Y : Nat) (g : DataDepGraph) (c : Consistent g) :
    (∀ x y, y ∈ (updatePair X g Y).rcrsvScsr x ↔ (y ∈ g.rcrsvScsr x ∨ (x = X ∧ y = Y))) ∧
    Consistent (updatePair X g Y) ∧ (updatePair X g Y).edges = g.edges ∧
    SameInsts g (updatePair X g Y) := by
  unfold updatePair
  by_cases h : Y ∈ g.rcrsvScsr X
  · simp only [DataDepGraph.IsRcrsvScsr, h, decide_True, Bool.not_true, Bool.false_eq_true,
      if_false]
    refine ⟨fun x y => ⟨Or.inl, ?_⟩, c, trivial, SameInsts.unchanged g⟩
    rintro (h1 | ⟨h1, h2⟩)
    · exact h1
    · rw [h1, h2]; exact h
  · simp only [DataDepGraph.IsRcrsvScsr, h, decide_False, Bool.not_false, if_true]
    have hs : ∀ x y, y ∈ ((g.AddRcrsvPrdcsr Y X).AddRcrsvScsr X Y).rcrsvScsr x ↔
        (y ∈ g.rcrsvScsr x ∨ (x = X ∧ y = Y)) := by
      intro x y
      simp only [DataDepGraph.AddRcrsvScsr, DataDepGraph.AddRcrsvPrdcsr]
      by_cases hx : x = X
      · simp [hx]
      · simp [hx]
    have hp : ∀ x y, x ∈ ((g.AddRcrsvPrdcsr Y X).AddRcrsvScsr X Y).rcrsvPrdcsr y ↔
        (x ∈ g.rcrsvPrdcsr y ∨ (x = X ∧ y = Y)) := by
      intro x y
      simp only [DataDepGraph.AddRcrsvScsr, DataDepGraph.AddRcrsvPrdcsr]
      by_cases hy : y = Y
      · simp [hy]
      · simp [hy]
    refine ⟨hs, ?_, rfl, SameInsts.unchanged g⟩
    intro a b
    rw [hs, hp, c a b]

/-- The inner loop for `X` over the list `ys` records every pair `(X, Y)` with `Y` in `ys`. -/
theorem foldl_updatePair_spec (X : Nat) (ys : List Nat) (g : DataDepGraph) (c : Consistent g) :
    (∀ x y, y ∈ (ys.foldl (updatePair X) g).rcrsvScsr x ↔
      (y ∈ g.rcrsvScsr x ∨ (x = X ∧ y ∈ ys))) ∧
    Consistent (ys.foldl (updatePair X) g) ∧ (ys.foldl (updatePair X) g).edges = g.edges ∧
    SameInsts g (ys.foldl (updatePair X) g) := by
  induction ys generalizing g with
  | nil => exact ⟨fun x y => (by simp), c, rfl, SameInsts.unchanged g⟩
  | cons Y rest ih =>
    obtain ⟨s1, c1, e1, i1⟩ := updatePair_spec X Y g c
    obtain ⟨s2, c2, e2, i2⟩ := ih (updatePair X g Y) c1
    refine ⟨?_, c2, e2.trans e1, i1.chain i2⟩
    intro x y
    rw [List.foldl_cons, s2, s1, List.mem_cons]
    constructor
    · rintro ((h | ⟨h1, h2⟩) | ⟨h1, h2⟩)
      · exact Or.inl h
      · exact Or.inr ⟨h1, Or.inl h2⟩
      · exact Or.inr ⟨h1, Or.inr h2⟩
    · rintro (h | ⟨h1, h2 | h2⟩)
      · exact Or.inl (Or.inl h)
      · exact Or.inl (Or.inr ⟨h1, h2⟩)
      · exact Or.inr ⟨h1, h2⟩

/-- The two nested loops over `xs` and `ys` record every pair of `xs × ys`. -/
theorem foldl_foldl_updatePair_spec (xs ys : List Nat) (g : DataDepGraph) (c : Consistent g) :
    (∀ x y, y ∈ (xs.foldl (fun gx X => ys.foldl (updatePair X) gx) g).rcrsvScsr x ↔
      (y ∈ g.rcrsvScsr x ∨ (x ∈ xs ∧ y ∈ ys))) ∧
    Consistent (xs.foldl (fun gx X => ys.foldl (updatePair X) gx) g) ∧
    (xs.foldl (fun gx X => ys.foldl (updatePair X) gx) g).edges = g.edges ∧
    SameInsts g (xs.foldl (fun gx X => ys.foldl (updatePair X) gx) g) := by
  induction xs generalizing g with
  | nil => exact ⟨fun x y => (by simp), c, rfl, SameInsts.unchanged g⟩
  | cons X rest ih =>
    obtain ⟨s1, c1, e1, i1⟩ := foldl_updatePair_spec X ys g c
    obtain ⟨s2, c2, e2, i2⟩ := ih (ys.foldl (updatePair X) g) c1
    refine ⟨?_, c2, e2.trans e1, i1.chain i2⟩
    intro x y
    rw [List.foldl_cons, s2, s1, List.mem_cons]
    constructor
    · rintro ((h | ⟨h1, h2⟩) | ⟨h1, h2⟩)
      · exact Or.inl h
      · exact Or.inr ⟨Or.inl h1, h2⟩
      · exact Or.inr ⟨Or.inr h1, h2⟩
    · rintro (h | ⟨h1 | h1, h2⟩)
      · exact Or.inl (Or.inl h)
      · exact Or.inl (Or.inr ⟨h1, h2⟩)
      · exact Or.inr ⟨h1, h2⟩

/-- C18: for every graph whose recursive sets are mutually consistent (as exact sets are) and
every pair `A`, `B`, `UpdatePrdcsrAndScsr_(A, B)` yields the old relation plus `(A, B)` plus
every pair `(X, Y)` with `X` a recursive predecessor of `A` and `Y` a recursive successor of `B`,
recorded in the successor set of `X` and in the predecessor set of `Y` alike (the sets stay
mutually consistent); no other reachability fact, no edge and no instruction or register data
changes. -/
theorem UpdatePrdcsrAndScsr_spec (g : DataDepGraph) (A B : Nat) (c : Consistent g) :
    (∀ x y, y ∈ (UpdatePrdcsrAndScsr_ g A B).rcrsvScsr x ↔
      (y ∈ g.rcrsvScsr x ∨ (x = A ∧ y = B) ∨ (x ∈ g.rcrsvPrdcsr A ∧ y ∈ g.rcrsvScsr B))) ∧
    (∀ x y, x ∈ (UpdatePrdcsrAndScsr_ g A B).rcrsvPrdcsr y ↔
      (x ∈ g.rcrsvPrdcsr y ∨ (x = A ∧ y = B) ∨ (x ∈ g.rcrsvPrdcsr A ∧ y ∈ g.rcrsvScsr B))) ∧
    Consistent (UpdatePrdcsrAndScsr_ g A B) ∧
    (UpdatePrdcsrAndScsr_ g A B).edges = g.edges ∧ SameInsts g (UpdatePrdcsrAndScsr_ g A B) := by
  have hs2 : ∀ x y, y ∈ ((g.AddRcrsvScsr A B).AddRcrsvPrdcsr B A).rcrsvScsr x ↔
      (y ∈ g.rcrsvScsr x ∨ (x = A ∧ y = B)) := by
    intro x y
    simp only [DataDepGraph.AddRcrsvScsr, DataDepGraph.AddRcrsvPrdcsr]
    by_cases hx : x = A
    · simp [hx]
    · simp [hx]
  have hp2 : ∀ x y, x ∈ ((g.AddRcrsvScsr A B).AddRcrsvPrdcsr B A).rcrsvPrdcsr y ↔
      (x ∈ g.rcrsvPrdcsr y ∨ (x = A ∧ y = B)) := by
    intro x y
    simp only [DataDepGraph.AddRcrsvScsr, DataDepGraph.AddRcrsvPrdcsr]
    by_cases hy : y = B
    · simp [hy]
    · simp [hy]
  have c2 : Consistent ((g.AddRcrsvScsr A B).AddRcrsvPrdcsr B A) := by
    intro a b
    rw [hs2, hp2, c a b]
  obtain ⟨s3, c3, e3, i3⟩ := foldl_foldl_updatePair_spec
    (((g.AddRcrsvScsr A B).AddRcrsvPrdcsr B A).rcrsvPrdcsr A)
    (((g.AddRcrsvScsr A B).AddRcrsvPrdcsr B A).rcrsvScsr B)
    ((g.AddRcrsvScsr A B).AddRcrsvPrdcsr B A) c2
  have hs : ∀ x y, y ∈ (UpdatePrdcsrAndScsr_ g A B).rcrsvScsr x ↔
      (y ∈ g.rcrsvScsr x ∨ (x = A ∧ y = B) ∨ (x ∈ g.rcrsvPrdcsr A ∧ y ∈ g.rcrsvScsr B)) := by
    intro x y
    unfold UpdatePrdcsrAndScsr_
    simp only
    rw [s3, hs2, hp2, hs2]
    constructor
    · rintro ((h | h) | ⟨h1 | ⟨h1, h1'⟩, h2 | ⟨h2, h2'⟩⟩)
      · exact Or.inl h
      · exact Or.inr (Or.inl h)
      · exact Or.inr (Or.inr ⟨h1, h2⟩)
      · -- `B = A` and `y = B`: the pair `(x, A)` is an old fact
        left
        rw [h2', h2]
        exact (c x A).mp h1
      · -- `A = B` and `x = A`: the pair `(A, y)` is an old fact
        left
        rw [h1, h1']
        exact h2
      · exact Or.inr (Or.inl ⟨h1, h2'⟩)
    · rintro (h | h | ⟨h1, h2⟩)
      · exact Or.inl (Or.inl h)
      · exact Or.inl (Or.inr h)
      · exact Or.inr ⟨Or.inl h1, Or.inl h2⟩
  refine ⟨hs, ?_, c3, e3, i3⟩
  intro x y
  have hc : x ∈ (UpdatePrdcsrAndScsr_ g A B).rcrsvPrdcsr y ↔
      y ∈ (UpdatePrdcsrAndScsr_ g A B).rcrsvScsr x := c3 x y
  rw [hc, hs, c x y]

theorem fourNodes_consistent : Consistent fourNodes := by
  intro a b
  by_cases hb1 : b = 1 <;> by_cases hb3 : b = 3 <;> by_cases ha0 : a = 0 <;>
    by_cases ha2 : a = 2 <;> simp [fourNodes, hb1, hb3, ha0, ha2]

/-- C18 on the sample graph with the chains `0 -> 1` and `2 -> 3`, for the new edge `1 -> 2`:
the update records the pairs `(1, 2)` and `(0, 3)`. -/
theorem UpdatePrdcsrAndScsr_spec_fourNodes :
    Consistent fourNodes ∧
    ((∀ x y, y ∈ (UpdatePrdcsrAndScsr_ fourNodes 1 2).rcrsvScsr x ↔
      (y ∈ fourNodes.rcrsvScsr x ∨ (x = 1 ∧ y = 2) ∨
        (x ∈ fourNodes.rcrsvPrdcsr 1 ∧ y ∈ fourNodes.rcrsvScsr 2))) ∧
    (∀ x y, x ∈ (UpdatePrdcsrAndScsr_ fourNodes 1 2).rcrsvPrdcsr y ↔
      (x ∈ fourNodes.rcrsvPrdcsr y ∨ (x = 1 ∧ y = 2) ∨
        (x ∈ fourNodes.rcrsvPrdcsr 1 ∧ y ∈ fourNodes.rcrsvScsr 2))) ∧
    Consistent (UpdatePrdcsrAndScsr_ fourNodes 1 2) ∧
    (UpdatePrdcsrAndScsr_ fourNodes 1 2).edges = fourNodes.edges ∧
    SameInsts fourNodes (UpdatePrdcsrAndScsr_ fourNodes 1 2)) :=
  ⟨fourNodes_consistent, UpdatePrdcsrAndScsr_spec fourNodes 1 2 fourNodes_consistent⟩

/-! ## Edges added by the transformation -/

theorem updatePair_edges (X Y : Nat) (g : DataDepGraph) :
    (updatePair X g Y).edges = g.edges ∧ SameInsts g (updatePair X g Y) := by
  unfold updatePair
  split
  · exact ⟨rfl, SameInsts.unchanged g⟩
  · exact ⟨rfl, SameInsts.unchanged g⟩

theorem foldl_updatePair_edges (X : Nat) (ys : List Nat) (g : DataDepGraph) :
    (ys.foldl (updatePair X) g).edges = g.edges ∧ SameInsts g (ys.foldl (updatePair X) g) := by
  induction ys generalizing g with
  | nil => exact ⟨rfl, SameInsts.unchanged g⟩
  | cons Y rest ih =>
    obtain ⟨e1, i1⟩ := updatePair_edges X Y g
    obtain ⟨e2, i2⟩ := ih (updatePair X g Y)
    exact ⟨e2.trans e1, i1.chain i2⟩

theorem foldl_foldl_updatePair_edges (xs ys : List Nat) (g : DataDepGraph) :
    (xs.foldl (fun gx X => ys.foldl (updatePair X) gx) g).edges = g.edges ∧
    SameInsts g (xs.foldl (fun gx X => ys.foldl (updatePair X) gx) g) := by
  induction xs generalizing g with
  | nil => exact ⟨rfl, SameInsts.unchanged g⟩
  | cons X rest ih =>
    obtain ⟨e1, i1⟩ := foldl_updatePair_edges X ys g
    obtain ⟨e2, i2⟩ := ih (ys.foldl (updatePair X) g)
    exact ⟨e2.trans e1, i1.chain i2⟩

/-- `AddSuperiorEdge_(a, b)` adds the one edge `a -> b` of latency 0 and kind `DEP_OTHER`. -/
theorem AddSuperiorEdge_edges (g : DataDepGraph) (a b : Nat) :
    (AddSuperiorEdge_ g a b).edges = g.edges ++ [superiorEdge a b] ∧
    SameInsts g (AddSuperiorEdge_ g a b) := by
  unfold AddSuperiorEdge_ UpdatePrdcsrAndScsr_
  obtain ⟨e, i⟩ := foldl_foldl_updatePair_edges
    ((((g.CreateEdge a b 0 DependenceType.DEP_OTHER).AddRcrsvScsr a b).AddRcrsvPrdcsr b
      a).rcrsvPrdcsr a)
    ((((g.CreateEdge a b 0 DependenceType.DEP_OTHER).AddRcrsvScsr a b).AddRcrsvPrdcsr b
      a).rcrsvScsr b)
    (((g.CreateEdge a b 0 DependenceType.DEP_OTHER).AddRcrsvScsr a b).AddRcrsvPrdcsr b a)
  exact ⟨e, i⟩

/-- The three outcomes of `TryAddingSuperiorEdge_`, by the pair as ordered by node id. -/
theorem TryAddingSuperiorEdge_cases (g : DataDepGraph) (a b : Nat) :
    TryAddingSuperiorEdge_ g a b =
      if NodeIsSuperior_ g (lowerId g a b) (higherId g a b) = true then
        (true, AddSuperiorEdge_ g (lowerId g a b) (higherId g a b))
      else if NodeIsSuperior_ g (higherId g a b) (lowerId g a b) = true then
        (true, AddSuperiorEdge_ g (higherId g a b) (lowerId g a b))
      else (false, g) := by
  unfold TryAddingSuperiorEdge_ lowerId higherId
  by_cases h : g.nodeID a > g.nodeID b
  · simp only [h, if_true]
  · simp only [h, if_false]

/-- `TryAddingSuperiorEdge_` appends at most one edge and changes no instruction data. -/
theorem TryAddingSuperiorEdge_edges (g : DataDepGraph) (a b : Nat) :
    (((TryAddingSuperiorEdge_ g a b).1 = false ∧ TryAddingSuperiorEdge_ g a b = (false, g)) ∨
      ((TryAddingSuperiorEdge_ g a b).1 = true ∧
        ∃ e, (TryAddingSuperiorEdge_ g a b).2.edges = g.edges ++ [e])) ∧
    SameInsts g (TryAddingSuperiorEdge_ g a b).2 := by
  rw [TryAddingSuperiorEdge_cases]
  split_ifs
  · exact ⟨Or.inr ⟨rfl, _, (AddSuperiorEdge_edges g _ _).1⟩, (AddSuperiorEdge_edges g _ _).2⟩
  · exact ⟨Or.inr ⟨rfl, _, (AddSuperiorEdge_edges g _ _).1⟩, (AddSuperiorEdge_edges g _ _).2⟩
  · exact ⟨Or.inl ⟨rfl, rfl⟩, SameInsts.unchanged g⟩

/-- C19: for every pair of instructions with distinct node ids, `TryAddingSuperiorEdge_` orders
the pair by node id (`lowerId` has the smaller id). If the lower-id node is superior to the
higher-id one it adds exactly the edge lower -> higher, of latency 0, whether or not the other
orientation is superior too; otherwise, if the higher-id node is superior to the lower-id one, it
adds exactly higher -> lower; otherwise it adds nothing and returns false. The result, graph
included, is the same for the arguments `(a, b)` and `(b, a)`. -/
theorem TryAddingSuperiorEdge_orientation (g : DataDepGraph) (a b : Nat)
    (hid : g.nodeID a ≠ g.nodeID b) :
    (g.nodeID (lowerId g a b) < g.nodeID (higherId g a b) ∧
      ((lowerId g a b = a ∧ higherId g a b = b) ∨ (lowerId g a b = b ∧ higherId g a b = a))) ∧
    (NodeIsSuperior_ g (lowerId g a b) (higherId g a b) = true →
      TryAddingSuperiorEdge_ g a b = (true, AddSuperiorEdge_ g (lowerId g a b) (higherId g a b)) ∧
      (TryAddingSuperiorEdge_ g a b).2.edges =
        g.edges ++ [⟨lowerId g a b, higherId g a b, 0, DependenceType.DEP_OTHER⟩]) ∧
    (NodeIsSuperior_ g (lowerId g a b) (higherId g a b) = false →
      NodeIsSuperior_ g (higherId g a b) (lowerId g a b) = true →
      TryAddingSuperiorEdge_ g a b = (true, AddSuperiorEdge_ g (higherId g a b) (lowerId g a b)) ∧
      (TryAddingSuperiorEdge_ g a b).2.edges =
        g.edges ++ [⟨higherId g a b, lowerId g a b, 0, DependenceType.DEP_OTHER⟩]) ∧
    (NodeIsSuperior_ g (lowerId g a b) (higherId g a b) = false →
      NodeIsSuperior_ g (higherId g a b) (lowerId g a b) = false →
      TryAddingSuperiorEdge_ g a b = (false, g)) ∧
    TryAddingSuperiorEdge_ g a b = TryAddingSuperiorEdge_ g b a := by
  have hsym : lowerId g b a = lowerId g a b ∧ higherId g b a = higherId g a b := by
    unfold lowerId higherId
    by_cases h : g.nodeID a > g.nodeID b
    · have h' : ¬ g.nodeID b > g.nodeID a := by omega
      simp only [h, h', if_true, if_false, and_self]
    · have h' : g.nodeID b > g.nodeID a := by omega
      simp only [h, h', if_true, if_false, and_self]
  refine ⟨?_, ?_, ?_, ?_, ?_⟩
  · unfold lowerId higherId
    by_cases h : g.nodeID a > g.nodeID b
    · rw [if_pos h, if_pos h]
      exact ⟨h, Or.inr ⟨rfl, rfl⟩⟩
    · rw [if_neg h, if_neg h]
      exact ⟨by omega, Or.inl ⟨rfl, rfl⟩⟩
  · intro h1
    have e : TryAddingSuperiorEdge_ g a b =
        (true, AddSuperiorEdge_ g (lowerId g a b) (higherId g a b)) := by
      rw [TryAddingSuperiorEdge_cases, if_pos h1]
    exact ⟨e, by rw [e]; exact (AddSuperiorEdge_edges g _ _).1⟩
  · intro h1 h2
    have h1' : ¬ NodeIsSuperior_ g (lowerId g a b) (higherId g a b) = true := by simp [h1]
    have e : TryAddingSuperiorEdge_ g a b =
        (true, AddSuperiorEdge_ g (higherId g a b) (lowerId g a b)) := by
      rw [TryAddingSuperiorEdge_cases, if_neg h1', if_pos h2]
    exact ⟨e, by rw [e]; exact (AddSuperiorEdge_edges g _ _).1⟩
  · intro h1 h2
    have h1' : ¬ NodeIsSuperior_ g (lowerId g a b) (higherId g a b) = true := by simp [h1]
    have h2' : ¬ NodeIsSuperior_ g (higherId g a b) (lowerId g a b) = true := by simp [h2]
    rw [TryAddingSuperiorEdge_cases, if_neg h1', if_neg h2']
  · rw [TryAddingSuperiorEdge_cases g a b, TryAddingSuperiorEdge_cases g b a, hsym.1, hsym.2]

/-- An instance of C19 on the sample graph of two unrelated instructions: each is superior to
the other, and for the pair `(1, 0)`, in either order, the edge `0 -> 1` is added. -/
theorem TryAddingSuperiorEdge_orientation_twoNodes :
    twoNodes.nodeID 1 ≠ twoNodes.nodeID 0 ∧
    (NodeIsSuperior_ twoNodes 0 1 = true ∧ NodeIsSuperior_ twoNodes 1 0 = true) ∧
    (TryAddingSuperiorEdge_ twoNodes 1 0).2.edges = [⟨0, 1, 0, DependenceType.DEP_OTHER⟩] ∧
    (TryAddingSuperiorEdge_ twoNodes 1 0).1 = true ∧
    TryAddingSuperiorEdge_ twoNodes 1 0 = TryAddingSuperiorEdge_ twoNodes 0 1 :=
  ⟨by decide, by decide, by decide, by decide,
   (TryAddingSuperiorEdge_orientation twoNodes 1 0 (by decide)).2.2.2.2⟩

/-! ## Scenario C -/

theorem lastUseCount_eq_zero (g : DataDepGraph) (t A B : Nat)
    (h : ∀ r ∈ g.uses A, r ∈ g.uses B) : lastUseCount g t A B = 0 := by
  unfold lastUseCount
  rw [List.length_eq_zero, List.filter_eq_nil_iff]
  intro r hr
  simp only [decide_eq_true_eq]
  intro hc
  exact hc.2.1 (h r hr)

theorem defCount_pos (g : DataDepGraph) (A d : Nat) (h : d ∈ g.defs A) :
    0 < defCount g (g.regType d) A := by
  unfold defCount
  rw [List.length_pos_iff_exists_mem]
  exact ⟨d, List.mem_filter.mpr ⟨h, by simp⟩⟩

/-- The first pass over a graph of two instructions visits the pair `(0, 1)` only. -/
theorem firstPass_two (g : DataDepGraph) :
    firstPass 2 g = firstPassBody 0 ⟨g, [], false⟩ 1 := by
  rfl

/-- The paths of `scenarioCPred`: the edge `0 -> 1` only. -/
theorem scenarioCPred_reach (a b : Nat) : Reach scenarioCPred.edges a b ↔ a = 0 ∧ b = 1 := by
  constructor
  · intro h
    have h' : Reach ([] ++ [⟨0, 1, 1, DependenceType.DEP_OTHER⟩]) a b := h
    rcases Reach.of_snoc h' with h0 | ⟨h1, h2⟩
    · exact absurd h0 Reach.nil
    · rcases h1 with h1 | h1
      · rcases h2 with h2 | h2
        · exact ⟨h1, h2⟩
        · exact absurd h2 Reach.nil
      · exact absurd h1 Reach.nil
  · rintro ⟨rfl, rfl⟩
    exact Reach.new_edge [] ⟨0, 1, 1, DependenceType.DEP_OTHER⟩

theorem scenarioCPred_exact : ExactReach scenarioCPred := by
  intro a b
  rw [scenarioCPred_reach]
  constructor
  · by_cases ha : a = 0
    · simp [scenarioCPred, ha, eq_comm]
    · simp [scenarioCPred, ha]
  · by_cases hb : b = 1
    · simp [scenarioCPred, hb, eq_comm]
    · simp [scenarioCPred, hb]

/-- C15, as the code has it on a graph of the kind the scenario describes: in `scenarioCPred`
the instructions `A = 1` and `B = 2` have the same issue type, `A` defines nothing and uses
register 0 that `B` uses too, `B` defines one register, of a type `A` does not define, and no
dependence path joins `A` and `B` (the graph is acyclic with exact recursive sets); yet
`NodeIsSuperior_(A, B)` returns false, because `A` has the recursive predecessor 0 that `B` lacks,
and `ApplyTrans`, in either mode, adds no edge. -/
theorem scenarioC_fails_with_predecessor :
    scenarioCPred.issueType 1 = scenarioCPred.issueType 2 ∧
    scenarioCPred.defs 1 = [] ∧
    0 ∈ scenarioCPred.uses 1 ∧ 0 ∈ scenarioCPred.uses 2 ∧
    scenarioCPred.defs 2 = [1] ∧
    (∀ d ∈ scenarioCPred.defs 1, scenarioCPred.regType d ≠ scenarioCPred.regType 1) ∧
    ¬ Reach scenarioCPred.edges 1 2 ∧ ¬ Reach scenarioCPred.edges 2 1 ∧
    AreNodesIndep_ scenarioCPred 1 2 = true ∧
    Acyclic scenarioCPred ∧ ExactReach scenarioCPred ∧
    NodeIsSuperior_ scenarioCPred 1 2 = false ∧
    (ApplyTrans false scenarioCPred).2.edges = scenarioCPred.edges ∧
    (ApplyTrans true scenarioCPred).2.edges = scenarioCPred.edges := by
  refine ⟨rfl, rfl, by decide, by decide, rfl, by decide, ?_, ?_, by decide, ?_,
    scenarioCPred_exact, by decide, by decide, by decide⟩
  · intro h
    have := (scenarioCPred_reach 1 2).mp h
    omega
  · intro h
    have := (scenarioCPred_reach 2 1).mp h
    omega
  · intro a h
    have := (scenarioCPred_reach a a).mp h
    omega

/-- C15, amended: let `A` and `B` have the same issue type, let every recursive predecessor of
`A` be one of `B` and every recursive successor of `B` be one of `A`, let `A` define no register
and use every register that `B` uses, and let `B` define a register (of a counted register
type). Then `NodeIsSuperior_(A, B)` returns true, `NodeIsSuperior_(B, A)` returns false, and
`TryAddingSuperiorEdge_`, called on the pair in either order, adds exactly the edge `A -> B` of
latency 0. If moreover the graph consists of the two instructions `A` and `B` and they are
independent, `ApplyTrans`, single-pass or multi-pass, adds exactly the edge `A -> B`. -/
theorem scenarioC_adds_edge (g : DataDepGraph) (A B : Nat)
    (hissue : g.issueType A = g.issueType B)
    (hpred : ∀ x ∈ g.rcrsvPrdcsr A, x ∈ g.rcrsvPrdcsr B)
    (hsucc : ∀ y ∈ g.rcrsvScsr B, y ∈ g.rcrsvScsr A)
    (hdefA : g.defs A = [])
    (huses : ∀ r ∈ g.uses B, r ∈ g.uses A)
    (hdefB : ∃ d ∈ g.defs B, g.regType d < g.regTypeCnt) :
    NodeIsSuperior_ g A B = true ∧ NodeIsSuperior_ g B A = false ∧
    TryAddingSuperiorEdge_ g A B = (true, AddSuperiorEdge_ g A B) ∧
    TryAddingSuperiorEdge_ g B A = (true, AddSuperiorEdge_ g A B) ∧
    (AddSuperiorEdge_ g A B).edges = g.edges ++ [⟨A, B, 0, DependenceType.DEP_OTHER⟩] ∧
    (g.instCnt = 2 → ((A = 0 ∧ B = 1) ∨ (A = 1 ∧ B = 0)) → AreNodesIndep_ g 0 1 = true →
      ∀ IsMultiPass, (ApplyTrans IsMultiPass g).2.edges =
        g.edges ++ [⟨A, B, 0, DependenceType.DEP_OTHER⟩]) := by
  have hdA : ∀ t, defCount g t A = 0 := by
    intro t
    unfold defCount
    rw [hdefA]
    rfl
  have hAB : NodeIsSuperior_ g A B = true := by
    rw [NodeIsSuperior_superiorSpec]
    refine ⟨hissue, hpred, hsucc, ?_, ?_⟩
    · intro t _
      rw [lastUseCount_eq_zero g t B A huses]
      exact Nat.zero_le _
    · intro t _
      rw [hdA t]
      exact Nat.zero_le _
  have hBA : NodeIsSuperior_ g B A = false := by
    rw [← Bool.not_eq_true, NodeIsSuperior_superiorSpec]
    intro h
    obtain ⟨d, hd, ht⟩ := hdefB
    have h1 := h.2.2.2.2 (g.regType d) ht
    have h2 := defCount_pos g B d hd
    rw [hdA] at h1
    omega
  have hT1 : TryAddingSuperiorEdge_ g A B = (true, AddSuperiorEdge_ g A B) := by
    unfold TryAddingSuperiorEdge_
    by_cases hid : g.nodeID A > g.nodeID B
    · simp only [if_pos hid, hBA, hAB, if_true, Bool.false_eq_true, if_false]
    · simp only [if_neg hid, hAB, if_true]
  have hT2 : TryAddingSuperiorEdge_ g B A = (true, AddSuperiorEdge_ g A B) := by
    unfold TryAddingSuperiorEdge_
    by_cases hid : g.nodeID B > g.nodeID A
    · simp only [if_pos hid, hAB, if_true]
    · simp only [if_neg hid, hBA, hAB, if_true, Bool.false_eq_true, if_false]
  have hE : (AddSuperiorEdge_ g A B).edges = g.edges ++ [⟨A, B, 0, DependenceType.DEP_OTHER⟩] :=
    (AddSuperiorEdge_edges g A B).1
  refine ⟨hAB, hBA, hT1, hT2, hE, ?_⟩
  intro hn hab hind m
  have hT : TryAddingSuperiorEdge_ g 0 1 = (true, AddSuperiorEdge_ g A B) := by
    rcases hab with ⟨rfl, rfl⟩ | ⟨rfl, rfl⟩
    · exact hT1
    · exact hT2
  have hF : firstPass g.instCnt g = ⟨AddSuperiorEdge_ g A B, [], true⟩ := by
    rw [hn, firstPass_two]
    unfold firstPassBody
    simp [hind, hT]
  unfold ApplyTrans
  simp only [hF]
  cases m
  · simpa using hE
  · simpa [nodeMultiPass_, multiPassLoop] using hE

/-- C15, amended, on `scenarioC`: instruction 0 is superior to instruction 1 and `ApplyTrans`
adds the edge `0 -> 1`. -/
theorem scenarioC_adds_edge_sample :
    NodeIsSuperior_ scenarioC 0 1 = true ∧ NodeIsSuperior_ scenarioC 1 0 = false ∧
    (∀ IsMultiPass, (ApplyTrans IsMultiPass scenarioC).2.edges =
      [⟨0, 1, 0, DependenceType.DEP_OTHER⟩]) :=
  have h := scenarioC_adds_edge scenarioC 0 1 rfl (by decide) (by decide) rfl (by decide)
    ⟨1, by decide, by decide⟩
  ⟨h.1, h.2.1, fun m => h.2.2.2.2.2 rfl (Or.inl ⟨rfl, rfl⟩) (by decide) m⟩

/-! ## The passes only add edges -/

theorem multiPassSweep_edges (l : List (Nat × Nat)) (g : DataDepGraph) (d : Bool) :
    (∃ more, (multiPassSweep g d l).graph.edges = g.edges ++ more) ∧
    SameInsts g (multiPassSweep g d l).graph := by
  induction l generalizing g d with
  | nil => exact ⟨⟨[], by simp [multiPassSweep]⟩, SameInsts.unchanged g⟩
  | cons pair rest ih =>
    unfold multiPassSweep
    split
    · exact ih g d
    · dsimp only
      obtain ⟨ht, hi⟩ := TryAddingSuperiorEdge_edges g pair.1 pair.2
      have hext : ∃ m1, (TryAddingSuperiorEdge_ g pair.1 pair.2).2.edges = g.edges ++ m1 := by
        rcases ht with ⟨-, h⟩ | ⟨-, e, h⟩
        · exact ⟨[], by rw [h]; simp⟩
        · exact ⟨[e], h⟩
      obtain ⟨m1, h1⟩ := hext
      split
      · obtain ⟨⟨m2, h2⟩, i2⟩ := ih (TryAddingSuperiorEdge_ g pair.1 pair.2).2 true
        exact ⟨⟨m1 ++ m2, by rw [h2, h1, List.append_assoc]⟩, hi.chain i2⟩
      · obtain ⟨⟨m2, h2⟩, i2⟩ := ih (TryAddingSuperiorEdge_ g pair.1 pair.2).2 d
        exact ⟨⟨m1 ++ m2, by rw [h2, h1, List.append_assoc]⟩, hi.chain i2⟩

theorem multiPassLoop_edges (fuel : Nat) (g : DataDepGraph) (l : List (Nat × Nat)) (d : Bool) :
    (∃ more, (multiPassLoop fuel g l d).edges = g.edges ++ more) ∧
    SameInsts g (multiPassLoop fuel g l d) := by
  induction fuel generalizing g l d with
  | zero => exact ⟨⟨[], by simp [multiPassLoop]⟩, SameInsts.unchanged g⟩
  | succ fuel ih =>
    unfold multiPassLoop
    split
    · dsimp only
      obtain ⟨⟨m1, h1⟩, i1⟩ := multiPassSweep_edges l g false
      obtain ⟨⟨m2, h2⟩, i2⟩ := ih (multiPassSweep g false l).graph
        (multiPassSweep g false l).indepNodes (multiPassSweep g false l).didAddEdge
      exact ⟨⟨m1 ++ m2, by rw [h2, h1, List.append_assoc]⟩, i1.chain i2⟩
    · exact ⟨⟨[], by simp⟩, SameInsts.unchanged g⟩

/-- C16: for every dependence graph, the edges of the graph after `ApplyTrans` in multi-pass
mode are the edges of the graph after `ApplyTrans` in single-pass mode on the same input,
followed by the edges that the sweeps add; so every edge of the single-pass result is an edge of
the multi-pass result. -/
theorem multiPass_edges_superset (g : DataDepGraph) :
    (∃ more, (ApplyTrans true g).2.edges = (ApplyTrans false g).2.edges ++ more) ∧
    (∀ e, e ∈ (ApplyTrans false g).2.edges → e ∈ (ApplyTrans true g).2.edges) := by
  have h : ∃ more, (ApplyTrans true g).2.edges = (ApplyTrans false g).2.edges ++ more :=
    (multiPassLoop_edges _ (firstPass g.instCnt g).graph (firstPass g.instCnt g).indepNodes
      true).1
  refine ⟨h, ?_⟩
  obtain ⟨more, hm⟩ := h
  intro e he
  rw [hm]
  exact List.mem_append_left _ he

/-! ## Termination of the multi-pass loop -/

theorem multiPassRun_graph (fuel : Nat) (g : DataDepGraph) (l : List (Nat × Nat)) (d : Bool) :
    (multiPassRun fuel g l d).2.graph = multiPassLoop fuel g l d := by
  induction fuel generalizing g l d with
  | zero => rfl
  | succ fuel ih =>
    unfold multiPassRun multiPassLoop
    split
    · dsimp only
      exact ih _ _ _
    · rfl

theorem multiPassRun_false (fuel : Nat) (g : DataDepGraph) (l : List (Nat × Nat)) :
    multiPassRun fuel g l false = (0, ⟨g, l, false⟩) := by
  cases fuel <;> simp [multiPassRun]

/-- With more fuel than pairs in the list, the loop makes at most as many sweeps as there are
pairs and stops because its condition is false. -/
theorem multiPassRun_bound (fuel : Nat) (g : DataDepGraph) (l : List (Nat × Nat)) (d : Bool)
    (h : l.length < fuel) :
    (multiPassRun fuel g l d).1 ≤ l.length ∧
    ((multiPassRun fuel g l d).2.didAddEdge &&
      decide ((multiPassRun fuel g l d).2.indepNodes.length > 0)) = false ∧
    ∀ fuel', l.length < fuel' → multiPassRun fuel' g l d = multiPassRun fuel g l d := by
  induction fuel generalizing g l d with
  | zero => omega
  | succ fuel ih =>
    by_cases hc : (d && decide (l.length > 0)) = true
    · obtain ⟨hle, hlt⟩ := multiPassSweep_length l g false
      have hpos : 0 < l.length := by
        have := hc
        simp only [Bool.and_eq_true, decide_eq_true_eq] at this
        exact this.2
      have hstep : ∀ f, multiPassRun (f + 1) g l d =
          ((multiPassRun f (multiPassSweep g false l).graph (multiPassSweep g false l).indepNodes
            (multiPassSweep g false l).didAddEdge).1 + 1,
           (multiPassRun f (multiPassSweep g false l).graph (multiPassSweep g false l).indepNodes
            (multiPassSweep g false l).didAddEdge).2) := by
        intro f
        rw [multiPassRun, if_pos hc]
      by_cases hd : (multiPassSweep g false l).didAddEdge = true
      · have hsh := hlt hd rfl
        obtain ⟨b1, b2, b3⟩ := ih (multiPassSweep g false l).graph
          (multiPassSweep g false l).indepNodes (multiPassSweep g false l).didAddEdge (by omega)
        rw [hstep]
        refine ⟨by dsimp only; omega, b2, ?_⟩
        intro fuel' hf
        cases fuel' with
        | zero => omega
        | succ f' =>
          rw [hstep, b3 f' (by omega)]
      · have hd' : (multiPassSweep g false l).didAddEdge = false := by simpa using hd
        rw [hstep, hd', multiPassRun_false]
        refine ⟨by dsimp only; omega, by simp, ?_⟩
        intro fuel' hf
        cases fuel' with
        | zero => omega
        | succ f' => rw [hstep, hd', multiPassRun_false]
    · have hstop : ∀ f, multiPassRun (f + 1) g l d = (0, ⟨g, l, d⟩) := by
        intro f
        rw [multiPassRun, if_neg hc]
      rw [hstop]
      refine ⟨Nat.zero_le _, by simpa using hc, ?_⟩
      intro fuel' hf
      cases fuel' with
      | zero => omega
      | succ f' => rw [hstop]

/-- C17: the multi-pass loop terminates on every list of remembered pairs. A sweep never
lengthens the list and a sweep that adds an edge removes at least one pair. With any bound on
the number of sweeps above the list length, in particular the bound `indepNodes.length + 1` of
`nodeMultiPass_`, the loop makes at most `indepNodes.length` sweeps (so at most the list length
plus one), stops with its condition false (the last sweep added no edge or the list is empty),
and its result does not depend on the bound. -/
theorem nodeMultiPass_terminates (g : DataDepGraph) (indepNodes : List (Nat × Nat)) :
    (∀ (g' : DataDepGraph) (l : List (Nat × Nat)),
      (multiPassSweep g' false l).indepNodes.length ≤ l.length ∧
      ((multiPassSweep g' false l).didAddEdge = true →
        (multiPassSweep g' false l).indepNodes.length < l.length)) ∧
    (multiPassRun (indepNodes.length + 1) g indepNodes true).2.graph =
      nodeMultiPass_ g indepNodes ∧
    (multiPassRun (indepNodes.length + 1) g indepNodes true).1 ≤ indepNodes.length ∧
    (multiPassRun (indepNodes.length + 1) g indepNodes true).1 ≤ indepNodes.length + 1 ∧
    ((multiPassRun (indepNodes.length + 1) g indepNodes true).2.didAddEdge = false ∨
      (multiPassRun (indepNodes.length + 1) g indepNodes true).2.indepNodes = []) ∧
    (∀ fuel, indepNodes.length < fuel →
      multiPassRun fuel g indepNodes true =
        multiPassRun (indepNodes.length + 1) g indepNodes true) := by
  obtain ⟨b1, b2, b3⟩ := multiPassRun_bound (indepNodes.length + 1) g indepNodes true
    (Nat.lt_succ_self _)
  refine ⟨?_, multiPassRun_graph _ _ _ _, b1, by omega, ?_, b3⟩
  · intro g' l
    obtain ⟨h1, h2⟩ := multiPassSweep_length l g' false
    exact ⟨h1, fun h => h2 h rfl⟩
  · rw [Bool.and_eq_false_iff] at b2
    rcases b2 with h | h
    · exact Or.inl h
    · right
      have : ¬ (multiPassRun (indepNodes.length + 1) g indepNodes true).2.indepNodes.length > 0 := by
        simpa using h
      exact List.length_eq_zero.mp (by omega)

/-! ## Idempotence -/

theorem Grows.self (g : DataDepGraph) : Grows g g :=
  ⟨fun _ _ h => h, fun _ _ h => h⟩

theorem Grows.andThen {g1 g2 g3 : DataDepGraph} (a : Grows g1 g2) (b : Grows g2 g3) :
    Grows g1 g3 :=
  ⟨fun x y h => b.1 x y (a.1 x y h), fun x y h => b.2 x y (a.2 x y h)⟩

theorem AddRcrsvScsr_grows (g : DataDepGraph) (A B : Nat) :
    Grows g (g.AddRcrsvScsr A B) ∧ B ∈ (g.AddRcrsvScsr A B).rcrsvScsr A := by
  refine ⟨⟨fun x y h => ?_, fun x y h => h⟩, ?_⟩
  · simp only [DataDepGraph.AddRcrsvScsr]
    split
    · exact List.mem_append_left _ h
    · exact h
  · simp [DataDepGraph.AddRcrsvScsr]

theorem AddRcrsvPrdcsr_grows (g : DataDepGraph) (B A : Nat) :
    Grows g (g.AddRcrsvPrdcsr B A) ∧ A ∈ (g.AddRcrsvPrdcsr B A).rcrsvPrdcsr B := by
  refine ⟨⟨fun x y h => h, fun x y h => ?_⟩, ?_⟩
  · simp only [DataDepGraph.AddRcrsvPrdcsr]
    split
    · exact List.mem_append_left _ h
    · exact h
  · simp [DataDepGraph.AddRcrsvPrdcsr]

theorem updatePair_grows (X Y : Nat) (g : DataDepGraph) : Grows g (updatePair X g Y) := by
  unfold updatePair
  split
  · exact (AddRcrsvPrdcsr_grows g Y X).1.andThen (AddRcrsvScsr_grows _ X Y).1
  · exact Grows.self g

theorem foldl_updatePair_grows (X : Nat) (ys : List Nat) (g : DataDepGraph) :
    Grows g (ys.foldl (updatePair X) g) := by
  induction ys generalizing g with
  | nil => exact Grows.self g
  | cons Y rest ih => exact (updatePair_grows X Y g).andThen (ih _)

theorem foldl_foldl_updatePair_grows (xs ys : List Nat) (g : DataDepGraph) :
    Grows g (xs.foldl (fun gx X => ys.foldl (updatePair X) gx) g) := by
  induction xs generalizing g with
  | nil => exact Grows.self g
  | cons X rest ih => exact (foldl_updatePair_grows X ys g).andThen (ih _)

/-- `AddSuperiorEdge_(A, B)` keeps every recorded reachability fact and records `(A, B)`. -/
theorem AddSuperiorEdge_grows (g : DataDepGraph) (A B : Nat) :
    Grows g (AddSuperiorEdge_ g A B) ∧ B ∈ (AddSuperiorEdge_ g A B).rcrsvScsr A ∧
    A ∈ (AddSuperiorEdge_ g A B).rcrsvPrdcsr B := by
  have h0 : Grows g (g.CreateEdge A B 0 DependenceType.DEP_OTHER) :=
    ⟨fun _ _ h => h, fun _ _ h => h⟩
  obtain ⟨h1, m1⟩ := AddRcrsvScsr_grows (g.CreateEdge A B 0 DependenceType.DEP_OTHER) A B
  obtain ⟨h2, m2⟩ := AddRcrsvPrdcsr_grows
    ((g.CreateEdge A B 0 DependenceType.DEP_OTHER).AddRcrsvScsr A B) B A
  have h3 := foldl_foldl_updatePair_grows
    ((((g.CreateEdge A B 0 DependenceType.DEP_OTHER).AddRcrsvScsr A B).AddRcrsvPrdcsr B
      A).rcrsvPrdcsr A)
    ((((g.CreateEdge A B 0 DependenceType.DEP_OTHER).AddRcrsvScsr A B).AddRcrsvPrdcsr B
      A).rcrsvScsr B)
    (((g.CreateEdge A B 0 DependenceType.DEP_OTHER).AddRcrsvScsr A B).AddRcrsvPrdcsr B A)
  unfold AddSuperiorEdge_ UpdatePrdcsrAndScsr_
  exact ⟨(h0.andThen h1).andThen (h2.andThen h3), h3.1 _ _ (h2.1 _ _ m1), h3.2 _ _ m2⟩

/-- `TryAddingSuperiorEdge_` adds an edge exactly when one of the two is superior to the
other. -/
theorem TryAddingSuperiorEdge_fst (g : DataDepGraph) (a b : Nat) :
    (TryAddingSuperiorEdge_ g a b).1 = true ↔
      (NodeIsSuperior_ g a b = true ∨ NodeIsSuperior_ g b a = true) := by
  unfold TryAddingSuperiorEdge_
  by_cases hid : g.nodeID a > g.nodeID b
  · simp only [if_pos hid]
    by_cases h1 : NodeIsSuperior_ g b a = true
    · simp [h1]
    · by_cases h2 : NodeIsSuperior_ g a b = true
      · simp [h1, h2]
      · simp [h1, h2]
  · simp only [if_neg hid]
    by_cases h1 : NodeIsSuperior_ g a b = true
    · simp [h1]
    · by_cases h2 : NodeIsSuperior_ g b a = true
      · simp [h1, h2]
      · simp [h1, h2]

theorem TryAddingSuperiorEdge_none (g : DataDepGraph) (a b : Nat)
    (h : (TryAddingSuperiorEdge_ g a b).1 = false) : TryAddingSuperiorEdge_ g a b = (false, g) := by
  rcases (TryAddingSuperiorEdge_edges g a b).1 with ⟨-, h1⟩ | ⟨h1, -⟩
  · exact h1
  · rw [h] at h1
    cases h1

/-- `TryAddingSuperiorEdge_` keeps every recorded reachability fact, and after it has added an
edge the two instructions are no longer independent. -/
theorem TryAddingSuperiorEdge_grows (g : DataDepGraph) (a b : Nat) :
    Grows g (TryAddingSuperiorEdge_ g a b).2 ∧
    ((TryAddingSuperiorEdge_ g a b).1 = true →
      AreNodesIndep_ (TryAddingSuperiorEdge_ g a b).2 a b = false) := by
  have key : ∀ A B, (A = a ∧ B = b) ∨ (A = b ∧ B = a) →
      AreNodesIndep_ (AddSuperiorEdge_ g A B) a b = false := by
    intro A B hAB
    obtain ⟨-, ms, mp⟩ := AddSuperiorEdge_grows g A B
    rcases hAB with ⟨rfl, rfl⟩ | ⟨rfl, rfl⟩
    · simp [AreNodesIndep_, DataDepGraph.IsRcrsvScsr, ms]
    · simp [AreNodesIndep_, DataDepGraph.IsRcrsvPrdcsr, mp]
  have hlh : (lowerId g a b = a ∧ higherId g a b = b) ∨ (lowerId g a b = b ∧ higherId g a b = a) := by
    unfold lowerId higherId
    by_cases hid : g.nodeID a > g.nodeID b
    · rw [if_pos hid, if_pos hid]; exact Or.inr ⟨rfl, rfl⟩
    · rw [if_neg hid, if_neg hid]; exact Or.inl ⟨rfl, rfl⟩
  rw [TryAddingSuperiorEdge_cases]
  split_ifs
  · exact ⟨(AddSuperiorEdge_grows g _ _).1, fun _ => key _ _ hlh⟩
  · exact ⟨(AddSuperiorEdge_grows g _ _).1, fun _ => key _ _ (hlh.symm.imp And.symm And.symm)⟩
  · exact ⟨Grows.self g, fun h => by cases h⟩

/-- A pair that is not independent stays so when the recursive sets grow. -/
theorem AreNodesIndep_false_grows {g g' : DataDepGraph} (h : Grows g g') (a b : Nat)
    (hd : AreNodesIndep_ g a b = false) : AreNodesIndep_ g' a b = false := by
  rw [← Bool.not_eq_true] at hd ⊢
  intro hi
  apply hd
  obtain ⟨hne, hp, hs⟩ := AreNodesIndep_.spec hi
  simp only [AreNodesIndep_, DataDepGraph.IsRcrsvPrdcsr, DataDepGraph.IsRcrsvScsr,
    Bool.and_eq_true, bne_iff_ne, ne_eq, Bool.not_eq_true', decide_eq_false_iff_not]
  exact ⟨⟨hne, fun hm => hp (h.2 _ _ hm)⟩, fun hm => hs (h.1 _ _ hm)⟩

theorem foldl_flatten_map {ι β σ : Type} (F : ι → List β) (f : σ → β → σ) (l : List ι) (s : σ) :
    ((l.map F).flatten).foldl f s = l.foldl (fun s i => (F i).foldl f s) s := by
  induction l generalizing s with
  | nil => rfl
  | cons i rest ih =>
    rw [List.map_cons, List.flatten_cons, List.foldl_append, ih, List.foldl_cons]

/-- The first pass is a single loop over `allPairs`. -/
theorem firstPass_allPairs (n : Nat) (g : DataDepGraph) :
    firstPass n g = (allPairs n).foldl (fun s p => firstPassBody p.1 s p.2) ⟨g, [], false⟩ := by
  unfold firstPass allPairs
  rw [foldl_flatten_map]
  congr 1
  funext s i
  unfold pairsFrom
  rw [List.foldl_map]

theorem mem_allPairs (n i j : Nat) : (i, j) ∈ allPairs n ↔ (i < j ∧ j < n) := by
  unfold allPairs pairsFrom
  simp only [List.mem_flatten, List.mem_map, List.mem_range, List.mem_range'_1]
  constructor
  · rintro ⟨l, ⟨i', hi', rfl⟩, hm⟩
    rw [List.mem_map] at hm
    obtain ⟨j', hj', heq⟩ := hm
    rw [List.mem_range'_1] at hj'
    cases heq
    omega
  · rintro ⟨h1, h2⟩
    refine ⟨_, ⟨i, by omega, rfl⟩, ?_⟩
    rw [List.mem_map]
    exact ⟨j, List.mem_range'_1.mpr ⟨by omega, by omega⟩, rfl⟩

theorem Active.indep {g : DataDepGraph} {a b : Nat} (h : AreNodesIndep_ g a b = false) :
    ¬ Active g a b := by
  intro ha
  rw [ha.1] at h
  cases h

/-- One step of the first pass: on an active pair it adds one edge and the pair is no longer
independent; on any other pair it leaves the graph as it is and remembers the pair if it is
independent. -/
theorem firstPassBody_step (i j : Nat) (s : PassState) :
    (Active s.graph i j ∧
      (firstPassBody i s j).graph.edges.length = s.graph.edges.length + 1 ∧
      AreNodesIndep_ (firstPassBody i s j).graph i j = false ∧
      (firstPassBody i s j).indepNodes = s.indepNodes) ∨
    (¬ Active s.graph i j ∧ (firstPassBody i s j).graph = s.graph ∧
      ((AreNodesIndep_ s.graph i j = false ∧ (firstPassBody i s j).indepNodes = s.indepNodes) ∨
        (firstPassBody i s j).indepNodes = s.indepNodes ++ [(i, j)])) := by
  by_cases hij : i = j
  · right
    have hd : AreNodesIndep_ s.graph i j = false := by simp [AreNodesIndep_, hij]
    have e : firstPassBody i s j = s := by
      unfold firstPassBody
      simp [hij]
    rw [e]
    exact ⟨Active.indep hd, rfl, Or.inl ⟨hd, rfl⟩⟩
  · have hb : (i == j) = false := by simpa using hij
    by_cases hi : AreNodesIndep_ s.graph i j = true
    · by_cases ht : (TryAddingSuperiorEdge_ s.graph i j).1 = true
      · left
        have e : firstPassBody i s j =
            ⟨(TryAddingSuperiorEdge_ s.graph i j).2, s.indepNodes, true⟩ := by
          unfold firstPassBody
          simp [hb, hi, ht]
        rw [e]
        refine ⟨⟨hi, (TryAddingSuperiorEdge_fst _ _ _).mp ht⟩, ?_,
          (TryAddingSuperiorEdge_grows _ _ _).2 ht, rfl⟩
        rcases (TryAddingSuperiorEdge_edges s.graph i j).1 with ⟨h1, -⟩ | ⟨-, e', he⟩
        · rw [ht] at h1
          cases h1
        · show (TryAddingSuperiorEdge_ s.graph i j).2.edges.length = _
          rw [he]
          simp
      · right
        have ht' : (TryAddingSuperiorEdge_ s.graph i j).1 = false := by simpa using ht
        have hn := TryAddingSuperiorEdge_none _ _ _ ht'
        have e : firstPassBody i s j = ⟨s.graph, s.indepNodes ++ [(i, j)], false⟩ := by
          unfold firstPassBody
          simp [hb, hi, hn]
        rw [e]
        exact ⟨fun ha => ht ((TryAddingSuperiorEdge_fst _ _ _).mpr ha.2), rfl, Or.inr rfl⟩
    · right
      have hi' : AreNodesIndep_ s.graph i j = false := by simpa using hi
      have e : firstPassBody i s j = s := by
        unfold firstPassBody
        simp [hb, hi']
      rw [e]
      exact ⟨Active.indep hi', rfl, Or.inl ⟨hi', rfl⟩⟩

/-- One step of the first pass only adds: to the recursive sets, to the edges and to the list. -/
theorem firstPassBody_grows (i j : Nat) (s : PassState) :
    Grows s.graph (firstPassBody i s j).graph ∧ SameInsts s.graph (firstPassBody i s j).graph ∧
    s.graph.edges.length ≤ (firstPassBody i s j).graph.edges.length ∧
    (∀ p ∈ s.indepNodes, p ∈ (firstPassBody i s j).indepNodes) := by
  have hl : ∀ p ∈ s.indepNodes, p ∈ (firstPassBody i s j).indepNodes := by
    intro p hp
    rcases firstPassBody_step i j s with ⟨-, -, -, h⟩ | ⟨-, -, ⟨-, h⟩ | h⟩
    · rw [h]; exact hp
    · rw [h]; exact hp
    · rw [h]; exact List.mem_append_left _ hp
  have hg : Grows s.graph (firstPassBody i s j).graph ∧
      SameInsts s.graph (firstPassBody i s j).graph ∧
      s.graph.edges.length ≤ (firstPassBody i s j).graph.edges.length := by
    unfold firstPassBody
    have hlen : s.graph.edges.length ≤ (TryAddingSuperiorEdge_ s.graph i j).2.edges.length := by
      rcases (TryAddingSuperiorEdge_edges s.graph i j).1 with ⟨-, h1⟩ | ⟨-, e, he⟩
      · rw [h1]
      · rw [he]; simp
    have ht := (TryAddingSuperiorEdge_grows s.graph i j).1
    have hi := (TryAddingSuperiorEdge_edges s.graph i j).2
    split
    · exact ⟨Grows.self _, SameInsts.unchanged _, Nat.le_refl _⟩
    · split
      · dsimp only
        split
        · exact ⟨ht, hi, hlen⟩
        · exact ⟨ht, hi, hlen⟩
      · exact ⟨Grows.self _, SameInsts.unchanged _, Nat.le_refl _⟩
  exact ⟨hg.1, hg.2.1, hg.2.2, hl⟩

theorem foldPairs_grows (l : List (Nat × Nat)) (s : PassState) :
    Grows s.graph (l.foldl (fun s p => firstPassBody p.1 s p.2) s).graph ∧
    SameInsts s.graph (l.foldl (fun s p => firstPassBody p.1 s p.2) s).graph ∧
    s.graph.edges.length ≤ (l.foldl (fun s p => firstPassBody p.1 s p.2) s).graph.edges.length ∧
    (∀ p ∈ s.indepNodes, p ∈ (l.foldl (fun s p => firstPassBody p.1 s p.2) s).indepNodes) := by
  induction l generalizing s with
  | nil => exact ⟨Grows.self _, SameInsts.unchanged _, Nat.le_refl _, fun _ h => h⟩
  | cons q rest ih =>
    obtain ⟨a1, a2, a3, a4⟩ := firstPassBody_grows q.1 q.2 s
    obtain ⟨b1, b2, b3, b4⟩ := ih (firstPassBody q.1 s q.2)
    rw [List.foldl_cons]
    exact ⟨a1.andThen b1, a2.chain b2, Nat.le_trans a3 b3, fun p hp => b4 p (a4 p hp)⟩

/-- After the first pass, every visited pair is dependent or remembered. -/
theorem foldPairs_covered (l : List (Nat × Nat)) (s : PassState) :
    ∀ p ∈ l, AreNodesIndep_ (l.foldl (fun s p => firstPassBody p.1 s p.2) s).graph p.1 p.2 = false ∨
      p ∈ (l.foldl (fun s p => firstPassBody p.1 s p.2) s).indepNodes := by
  induction l generalizing s with
  | nil => intro p hp; cases hp
  | cons q rest ih =>
    intro p hp
    rw [List.foldl_cons]
    rcases List.mem_cons.mp hp with rfl | hp
    · obtain ⟨b1, -, -, b4⟩ := foldPairs_grows rest (firstPassBody p.1 s p.2)
      rcases firstPassBody_step p.1 p.2 s with ⟨-, -, hd, -⟩ | ⟨-, hg, ⟨hd, -⟩ | hl⟩
      · exact Or.inl (AreNodesIndep_false_grows b1 _ _ hd)
      · rw [← hg] at hd
        exact Or.inl (AreNodesIndep_false_grows b1 _ _ hd)
      · right
        apply b4
        rw [hl]
        simp
    · exact ih _ p hp

/-- A first pass over pairs none of which is active leaves the graph as it is. -/
theorem foldPairs_inert (l : List (Nat × Nat)) (s : PassState)
    (h : ∀ p ∈ l, ¬ Active s.graph p.1 p.2) :
    (l.foldl (fun s p => firstPassBody p.1 s p.2) s).graph = s.graph ∧
    ∀ p ∈ (l.foldl (fun s p => firstPassBody p.1 s p.2) s).indepNodes,
      p ∈ s.indepNodes ∨ p ∈ l := by
  induction l generalizing s with
  | nil => exact ⟨rfl, fun p hp => Or.inl hp⟩
  | cons q rest ih =>
    rw [List.foldl_cons]
    rcases firstPassBody_step q.1 q.2 s with ⟨ha, -⟩ | ⟨-, hg, hl⟩
    · exact absurd ha (h q (List.mem_cons_self _ _))
    · have h' : ∀ p ∈ rest, ¬ Active (firstPassBody q.1 s q.2).graph p.1 p.2 := by
        intro p hp
        rw [hg]
        exact h p (List.mem_cons_of_mem _ hp)
      obtain ⟨c1, c2⟩ := ih (firstPassBody q.1 s q.2) h'
      refine ⟨c1.trans hg, fun p hp => ?_⟩
      rcases c2 p hp with hm | hm
      · rcases hl with ⟨-, hl⟩ | hl
        · rw [hl] at hm
          exact Or.inl hm
        · rw [hl] at hm
          rcases List.mem_append.mp hm with hm | hm
          · exact Or.inl hm
          · right
            rw [List.mem_singleton.mp hm]
            exact List.mem_cons_self _ _
      · exact Or.inr (List.mem_cons_of_mem _ hm)

/-- A first pass that adds no edge has met no active pair. -/
theorem foldPairs_active (l : List (Nat × Nat)) (s : PassState)
    (h : (l.foldl (fun s p => firstPassBody p.1 s p.2) s).graph.edges.length =
      s.graph.edges.length) :
    ∀ p ∈ l, ¬ Active s.graph p.1 p.2 := by
  induction l generalizing s with
  | nil => intro p hp; cases hp
  | cons q rest ih =>
    rw [List.foldl_cons] at h
    obtain ⟨-, -, b3, -⟩ := foldPairs_grows rest (firstPassBody q.1 s q.2)
    obtain ⟨-, -, a3, -⟩ := firstPassBody_grows q.1 q.2 s
    rcases firstPassBody_step q.1 q.2 s with ⟨-, hlen, -⟩ | ⟨hna, hg, -⟩
    · omega
    · intro p hp
      rcases List.mem_cons.mp hp with rfl | hp
      · exact hna
      · have := ih (firstPassBody q.1 s q.2) (by rw [h, hg]) p hp
        rw [hg] at this
        exact this

theorem multiPassSweep_grows (l : List (Nat × Nat)) (g : DataDepGraph) (d : Bool) :
    Grows g (multiPassSweep g d l).graph := by
  induction l generalizing g d with
  | nil => exact Grows.self g
  | cons pair rest ih =>
    unfold multiPassSweep
    split
    · exact ih g d
    · dsimp only
      have h1 := (TryAddingSuperiorEdge_grows g pair.1 pair.2).1
      split
      · exact h1.andThen (ih _ true)
      · exact h1.andThen (ih _ d)

/-- After a sweep, every pair of the list is still in the list or dependent. -/
theorem multiPassSweep_covered (l : List (Nat × Nat)) (g : DataDepGraph) (d : Bool) :
    ∀ p ∈ l, p ∈ (multiPassSweep g d l).indepNodes ∨
      AreNodesIndep_ (multiPassSweep g d l).graph p.1 p.2 = false := by
  induction l generalizing g d with
  | nil => intro p hp; cases hp
  | cons pair rest ih =>
    intro p hp
    unfold multiPassSweep
    split
    · next hi =>
      rcases List.mem_cons.mp hp with rfl | hp
      · right
        have hd : AreNodesIndep_ g p.1 p.2 = false := by simpa using hi
        exact AreNodesIndep_false_grows (multiPassSweep_grows rest g d) _ _ hd
      · exact ih g d p hp
    · dsimp only
      split
      · next ht =>
        rcases List.mem_cons.mp hp with rfl | hp
        · right
          exact AreNodesIndep_false_grows (multiPassSweep_grows rest _ true) _ _
            ((TryAddingSuperiorEdge_grows g p.1 p.2).2 ht)
        · exact ih _ true p hp
      · rcases List.mem_cons.mp hp with rfl | hp
        · exact Or.inl (List.mem_cons_self _ _)
        · rcases ih _ d p hp with h | h
          · exact Or.inl (List.mem_cons_of_mem _ h)
          · exact Or.inr h

theorem multiPassSweep_true (l : List (Nat × Nat)) (g : DataDepGraph) :
    (multiPassSweep g true l).didAddEdge = true := by
  induction l generalizing g with
  | nil => rfl
  | cons pair rest ih =>
    unfold multiPassSweep
    split
    · exact ih g
    · dsimp only
      split
      · exact ih _
      · exact ih _

/-- A sweep that adds no edge has met no active pair and leaves the graph as it is. -/
theorem multiPassSweep_quiet (l : List (Nat × Nat)) (g : DataDepGraph) (d : Bool)
    (h : (multiPassSweep g d l).didAddEdge = false) :
    (multiPassSweep g d l).graph = g ∧ ∀ p ∈ l, ¬ Active g p.1 p.2 := by
  induction l generalizing g d with
  | nil => exact ⟨rfl, fun p hp => by cases hp⟩
  | cons pair rest ih =>
    unfold multiPassSweep at h ⊢
    split at h
    · next hi =>
      have hd : AreNodesIndep_ g pair.1 pair.2 = false := by simpa using hi
      rw [if_pos hi]
      obtain ⟨c1, c2⟩ := ih g d h
      refine ⟨c1, fun p hp => ?_⟩
      rcases List.mem_cons.mp hp with rfl | hp
      · exact Active.indep hd
      · exact c2 p hp
    · next hi =>
      rw [if_neg hi]
      dsimp only at h ⊢
      split at h
      · rw [multiPassSweep_true] at h
        cases h
      · next ht =>
        rw [if_neg ht]
        have ht' : (TryAddingSuperiorEdge_ g pair.1 pair.2).1 = false := by simpa using ht
        have hn := TryAddingSuperiorEdge_none _ _ _ ht'
        rw [hn] at h ⊢
        obtain ⟨c1, c2⟩ := ih g d h
        refine ⟨c1, fun p hp => ?_⟩
        rcases List.mem_cons.mp hp with rfl | hp
        · exact fun ha => ht ((TryAddingSuperiorEdge_fst _ _ _).mpr ha.2)
        · exact c2 p hp

/-- A sweep over pairs none of which is active adds no edge. -/
theorem multiPassSweep_inert (l : List (Nat × Nat)) (g : DataDepGraph) (d : Bool)
    (h : ∀ p ∈ l, ¬ Active g p.1 p.2) :
    (multiPassSweep g d l).graph = g ∧ (multiPassSweep g d l).didAddEdge = d := by
  induction l generalizing d with
  | nil => exact ⟨rfl, rfl⟩
  | cons pair rest ih =>
    have hr : ∀ p ∈ rest, ¬ Active g p.1 p.2 := fun p hp => h p (List.mem_cons_of_mem _ hp)
    unfold multiPassSweep
    split
    · exact ih d hr
    · next hi =>
      have hi' : AreNodesIndep_ g pair.1 pair.2 = true := by simpa using hi
      have ht : (TryAddingSuperiorEdge_ g pair.1 pair.2).1 = false := by
        rw [← Bool.not_eq_true]
        intro ht
        exact h pair (List.mem_cons_self _ _) ⟨hi', (TryAddingSuperiorEdge_fst _ _ _).mp ht⟩
      have hn := TryAddingSuperiorEdge_none _ _ _ ht
      dsimp only
      rw [hn]
      simp only [Bool.false_eq_true, if_false]
      exact ih d hr

/-- The state in which the multi-pass loop stops: every pair is dependent or still in the list,
and if the last sweep added no edge then no pair is active. -/
theorem multiPassRun_settled (P : List (Nat × Nat)) (fuel : Nat) (g : DataDepGraph)
    (L : List (Nat × Nat)) (d : Bool)
    (h1 : ∀ p ∈ P, AreNodesIndep_ g p.1 p.2 = false ∨ p ∈ L)
    (h2 : d = false → ∀ p ∈ P, ¬ Active g p.1 p.2) :
    (∀ p ∈ P, AreNodesIndep_ (multiPassRun fuel g L d).2.graph p.1 p.2 = false ∨
      p ∈ (multiPassRun fuel g L d).2.indepNodes) ∧
    ((multiPassRun fuel g L d).2.didAddEdge = false →
      ∀ p ∈ P, ¬ Active (multiPassRun fuel g L d).2.graph p.1 p.2) := by
  induction fuel generalizing g L d with
  | zero => exact ⟨h1, h2⟩
  | succ fuel ih =>
    unfold multiPassRun
    split
    · dsimp only
      apply ih
      · intro p hp
        rcases h1 p hp with hd | hm
        · exact Or.inl (AreNodesIndep_false_grows (multiPassSweep_grows L g false) _ _ hd)
        · rcases multiPassSweep_covered L g false p hm with h | h
          · exact Or.inr h
          · exact Or.inl h
      · intro hq p hp
        obtain ⟨q1, q2⟩ := multiPassSweep_quiet L g false hq
        rw [q1]
        rcases h1 p hp with hd | hm
        · exact Active.indep hd
        · exact q2 p hm
    · exact ⟨h1, h2⟩

theorem ApplyTrans_sameInsts (IsMultiPass : Bool) (g : DataDepGraph) :
    SameInsts g (ApplyTrans IsMultiPass g).2 := by
  have h1 : SameInsts g (firstPass g.instCnt g).graph := by
    rw [firstPass_allPairs]
    exact (foldPairs_grows (allPairs g.instCnt) ⟨g, [], false⟩).2.1
  unfold ApplyTrans
  cases IsMultiPass
  · exact h1
  · exact h1.chain (multiPassLoop_edges _ _ _ _).2

/-- On a graph without an active pair, `ApplyTrans` changes nothing. -/
theorem ApplyTrans_fixed (g : DataDepGraph)
    (h : ∀ p ∈ allPairs g.instCnt, ¬ Active g p.1 p.2) (IsMultiPass : Bool) :
    (ApplyTrans IsMultiPass g).2 = g := by
  obtain ⟨c1, c2⟩ := foldPairs_inert (allPairs g.instCnt) ⟨g, [], false⟩ h
  rw [← firstPass_allPairs] at c1 c2
  have c1' : (firstPass g.instCnt g).graph = g := c1
  unfold ApplyTrans
  cases IsMultiPass
  · exact c1'
  · show nodeMultiPass_ (firstPass g.instCnt g).graph (firstPass g.instCnt g).indepNodes = g
    unfold nodeMultiPass_ multiPassLoop
    rw [c1']
    split
    · have hL : ∀ p ∈ (firstPass g.instCnt g).indepNodes, ¬ Active g p.1 p.2 := by
        intro p hp
        rcases c2 p hp with hm | hm
        · cases hm
        · exact h p hm
      obtain ⟨s1, s2⟩ := multiPassSweep_inert _ g false hL
      dsimp only
      rw [s1, s2, multiPassLoop_false]
    · rfl

/-- After `ApplyTrans` in multi-pass mode no pair is active. -/
theorem ApplyTrans_multiPass_settled (g : DataDepGraph) :
    ∀ p ∈ allPairs g.instCnt, ¬ Active (ApplyTrans true g).2 p.1 p.2 := by
  have hcov := foldPairs_covered (allPairs g.instCnt) ⟨g, [], false⟩
  rw [← firstPass_allPairs] at hcov
  obtain ⟨r1, r2⟩ := multiPassRun_settled (allPairs g.instCnt)
    ((firstPass g.instCnt g).indepNodes.length + 1) (firstPass g.instCnt g).graph
    (firstPass g.instCnt g).indepNodes true hcov (fun hd => by cases hd)
  obtain ⟨-, b2, -⟩ := multiPassRun_bound ((firstPass g.instCnt g).indepNodes.length + 1)
    (firstPass g.instCnt g).graph (firstPass g.instCnt g).indepNodes true (Nat.lt_succ_self _)
  have hg : (ApplyTrans true g).2 = (multiPassRun ((firstPass g.instCnt g).indepNodes.length + 1)
      (firstPass g.instCnt g).graph (firstPass g.instCnt g).indepNodes true).2.graph := by
    rw [multiPassRun_graph]
    rfl
  rw [hg]
  rw [Bool.and_eq_false_iff] at b2
  intro p hp
  rcases b2 with hd | hl
  · exact r2 hd p hp
  · have hnil : (multiPassRun ((firstPass g.instCnt g).indepNodes.length + 1)
        (firstPass g.instCnt g).graph (firstPass g.instCnt g).indepNodes true).2.indepNodes
        = [] := by
      have : ¬ (multiPassRun ((firstPass g.instCnt g).indepNodes.length + 1)
        (firstPass g.instCnt g).graph (firstPass g.instCnt g).indepNodes
        true).2.indepNodes.length > 0 := by simpa using hl
      exact List.length_eq_zero.mp (by omega)
    rcases r1 p hp with h | h
    · exact Active.indep h
    · rw [hnil] at h
      cases h

/-- A single-pass run adds no edge exactly when the graph has no active pair. -/
theorem ApplyTrans_single_quiet (g : DataDepGraph) :
    ((ApplyTrans false g).2.edges = g.edges ↔
      ∀ i j, i < j → j < g.instCnt → ¬ Active g i j) ∧
    ((ApplyTrans false g).2.edges = g.edges → (ApplyTrans false g).2 = g) := by
  have hall : (∀ i j, i < j → j < g.instCnt → ¬ Active g i j) ↔
      ∀ p ∈ allPairs g.instCnt, ¬ Active g p.1 p.2 := by
    constructor
    · intro h p hp
      obtain ⟨h1, h2⟩ := (mem_allPairs g.instCnt p.1 p.2).mp hp
      exact h p.1 p.2 h1 h2
    · intro h i j h1 h2
      exact h (i, j) ((mem_allPairs g.instCnt i j).mpr ⟨h1, h2⟩)
  have hfix : (ApplyTrans false g).2.edges = g.edges →
      ∀ p ∈ allPairs g.instCnt, ¬ Active g p.1 p.2 := by
    intro he
    have he' : (firstPass g.instCnt g).graph.edges = g.edges := he
    rw [firstPass_allPairs] at he'
    exact foldPairs_active (allPairs g.instCnt) ⟨g, [], false⟩ (by rw [he'])
  refine ⟨⟨fun he => hall.mpr (hfix he), fun h => ?_⟩, fun he => ApplyTrans_fixed g (hfix he) false⟩
  rw [ApplyTrans_fixed g (hall.mp h) false]

/-- The paths of `lateSuperior`: the edge `1 -> 2` only. -/
theorem lateSuperior_reach (a b : Nat) : Reach lateSuperior.edges a b ↔ a = 1 ∧ b = 2 := by
  constructor
  · intro h
    have h' : Reach ([] ++ [⟨1, 2, 1, DependenceType.DEP_OTHER⟩]) a b := h
    rcases Reach.of_snoc h' with h0 | ⟨h1, h2⟩
    · exact absurd h0 Reach.nil
    · rcases h1 with h1 | h1
      · rcases h2 with h2 | h2
        · exact ⟨h1, h2⟩
        · exact absurd h2 Reach.nil
      · exact absurd h1 Reach.nil
  · rintro ⟨rfl, rfl⟩
    exact Reach.new_edge [] ⟨1, 2, 1, DependenceType.DEP_OTHER⟩

theorem lateSuperior_exact : ExactReach lateSuperior := by
  intro a b
  rw [lateSuperior_reach]
  constructor
  · by_cases ha : a = 1
    · simp [lateSuperior, ha, eq_comm]
    · simp [lateSuperior, ha]
  · by_cases hb : b = 2
    · simp [lateSuperior, hb, eq_comm]
    · simp [lateSuperior, hb]

/-- C12, as the code has it: the graph `lateSuperior` is acyclic with exact recursive sets; the
first single-pass run adds the edge `0 -> 2` only, because when the pair `(0, 1)` is visited
instruction 0 still lacks the successor 2 of instruction 1; the second run then adds the edge
`0 -> 1`. -/
theorem singlePass_second_run_adds_edge :
    Acyclic lateSuperior ∧ ExactReach lateSuperior ∧
    (ApplyTrans false lateSuperior).2.edges =
      [⟨1, 2, 1, DependenceType.DEP_OTHER⟩, ⟨0, 2, 0, DependenceType.DEP_OTHER⟩] ∧
    (ApplyTrans false (ApplyTrans false lateSuperior).2).2.edges =
      [⟨1, 2, 1, DependenceType.DEP_OTHER⟩, ⟨0, 2, 0, DependenceType.DEP_OTHER⟩,
        ⟨0, 1, 0, DependenceType.DEP_OTHER⟩] ∧
    (ApplyTrans false (ApplyTrans false lateSuperior).2).2.edges ≠
      (ApplyTrans false lateSuperior).2.edges := by
  refine ⟨?_, lateSuperior_exact, by decide, by decide, by decide⟩
  intro a h
  have := (lateSuperior_reach a a).mp h
  omega

/-- C12, amended: for every dependence graph, a second immediate run of `ApplyTrans` in
single-pass mode adds zero edges if and only if the graph after the first run has no pair of
instructions `i < j` that are independent with one of them superior to the other, and then the
second run changes nothing at all; after a run in multi-pass mode there is no such pair, so
that a second immediate run, in either mode, leaves the graph as it is. -/
theorem ApplyTrans_second_run (g : DataDepGraph) :
    ((ApplyTrans false (ApplyTrans false g).2).2.edges = (ApplyTrans false g).2.edges ↔
      ∀ i j, i < j → j < g.instCnt → ¬ Active (ApplyTrans false g).2 i j) ∧
    ((ApplyTrans false (ApplyTrans false g).2).2.edges = (ApplyTrans false g).2.edges →
      (ApplyTrans false (ApplyTrans false g).2).2 = (ApplyTrans false g).2) ∧
    (∀ i j, i < j → j < g.instCnt → ¬ Active (ApplyTrans true g).2 i j) ∧
    (∀ IsMultiPass,
      (ApplyTrans IsMultiPass (ApplyTrans true g).2).2 = (ApplyTrans true g).2) := by
  have hn1 : (ApplyTrans false g).2.instCnt = g.instCnt := (ApplyTrans_sameInsts false g).1
  have hn2 : (ApplyTrans true g).2.instCnt = g.instCnt := (ApplyTrans_sameInsts true g).1
  have hs := ApplyTrans_multiPass_settled g
  refine ⟨?_, (ApplyTrans_single_quiet _).2, ?_, ?_⟩
  · have := (ApplyTrans_single_quiet (ApplyTrans false g).2).1
    rw [hn1] at this
    exact this
  · intro i j h1 h2
    exact hs (i, j) ((mem_allPairs g.instCnt i j).mpr ⟨h1, h2⟩)
  · intro m
    apply ApplyTrans_fixed
    rw [hn2]
    exact hs

/-! ## The fixpoint of the multi-pass mode -/

/-- Under mutually consistent recursive sets, independence does not depend on the order of the
two instructions. -/
theorem AreNodesIndep_swap {g : DataDepGraph} (c : Consistent g) {a b : Nat}
    (h : AreNodesIndep_ g a b = true) : AreNodesIndep_ g b a = true := by
  obtain ⟨hne, hp, hs⟩ := AreNodesIndep_.spec h
  simp only [AreNodesIndep_, DataDepGraph.IsRcrsvPrdcsr, DataDepGraph.IsRcrsvScsr,
    Bool.and_eq_true, bne_iff_ne, ne_eq, Bool.not_eq_true', decide_eq_false_iff_not]
  exact ⟨⟨fun e => hne e.symm, fun hm => hs ((c a b).mp hm)⟩, fun hm => hp ((c b a).mpr hm)⟩

/-- C21: for every acyclic dependence graph with exact recursive sets, after `ApplyTrans` in
multi-pass mode no two instructions of the graph are independent with `NodeIsSuperior_` holding
in either orientation; and a second immediate multi-pass `ApplyTrans` leaves the graph as it is,
so it adds zero edges. -/
theorem multiPass_fixpoint (g : DataDepGraph) (ac : Acyclic g) (ex : ExactReach g) :
    (∀ a b, a < g.instCnt → b < g.instCnt →
      AreNodesIndep_ (ApplyTrans true g).2 a b = true →
      NodeIsSuperior_ (ApplyTrans true g).2 a b = false ∧
        NodeIsSuperior_ (ApplyTrans true g).2 b a = false) ∧
    (ApplyTrans true (ApplyTrans true g).2).2 = (ApplyTrans true g).2 ∧
    (ApplyTrans true (ApplyTrans true g).2).2.edges = (ApplyTrans true g).2.edges := by
  have hs := ApplyTrans_multiPass_settled g
  have hn : (ApplyTrans true g).2.instCnt = g.instCnt := (ApplyTrans_sameInsts true g).1
  have hinv : PassInv g (ApplyTrans true g).2 :=
    PassInv.multiPassLoop _ _ _ _ (PassInv.firstPass g.instCnt ac ex)
  have hc : Consistent (ApplyTrans true g).2 := hinv.2.1.consistent
  have hfix : (ApplyTrans true (ApplyTrans true g).2).2 = (ApplyTrans true g).2 := by
    apply ApplyTrans_fixed
    rw [hn]
    exact hs
  have hlt : ∀ a b, a < b → b < g.instCnt →
      AreNodesIndep_ (ApplyTrans true g).2 a b = true →
      NodeIsSuperior_ (ApplyTrans true g).2 a b = false ∧
        NodeIsSuperior_ (ApplyTrans true g).2 b a = false := by
    intro a b hab hb hi
    have hna := hs (a, b) ((mem_allPairs g.instCnt a b).mpr ⟨hab, hb⟩)
    constructor
    · rw [← Bool.not_eq_true]
      exact fun h => hna ⟨hi, Or.inl h⟩
    · rw [← Bool.not_eq_true]
      exact fun h => hna ⟨hi, Or.inr h⟩
  refine ⟨?_, hfix, by rw [hfix]⟩
  intro a b ha hb hi
  have hne : a ≠ b := (AreNodesIndep_.spec hi).1
  rcases Nat.lt_or_gt_of_ne hne with hab | hba
  · exact hlt a b hab hb hi
  · exact (hlt b a hba ha (AreNodesIndep_swap hc hi)).symm

/-- C21 on the sample graph with the dependence `0 -> 2`. -/
theorem multiPass_fixpoint_threeNodes :
    (Acyclic threeNodes ∧ ExactReach threeNodes) ∧
    ((∀ a b, a < threeNodes.instCnt → b < threeNodes.instCnt →
      AreNodesIndep_ (ApplyTrans true threeNodes).2 a b = true →
      NodeIsSuperior_ (ApplyTrans true threeNodes).2 a b = false ∧
        NodeIsSuperior_ (ApplyTrans true threeNodes).2 b a = false) ∧
    (ApplyTrans true (ApplyTrans true threeNodes).2).2 = (ApplyTrans true threeNodes).2 ∧
    (ApplyTrans true (ApplyTrans true threeNodes).2).2.edges =
      (ApplyTrans true threeNodes).2.edges) :=
  ⟨⟨threeNodes_acyclic, threeNodes_exact⟩,
    multiPass_fixpoint threeNodes threeNodes_acyclic threeNodes_exact⟩

/-! ## The nested loop of the update after a superior edge -/

/-- Recursive sets that are mutually consistent, contain every edge, are transitive and hold
only pairs joined by a path are exact. -/
theorem ExactReach.ofClosed (g : DataDepGraph) (c : Consistent g)
    (hedge : ∀ e ∈ g.edges, e.dst ∈ g.rcrsvScsr e.src)
    (htrans : ∀ x y z, y ∈ g.rcrsvScsr x → z ∈ g.rcrsvScsr y → z ∈ g.rcrsvScsr x)
    (hpath : ∀ x y, y ∈ g.rcrsvScsr x → Reach g.edges x y) : ExactReach g := by
  have hsound : ∀ x y, Reach g.edges x y → y ∈ g.rcrsvScsr x := by
    intro x y h
    induction h with
    | single h1 =>
      obtain ⟨e, he, rfl, rfl⟩ := h1
      exact hedge e he
    | tail _ h2 ih =>
      obtain ⟨e, he, rfl, rfl⟩ := h2
      exact htrans _ _ _ ih (hedge e he)
  intro a b
  refine ⟨⟨hpath a b, hsound a b⟩, ⟨fun h => hpath a b ((c a b).mp h), fun h => ?_⟩⟩
  exact (c a b).mpr (hsound a b h)

theorem diamond_exact : ExactReach diamond := by
  have e01 : EdgeRel diamond.edges 0 1 := ⟨⟨0, 1, 1, DependenceType.DEP_DATA⟩, by decide, rfl, rfl⟩
  have e02 : EdgeRel diamond.edges 0 2 := ⟨⟨0, 2, 1, DependenceType.DEP_DATA⟩, by decide, rfl, rfl⟩
  have e13 : EdgeRel diamond.edges 1 3 := ⟨⟨1, 3, 1, DependenceType.DEP_DATA⟩, by decide, rfl, rfl⟩
  have e23 : EdgeRel diamond.edges 2 3 := ⟨⟨2, 3, 1, DependenceType.DEP_DATA⟩, by decide, rfl, rfl⟩
  have hmem : ∀ x y, y ∈ diamond.rcrsvScsr x ↔
      ((x = 0 ∧ (y = 1 ∨ y = 2 ∨ y = 3)) ∨ (x = 1 ∧ y = 3) ∨ (x = 2 ∧ y = 3)) := by
    intro x y
    by_cases h0 : x = 0
    · subst h0; simp [diamond]
    · by_cases h1 : x = 1
      · subst h1; simp [diamond]
      · by_cases h2 : x = 2
        · subst h2; simp [diamond]
        · simp [diamond, h0, h1, h2]
  have hmemP : ∀ x y, x ∈ diamond.rcrsvPrdcsr y ↔
      ((x = 0 ∧ (y = 1 ∨ y = 2 ∨ y = 3)) ∨ (x = 1 ∧ y = 3) ∨ (x = 2 ∧ y = 3)) := by
    intro x y
    by_cases h1 : y = 1
    · subst h1; simp [diamond]
    · by_cases h2 : y = 2
      · subst h2; simp [diamond]
      · by_cases h3 : y = 3
        · subst h3; simp [diamond]; omega
        · simp [diamond, h1, h2, h3]
  apply ExactReach.ofClosed
  · intro a b
    rw [hmem, hmemP]
  · intro e he
    rw [hmem]
    simp only [diamond, List.mem_cons, List.mem_singleton, List.not_mem_nil, or_false] at he
    rcases he with rfl | rfl | rfl | rfl <;> simp
  · intro x y z hxy hyz
    rw [hmem] at hxy hyz ⊢
    omega
  · intro x y h
    rw [hmem] at h
    rcases h with ⟨rfl, rfl | rfl | rfl⟩ | ⟨rfl, rfl⟩ | ⟨rfl, rfl⟩
    · exact Relation.TransGen.single e01
    · exact Relation.TransGen.single e02
    · exact Relation.TransGen.tail (Relation.TransGen.single e01) e13
    · exact Relation.TransGen.single e13
    · exact Relation.TransGen.single e23

/-- C22: when `AddSuperiorEdge_(A, B)` is called on a graph whose recursive sets are exactly the
transitive closure of its edges, for independent instructions `A`, `B` with `NodeIsSuperior_(A,
B)` true: every recursive predecessor of `A` already has `B` and every recursive successor of
`B` among its recursive successors, and `A` already has every recursive successor of `B`; so
every test `!X->IsRcrsvScsr(Y)` of the nested loop of `UpdatePrdcsrAndScsr_` fails, the nested
loop leaves the graph as the two insertions before it made it, and the one reachability fact
that changes is `A -> B`, which is new. -/
theorem AddSuperiorEdge_changes_one_fact (g : DataDepGraph) (A B : Nat) (ex : ExactReach g)
    (hi : AreNodesIndep_ g A B = true ∨ AreNodesIndep_ g B A = true)
    (sup : NodeIsSuperior_ g A B = true) :
    (∀ X ∈ g.rcrsvPrdcsr A, B ∈ g.rcrsvScsr X) ∧
    (∀ X ∈ g.rcrsvPrdcsr A, ∀ Y ∈ g.rcrsvScsr B, Y ∈ g.rcrsvScsr X) ∧
    (∀ Y ∈ g.rcrsvScsr B, Y ∈ g.rcrsvScsr A) ∧
    (∀ X ∈ (((g.CreateEdge A B 0 DependenceType.DEP_OTHER).AddRcrsvScsr A B).AddRcrsvPrdcsr B
        A).rcrsvPrdcsr A,
      ∀ Y ∈ (((g.CreateEdge A B 0 DependenceType.DEP_OTHER).AddRcrsvScsr A B).AddRcrsvPrdcsr B
        A).rcrsvScsr B,
      (((g.CreateEdge A B 0 DependenceType.DEP_OTHER).AddRcrsvScsr A B).AddRcrsvPrdcsr B
        A).IsRcrsvScsr X Y = true) ∧
    AddSuperiorEdge_ g A B =
      ((g.CreateEdge A B 0 DependenceType.DEP_OTHER).AddRcrsvScsr A B).AddRcrsvPrdcsr B A ∧
    (∀ x y, y ∈ (AddSuperiorEdge_ g A B).rcrsvScsr x ↔
      (y ∈ g.rcrsvScsr x ∨ (x = A ∧ y = B))) ∧
    (∀ x y, x ∈ (AddSuperiorEdge_ g A B).rcrsvPrdcsr y ↔
      (x ∈ g.rcrsvPrdcsr y ∨ (x = A ∧ y = B))) ∧
    B ∉ g.rcrsvScsr A ∧ A ∉ g.rcrsvPrdcsr B := by
  have c : Consistent g := ex.consistent
  obtain ⟨hp, hs⟩ := NodeIsSuperior_.subsets sup
  have hne : A ≠ B := by
    rcases hi with h | h
    · exact (AreNodesIndep_.spec h).1
    · exact fun e => (AreNodesIndep_.spec h).1 e.symm
  have hBne : ¬ B = A := fun e => hne e.symm
  have hnew : B ∉ g.rcrsvScsr A := by
    rcases hi with h | h
    · exact (AreNodesIndep_.spec h).2.2
    · exact fun hm => (AreNodesIndep_.spec h).2.1 ((c A B).mpr hm)
  have h1 : ∀ X ∈ g.rcrsvPrdcsr A, B ∈ g.rcrsvScsr X :=
    fun X hX => (c X B).mp (hp X hX)
  have h2 : ∀ X ∈ g.rcrsvPrdcsr A, ∀ Y ∈ g.rcrsvScsr B, Y ∈ g.rcrsvScsr X := by
    intro X hX Y hY
    have r1 : Reach g.edges X B := (ex X B).2.mp (hp X hX)
    have r2 : Reach g.edges B Y := (ex B Y).1.mp hY
    exact (ex X Y).1.mpr (Relation.TransGen.trans r1 r2)
  have hguard : ∀ X ∈ (((g.CreateEdge A B 0 DependenceType.DEP_OTHER).AddRcrsvScsr A
        B).AddRcrsvPrdcsr B A).rcrsvPrdcsr A,
      ∀ Y ∈ (((g.CreateEdge A B 0 DependenceType.DEP_OTHER).AddRcrsvScsr A B).AddRcrsvPrdcsr B
        A).rcrsvScsr B,
      Y ∈ (((g.CreateEdge A B 0 DependenceType.DEP_OTHER).AddRcrsvScsr A B).AddRcrsvPrdcsr B
        A).rcrsvScsr X := by
    intro X hX Y hY
    have hX' : X ∈ g.rcrsvPrdcsr A := by
      simpa [DataDepGraph.AddRcrsvPrdcsr, DataDepGraph.AddRcrsvScsr, DataDepGraph.CreateEdge,
        hne] using hX
    have hY' : Y ∈ g.rcrsvScsr B := by
      simpa [DataDepGraph.AddRcrsvPrdcsr, DataDepGraph.AddRcrsvScsr, DataDepGraph.CreateEdge,
        hBne] using hY
    have r3 := h2 X hX' Y hY'
    simp only [DataDepGraph.AddRcrsvPrdcsr, DataDepGraph.AddRcrsvScsr, DataDepGraph.CreateEdge]
    split
    · exact List.mem_append_left _ r3
    · exact r3
  have hnoop : AddSuperiorEdge_ g A B =
      ((g.CreateEdge A B 0 DependenceType.DEP_OTHER).AddRcrsvScsr A B).AddRcrsvPrdcsr B A := by
    unfold AddSuperiorEdge_ UpdatePrdcsrAndScsr_
    exact foldl_foldl_updatePair_noop _ _ _ hguard
  refine ⟨h1, h2, hs, ?_, hnoop, ?_, ?_, hnew, fun hm => hnew ((c A B).mp hm)⟩
  · intro X hX Y hY
    simp only [DataDepGraph.IsRcrsvScsr, decide_eq_true_eq]
    exact hguard X hX Y hY
  · intro x y
    rw [hnoop]
    simp only [DataDepGraph.AddRcrsvPrdcsr, DataDepGraph.AddRcrsvScsr, DataDepGraph.CreateEdge]
    by_cases hx : x = A
    · simp [hx]
    · simp [hx]
  · intro x y
    rw [hnoop]
    simp only [DataDepGraph.AddRcrsvPrdcsr, DataDepGraph.AddRcrsvScsr, DataDepGraph.CreateEdge]
    by_cases hy : y = B
    · simp [hy]
    · simp [hy]

/-- C22 on the diamond `0 -> 1 -> 3`, `0 -> 2 -> 3`, for the superior edge `1 -> 2`: the nested
loop visits the pair `(0, 3)`, which is a recorded fact already, and the recursive sets gain
the pair `(1, 2)` only. -/
theorem AddSuperiorEdge_changes_one_fact_diamond :
    ExactReach diamond ∧ AreNodesIndep_ diamond 1 2 = true ∧
    NodeIsSuperior_ diamond 1 2 = true ∧
    diamond.rcrsvPrdcsr 1 = [0] ∧ diamond.rcrsvScsr 2 = [3] ∧
    [0, 1, 2, 3].map (AddSuperiorEdge_ diamond 1 2).rcrsvScsr = [[1, 2, 3], [3, 2], [3], []] ∧
    [0, 1, 2, 3].map (AddSuperiorEdge_ diamond 1 2).rcrsvPrdcsr = [[], [0], [0, 1], [1, 2, 0]] ∧
    (∀ x y, y ∈ (AddSuperiorEdge_ diamond 1 2).rcrsvScsr x ↔
      (y ∈ diamond.rcrsvScsr x ∨ (x = 1 ∧ y = 2))) :=
  ⟨diamond_exact, by decide, by decide, rfl, rfl, by decide, by decide,
    (AddSuperiorEdge_changes_one_fact diamond 1 2 diamond_exact (Or.inl (by decide))
      (by decide)).2.2.2.2.2.1⟩

end OptSched
